import Mathlib

/-! Language detection service: orchestrator, detectors and configuration.

Shallow embedding of `internal/language_detection/domain` (entities, errors, ports), of
`internal/language_detection/application/service.go`, of the two adapters under
`internal/language_detection/infrastructure/adapters`, of
`internal/language_detection/infrastructure/config/config.go` and of the response conversion
of `internal/language_detection/infrastructure/grpc/server.go`, followed by the properties
of the orchestrator `LanguageDetectionServiceImpl.DetectLanguage`, of the detectors
`FallbackAdapter.DetectLanguage` and `AWSComprehendAdapter.DetectLanguage`, of the
configuration functions and of `convertToProtobufResponse`.

Modelling conventions.

* A Go `string` is a Lean `String`; `len(s)` is the UTF-8 byte size.
* A Go `int` / `int64` is an `Int` (no arithmetic is performed on them here, only comparison).
* A Go `float32` is abstracted to what `<` observes: NaN, the two infinities, or a finite
  value carried as a rational number (both zeros are the rational `0`). The conversions and
  operations of the pattern-matching detector round to the nearest `float32`, ties to even.
* A Go `map` is the list of its entries; the order in which `range` visits them is an input.
* A Go pointer that may be `nil` is an `Option`; dereferencing `nil` is a run-time panic,
  which the embedding reports as the outcome `none`.
* A Go `error` is a tree: the sentinels of `domain/errors.go`, errors built by `fmt.Errorf`
  with one `%w` verb (they remember their cause), and every other error value.
* The detector is an interface; one call may have effects, so it is a state transformer.
  The wall clock is an input (`elapsedMs` is what `time.Since(startTime).Milliseconds()` reads).
-/

namespace LanguageDetection

/-! ## domain/entities.go -/

/-- Value of a Go `float32` as seen by the comparison operators. -/
inductive Float32 where
  | nan
  | negInf
  | finite (q : ℚ)
  | posInf
  deriving DecidableEq

/-- Go `x < y` on `float32`: false as soon as one side is NaN, the usual order otherwise. -/
def Float32.lt : Float32 → Float32 → Bool
  | .nan, _ => false
  | _, .nan => false
  | .negInf, .negInf => false
  | .negInf, _ => true
  | .finite _, .negInf => false
  | .finite a, .finite b => decide (a < b)
  | .finite _, .posInf => true
  | .posInf, _ => false

/-- Go type `domain.LanguageCode` (a string). -/
abbrev LanguageCode := String

/-- Go type `domain.Confidence` (a float32). -/
abbrev Confidence := Float32

/-- Go type `domain.Text` (a string). -/
abbrev Text := String

/-- Go `map[string]string`, as an association list. -/
abbrev StringMap := List (String × String)

/-- Go builtin `len` on a string: the number of bytes. -/
def len (s : String) : Nat := s.utf8ByteSize

/-- Go struct `domain.LanguageDetectionRequest`. -/
structure LanguageDetectionRequest where
  Text : Text
  DocumentID : String
  Metadata : StringMap
  deriving DecidableEq

/-- Go struct `domain.LanguageAlternative`. -/
structure LanguageAlternative where
  LanguageCode : LanguageCode
  Confidence : Confidence
  deriving DecidableEq

/-- Go struct `domain.ProcessingMetadata`. -/
structure ProcessingMetadata where
  ProcessingTimeMs : Int
  ServiceVersion : String
  ModelVersion : String
  Provider : String
  Details : StringMap
  deriving DecidableEq

/-- Go struct `domain.LanguageDetectionResponse`. -/
structure LanguageDetectionResponse where
  LanguageCode : LanguageCode
  Confidence : Confidence
  Alternatives : List LanguageAlternative
  DocumentID : String
  Metadata : ProcessingMetadata
  deriving DecidableEq

/-! ## domain/errors.go and the `errors` / `fmt.Errorf` machinery it relies on -/

/-- The six package-level error values of `domain/errors.go`. -/
inductive DomainError where
  | ErrEmptyText
  | ErrTextTooLong
  | ErrInvalidLanguageCode
  | ErrLowConfidence
  | ErrInvalidRequest
  | ErrInternalError
  deriving DecidableEq

/-- An operand of `fmt.Errorf` other than the wrapped error. -/
inductive FmtArg where
  | int (n : Int)
  | float (x : Float32)
  | str (s : String)
  deriving DecidableEq

/-- A Go `error` value. `wrapf format args cause` is `fmt.Errorf(format, ...)` whose format has
one `%w` verb bound to `cause`; `args` are the remaining operands in order. `foreign` stands
for any error that is neither a domain sentinel nor built by `fmt.Errorf` with `%w`. -/
inductive GoError where
  | sentinel (e : DomainError)
  | foreign (id : Nat) (msg : String)
  | wrapf (format : String) (args : List FmtArg) (cause : GoError)
  deriving DecidableEq

/-- Go `errors.Unwrap`. -/
def errorsUnwrap : GoError → Option GoError
  | .wrapf _ _ cause => some cause
  | _ => none

/-- Go `errors.Is(err, target)`: `err` or some error in its chain of causes equals `target`. -/
def errorsIs : GoError → GoError → Bool
  | .wrapf format args cause, target =>
      decide (GoError.wrapf format args cause = target) || errorsIs cause target
  | err, target => decide (err = target)

/-! ## domain/ports.go -/

/-- What a Go function of result type `(*LanguageDetectionResponse, error)` returns. -/
abbrev Returned := Option LanguageDetectionResponse × Option GoError

/-- Interface `domain.LanguageDetector`: one call of `DetectLanguage(ctx, text)` in detector
state `st` returns a pair and leaves the detector in a new state. -/
abbrev LanguageDetector (σ : Type) := Text → σ → Returned × σ

/-- Interface `domain.ConfigProvider`: the values its five getters return. -/
structure ConfigProvider where
  GetMaxTextLength : Int
  GetMinConfidenceThreshold : Float32
  GetSupportedLanguages : List LanguageCode
  GetServiceVersion : String
  GetModelVersion : String

/-! ## application/service.go -/

/-- Go struct `application.LanguageDetectionServiceImpl`. -/
structure LanguageDetectionServiceImpl (σ : Type) where
  detector : LanguageDetector σ
  config : ConfigProvider

/-- The membership loop of `validateResponse`
(`for _, lang := range supported { if lang == code { found = true; break } }`). -/
def findSupported : List LanguageCode → LanguageCode → Bool
  | [], _ => false
  | lang :: rest, code => if lang = code then true else findSupported rest code

/-- Method `validateRequest`; `none` is the Go `nil` error. -/
def LanguageDetectionServiceImpl.validateRequest {σ : Type} (s : LanguageDetectionServiceImpl σ)
    (request : Option LanguageDetectionRequest) : Option GoError :=
  match request with
  | none => some (.sentinel .ErrInvalidRequest)
  | some request =>
    let text := request.Text
    if text = "" then
      some (.sentinel .ErrEmptyText)
    else if (len text : Int) > s.config.GetMaxTextLength then
      some (.wrapf "%w: text length %d exceeds maximum %d"
        [.int (len text), .int s.config.GetMaxTextLength] (.sentinel .ErrTextTooLong))
    else
      none

/-- Method `validateResponse`; `none` is the Go `nil` error. -/
def LanguageDetectionServiceImpl.validateResponse {σ : Type} (s : LanguageDetectionServiceImpl σ)
    (response : Option LanguageDetectionResponse) : Option GoError :=
  match response with
  | none => some (.sentinel .ErrInternalError)
  | some response =>
    if Float32.lt response.Confidence s.config.GetMinConfidenceThreshold then
      some (.wrapf "%w: confidence %.2f below threshold %.2f"
        [.float response.Confidence, .float s.config.GetMinConfidenceThreshold]
        (.sentinel .ErrLowConfidence))
    else
      let supported := s.config.GetSupportedLanguages
      if supported.length > 0 then
        let found := findSupported supported response.LanguageCode
        if !found then
          some (.wrapf "%w: %s" [.str response.LanguageCode] (.sentinel .ErrInvalidLanguageCode))
        else
          none
      else
        none

/-- Method `DetectLanguage` of the orchestrator. The result is `none` when the Go code would
panic on a nil dereference (`request.Text`, `response.DocumentID = ...`), and otherwise the
returned pair together with the state the detector is left in. -/
def LanguageDetectionServiceImpl.DetectLanguage {σ : Type} (s : LanguageDetectionServiceImpl σ)
    (request : Option LanguageDetectionRequest) (elapsedMs : Int) (st : σ) :
    Option (Returned × σ) :=
  match s.validateRequest request with
  | some err => some ((none, some (.wrapf "validation failed: %w" [] err)), st)
  | none =>
    match request with
    | none => none
    | some req =>
      match s.detector req.Text st with
      | ((_, some err), st1) =>
          some ((none, some (.wrapf "language detection failed: %w" [] err)), st1)
      | ((response, none), st1) =>
        match s.validateResponse response with
        | some err => some ((none, some (.wrapf "response validation failed: %w" [] err)), st1)
        | none =>
          match response with
          | none => none
          | some resp =>
            some ((some { resp with
                      DocumentID := req.DocumentID
                      Metadata := { resp.Metadata with
                        ProcessingTimeMs := elapsedMs
                        ServiceVersion := s.config.GetServiceVersion
                        ModelVersion := s.config.GetModelVersion } },
                   none), st1)


/-! ## Go library functions used by the adapters

`strings.TrimSpace`, `strings.Fields`, `strings.TrimFunc` and `unicode.IsSpace` are written
out. `unicode.ToLower` (a table of the Unicode standard), the formatting of a float by
`fmt.Sprintf("%.3f", x)` and the order in which `range` visits a map are inputs, collected
in `GoRuntime`. Arithmetic on `float32` computes the exact rational result and rounds it
to the nearest `float32` (`Float32.ofRat`); a constant such as `0.05` is the `float32`
nearest to it. -/

/-- Go `unicode.IsSpace`. -/
def unicodeIsSpace (r : Char) : Bool :=
  r.toNat = 0x09 || r.toNat = 0x0A || r.toNat = 0x0B || r.toNat = 0x0C || r.toNat = 0x0D ||
  r.toNat = 0x20 || r.toNat = 0x85 || r.toNat = 0xA0 || r.toNat = 0x1680 ||
  (0x2000 ≤ r.toNat && r.toNat ≤ 0x200A) || r.toNat = 0x2028 || r.toNat = 0x2029 ||
  r.toNat = 0x202F || r.toNat = 0x205F || r.toNat = 0x3000

/-- Go `strings.TrimFunc(s, f)`: `s` without its leading and trailing runes that satisfy `f`. -/
def stringsTrimFunc (s : String) (f : Char → Bool) : String :=
  String.mk ((s.data.dropWhile f).rdropWhile f)

/-- Go `strings.TrimSpace`. -/
def stringsTrimSpace (s : String) : String :=
  stringsTrimFunc s unicodeIsSpace

/-- Go `strings.ToLower`, given `unicode.ToLower`: every rune is mapped to its lower case. -/
def stringsToLower (unicodeToLower : Char → Char) (s : String) : String :=
  String.mk (s.data.map unicodeToLower)

/-- The scan of `strings.Fields`: `cur` holds the runes of the field being read, last rune
first; a field ends at a white-space rune or at the end of the input. -/
def fieldsFrom : List Char → List Char → List String
  | [], cur => if cur = [] then [] else [String.mk cur.reverse]
  | r :: rest, cur =>
    if unicodeIsSpace r then
      if cur = [] then fieldsFrom rest [] else String.mk cur.reverse :: fieldsFrom rest []
    else
      fieldsFrom rest (r :: cur)

/-- Go `strings.Fields`: the maximal runs of runes that are not white space, in order. -/
def stringsFields (s : String) : List String :=
  fieldsFrom s.data []

/-- Nearest integer to `p / d` for `d > 0`, a tie going to the even integer. -/
def roundHalfEven (p d : Nat) : Nat :=
  if 2 * (p % d) < d then p / d
  else if d < 2 * (p % d) then p / d + 1
  else if (p / d) % 2 = 0 then p / d
  else p / d + 1

/-- The power `2 ^ e` for an integer `e`, as a rational. -/
def pow2 (e : Int) : ℚ :=
  if 0 ≤ e then ((2 ^ e.toNat : Nat) : ℚ) else 1 / ((2 ^ (-e).toNat : Nat) : ℚ)

/-- The scan behind `natLog2`: `fuel` bounds the number of halvings. -/
def log2Fuel : Nat → Nat → Nat
  | 0, _ => 0
  | fuel + 1, n => if 2 ≤ n then log2Fuel fuel (n / 2) + 1 else 0

/-- The position of the highest set bit of `n` (0 for `n = 0`). -/
def natLog2 (n : Nat) : Nat := log2Fuel n n

/-- The binary exponent of a positive rational `a`: the integer `e` with
`2 ^ e ≤ a < 2 ^ (e + 1)`. -/
def binaryExponent (a : ℚ) : Int :=
  let e0 : Int := (natLog2 a.num.toNat : Int) - (natLog2 a.den : Int)
  if pow2 e0 ≤ a then e0 else e0 - 1

/-- The `float32` nearest to the exact value `q` (IEEE 754 binary32: 24 significant bits,
exponents from -126 to 127, subnormal numbers below, round to nearest with ties to the even
significand, overflow to an infinity). This is the rounding that every `float32` conversion
and operation of Go ends with. -/
def Float32.ofRat (q : ℚ) : Float32 :=
  if q = 0 then .finite 0
  else
    let a := |q|
    let e := max (binaryExponent a) (-126)
    let ulp := pow2 (e - 23)
    let x := a / ulp
    let mag := (roundHalfEven x.num.toNat x.den : ℚ) * ulp
    if pow2 128 ≤ mag then (if q < 0 then .negInf else .posInf)
    else .finite (if q < 0 then -mag else mag)

/-- Go conversion `float32(n)` of a non-negative integer. -/
def Float32.ofNat (n : Nat) : Float32 := Float32.ofRat n

/-- Go `x + y` on `float32`. -/
def Float32.add : Float32 → Float32 → Float32
  | .nan, _ => .nan
  | _, .nan => .nan
  | .posInf, .negInf => .nan
  | .negInf, .posInf => .nan
  | .posInf, _ => .posInf
  | _, .posInf => .posInf
  | .negInf, _ => .negInf
  | _, .negInf => .negInf
  | .finite a, .finite b => Float32.ofRat (a + b)

/-- Go `x / y` on `float32` (a zero divisor is the positive zero): dividing by zero does not
panic, it gives an infinity, or NaN for `0 / 0`. -/
def Float32.div : Float32 → Float32 → Float32
  | .nan, _ => .nan
  | _, .nan => .nan
  | .finite _, .posInf => .finite 0
  | .finite _, .negInf => .finite 0
  | .finite a, .finite b =>
    if b = 0 then (if a = 0 then .nan else if 0 < a then .posInf else .negInf)
    else Float32.ofRat (a / b)
  | .posInf, .finite b => if 0 ≤ b then .posInf else .negInf
  | .negInf, .finite b => if 0 ≤ b then .negInf else .posInf
  | _, _ => .nan

/-- What the Go runtime and standard library contribute to a call of the adapter. -/
structure GoRuntime where
  /-- Go `unicode.ToLower`. -/
  unicodeToLower : Char → Char
  /-- Go `fmt.Sprintf("%.3f", x)`. -/
  sprintfFloat3 : Float32 → String
  /-- Order in which `range languageScores` visits the map in the best-score loop. -/
  rangeBest : List (LanguageCode × Float32) → List (LanguageCode × Float32)
  /-- Order in which `range languageScores` visits the map in the alternatives loop. -/
  rangeAlternatives : List (LanguageCode × Float32) → List (LanguageCode × Float32)

/-- `unicode.ToLower` on the code points below U+0100 (`A`-`Z` and the Latin-1 capitals);
the identity above. -/
def toLowerLatin1 (r : Char) : Char :=
  if (0x41 ≤ r.toNat ∧ r.toNat ≤ 0x5A) ∨
      (0xC0 ≤ r.toNat ∧ r.toNat ≤ 0xDE ∧ r.toNat ≠ 0xD7) then
    Char.ofNat (r.toNat + 32)
  else r

/-- What the model asks of a runtime: a `range` over a map visits each entry exactly once,
and `unicode.ToLower` never turns a rune that is not white space into white space. -/
def GoRuntime.WellFormed (rt : GoRuntime) : Prop :=
  (∀ l, (rt.rangeBest l).Perm l) ∧ (∀ l, (rt.rangeAlternatives l).Perm l) ∧
  (∀ r, unicodeIsSpace (rt.unicodeToLower r) = true → unicodeIsSpace r = true)

/-- The format `%.3f` applied to the rational the model carries: three decimals, the last
one rounded half to even. -/
def formatFloat3 : Float32 → String
  | .nan => "NaN"
  | .posInf => "+Inf"
  | .negInf => "-Inf"
  | .finite q =>
    let r := |q| * 1000
    let whole := r.num.toNat / r.den
    let twice := 2 * (r.num.toNat % r.den)
    let n := if twice > r.den ∨ (twice = r.den ∧ whole % 2 = 1) then whole + 1 else whole
    let frac := toString (n % 1000)
    (if q < 0 then "-" else "") ++ toString (n / 1000) ++ "." ++
      String.mk (List.replicate (3 - frac.length) '0') ++ frac

/-- A runtime for closed examples: Latin-1 lower-casing, and both loops visit the map in the
order its entries are listed. -/
def exampleRuntime : GoRuntime :=
  { unicodeToLower := toLowerLatin1
    sprintfFloat3 := formatFloat3
    rangeBest := fun l => l
    rangeAlternatives := fun l => l }

/-- The runtime `exampleRuntime` with both loops visiting the map in reverse order. -/
def reversedRuntime : GoRuntime :=
  { unicodeToLower := toLowerLatin1
    sprintfFloat3 := formatFloat3
    rangeBest := fun l => l.reverse
    rangeAlternatives := fun l => l.reverse }

/-- The runes `w` written `n` times, followed by the runes `rest`. -/
def repeatRunes (w : List Char) : Nat → List Char → List Char
  | 0, rest => rest
  | n + 1, rest => w ++ repeatRunes w n rest

/-- A text for closed examples: the word "the" `a` times, then the word "el" `b + 1` times,
with one space between two words. -/
def repeatedText (a b : Nat) : Text :=
  String.mk (repeatRunes "the ".data a (repeatRunes "el ".data b "el".data))

/-! ## infrastructure/adapters/fallback_adapter.go -/

/-- Go struct `adapters.FallbackAdapter`; the map `patterns` is the list of its entries. -/
structure FallbackAdapter where
  patterns : List (String × List String)

/-- Constructor `NewFallbackAdapter`: the marker words of the four configured languages. -/
def NewFallbackAdapter : FallbackAdapter :=
  { patterns :=
     [("en-US",
        ["the", "and", "or", "but", "in", "on", "at", "to", "for", "of", "with", "by", "a", "an",
        "is", "are", "was", "were", "be", "been", "being", "have", "has", "had", "do", "does",
        "did", "will", "would", "could", "should", "may", "might", "can", "this", "that",
        "these", "those", "i", "you", "he", "she", "it", "we", "they", "welcome",
        "presentation", "today", "discussing", "technology", "trends", "talk", "artificial",
        "intelligence", "revolutionizing", "industries", "worldwide", "machine", "learning",
        "algorithms", "becoming", "sophisticated", "explore", "cloud", "computing", "solutions",
        "platforms", "offer", "scalable", "infrastructure", "finally", "examine",
        "cybersecurity", "measures", "protecting", "data", "crucial", "digital", "world",
        "thank", "attention"]),
      ("es-ES",
        ["hola", "bienvenidos", "presentación", "hoy", "vamos", "discutir", "sobre",
        "tendencias", "tecnológicas", "primero", "hablemos", "inteligencia", "artificial",
        "revolucionando", "muchas", "industrias", "mundo", "algoritmos", "aprendizaje",
        "automático", "volviendo", "sofisticados", "siguiente", "exploraremos", "soluciones",
        "computación", "nube", "plataformas", "ofrecen", "infraestructura", "escalable",
        "finalmente", "examinemos", "medidas", "ciberseguridad", "proteger", "datos", "crucial",
        "digital", "gracias", "atención", "el", "la", "los", "las", "de", "del", "que", "y",
        "en", "un", "una", "es", "son", "por", "para", "con", "sin"]),
      ("fr-FR",
        ["bonjour", "bienvenue", "présentation", "aujourd'hui", "allons", "discuter",
        "tendances", "technologiques", "intelligence", "artificielle", "révolutionne",
        "nombreuses", "industries", "algorithmes", "apprentissage", "automatique", "deviennent",
        "sophistiqués", "ensuite", "explorerons", "solutions", "informatique", "nuage",
        "plateformes", "offrent", "infrastructure", "évolutive", "enfin", "examinerons",
        "mesures", "cybersécurité", "protéger", "données", "crucial", "numérique", "merci",
        "attention", "le", "la", "les", "de", "du", "des", "que", "et", "en", "un", "une",
        "est", "sont", "pour", "par", "avec", "sans"]),
      ("de-DE",
        ["willkommen", "präsentation", "heute", "werden", "diskutieren", "neuesten",
        "technologietrends", "zuerst", "sprechen", "über", "künstliche", "intelligenz",
        "revolutioniert", "viele", "branchen", "weltweit", "algorithmen", "maschinelles",
        "lernen", "werden", "raffinierter", "als", "nächstes", "werden", "wir", "explorieren",
        "cloud-computing", "lösungen", "cloud-plattformen", "bieten", "skalierbare",
        "infrastruktur", "schließlich", "lassen", "uns", "cybersicherheitsmaßnahmen",
        "untersuchen", "datenschutz", "ist", "entscheidend", "in", "der", "heutigen",
        "digitalen", "welt", "danke", "für", "ihre", "aufmerksamkeit", "der", "die", "das",
        "und", "in", "auf", "zu", "für", "von", "mit", "ohne", "über", "unter"])] }

/-- The predicate handed to `strings.TrimFunc` in `calculateLanguageScore`: the rune is not
an ASCII letter or digit. -/
def notAsciiAlnum (r : Char) : Bool :=
  !((r ≥ 'a' && r ≤ 'z') || (r ≥ 'A' && r ≤ 'Z') || (r ≥ '0' && r ≤ '9'))

/-- The local `cleanWord` of `calculateLanguageScore`: the word without its leading and
trailing runes that are not ASCII letters or digits, lower-cased. -/
def cleanWord (rt : GoRuntime) (word : String) : String :=
  stringsToLower rt.unicodeToLower (stringsTrimFunc word notAsciiAlnum)

/-- The loop `for _, word := range words` of `calculateLanguageScore`, started with the
score reached so far; `patternSet[cleanWord]` is membership in `patterns`. -/
def countMatches (rt : GoRuntime) (patterns : List String) : List String → Float32 → Float32
  | [], score => score
  | word :: rest, score =>
    if patterns.contains (cleanWord rt word) then
      countMatches rt patterns rest (Float32.add score (.finite 1))
    else
      countMatches rt patterns rest score

/-- Method `calculateLanguageScore`. -/
def FallbackAdapter.calculateLanguageScore (_f : FallbackAdapter) (rt : GoRuntime)
    (words : List String) (patterns : List String) : Float32 :=
  countMatches rt patterns words (.finite 0)

/-- The quotient `score / totalWords` that the first loop of `DetectLanguage` stores for a
language whose marker words are `patterns`. -/
def FallbackAdapter.ratio (f : FallbackAdapter) (rt : GoRuntime) (words : List String)
    (patterns : List String) : Float32 :=
  Float32.div (f.calculateLanguageScore rt words patterns) (Float32.ofNat words.length)

/-- The loop that finds the language with the highest score, started with the best pair
found so far (`if score > bestScore { bestLang = lang; bestScore = score }`). -/
def findBest : List (LanguageCode × Float32) → LanguageCode × Float32 → LanguageCode × Float32
  | [], best => best
  | (lang, score) :: rest, (bestLang, bestScore) =>
    if Float32.lt bestScore score then findBest rest (lang, score)
    else findBest rest (bestLang, bestScore)

/-- The loop that collects the alternatives
(`if lang != bestLang && score > 0.05 { alternatives = append(alternatives, ...) }`). -/
def collectAlternatives (bestLang : LanguageCode) :
    List (LanguageCode × Float32) → List LanguageAlternative
  | [] => []
  | (lang, score) :: rest =>
    if lang ≠ bestLang ∧ Float32.lt (Float32.ofRat (1 / 20)) score = true then
      { LanguageCode := lang, Confidence := score } :: collectAlternatives bestLang rest
    else
      collectAlternatives bestLang rest

/-- The local `textStr` of `DetectLanguage`: the text trimmed of surrounding white space,
then lower-cased. -/
def normalizedText (rt : GoRuntime) (text : Text) : String :=
  stringsToLower rt.unicodeToLower (stringsTrimSpace text)

/-- The map `languageScores` filled by the first loop of `DetectLanguage`, as the list of
its entries: one per entry of `f.patterns`, holding `score / totalWords`. -/
def FallbackAdapter.languageScores (f : FallbackAdapter) (rt : GoRuntime)
    (words : List String) : List (LanguageCode × Float32) :=
  let totalWords := Float32.ofNat words.length
  f.patterns.map fun entry =>
    (entry.1, Float32.div (f.calculateLanguageScore rt words entry.2) totalWords)

/-- The pair `(bestLang, bestScore)` left by the second loop of `DetectLanguage`, which
starts from the zero values `("", 0)`. -/
def FallbackAdapter.best (f : FallbackAdapter) (rt : GoRuntime) (words : List String) :
    LanguageCode × Float32 :=
  findBest (rt.rangeBest (f.languageScores rt words)) ("", .finite 0)

/-- The slice `alternatives` left by the third loop of `DetectLanguage`. -/
def FallbackAdapter.alternatives (f : FallbackAdapter) (rt : GoRuntime)
    (words : List String) : List LanguageAlternative :=
  collectAlternatives (f.best rt words).1 (rt.rangeAlternatives (f.languageScores rt words))

/-- Method `FallbackAdapter.DetectLanguage`. -/
def FallbackAdapter.DetectLanguage (f : FallbackAdapter) (rt : GoRuntime) (text : Text) :
    Returned :=
  let textStr := normalizedText rt text
  if len textStr < 3 then
    (some { LanguageCode := "unknown", Confidence := .finite 0, Alternatives := [],
            DocumentID := "",
            Metadata := { ProcessingTimeMs := 0, ServiceVersion := "", ModelVersion := "",
                          Provider := "fallback",
                          Details := [("reason", "text_too_short")] } }, none)
  else
    let words := stringsFields textStr
    if words.length = 0 then
      (some { LanguageCode := "unknown", Confidence := .finite 0, Alternatives := [],
              DocumentID := "",
              Metadata := { ProcessingTimeMs := 0, ServiceVersion := "", ModelVersion := "",
                            Provider := "fallback",
                            Details := [("reason", "no_words_found")] } }, none)
    else
      let bestLang := (f.best rt words).1
      let bestScore := (f.best rt words).2
      let alternatives := f.alternatives rt words
      if Float32.lt bestScore (Float32.ofRat (3 / 20)) then
        (some { LanguageCode := "unknown", Confidence := bestScore,
                Alternatives := alternatives, DocumentID := "",
                Metadata := { ProcessingTimeMs := 0, ServiceVersion := "", ModelVersion := "",
                              Provider := "fallback",
                              Details := [("reason", "low_confidence"),
                                          ("best_score", rt.sprintfFloat3 bestScore)] } }, none)
      else
        (some { LanguageCode := bestLang, Confidence := bestScore,
                Alternatives := alternatives, DocumentID := "",
                Metadata := { ProcessingTimeMs := 0, ServiceVersion := "", ModelVersion := "",
                              Provider := "fallback",
                              Details := [("total_words", toString words.length),
                                          ("best_score", rt.sprintfFloat3 bestScore)] } }, none)

/-! ## infrastructure/adapters/aws_comprehend_adapter.go

The AWS SDK is outside the repository: its client is a state transformer, like the detector
of the orchestrator, and its output types keep the pointers of the SDK as `Option`s.
Slicing a string at a byte offset may cut a rune; `SlicedText` keeps the runes that fit and
the number of bytes left over from the rune that was cut. -/

/-- A Go `float64`, under the abstraction used for `float32`; the conversion between the
two is the identity on the rationals carried (rounding is not modelled). -/
abbrev Float64 := Float32

/-- Go struct `comprehend.DominantLanguage` (both fields are pointers). -/
structure DominantLanguage where
  LanguageCode : Option String
  Score : Option Float64
  deriving DecidableEq

/-- Go struct `comprehend.DetectDominantLanguageOutput` (a slice of pointers). -/
structure DetectDominantLanguageOutput where
  Languages : List (Option DominantLanguage)
  deriving DecidableEq

/-- A Go string `s[:n]` cut out of a valid string: the runes that lie entirely within the
first `n` bytes, and the number of bytes (0 when the cut falls between two runes) that
belong to the rune the slice cuts through. -/
structure SlicedText where
  runes : String
  cut : Nat
  deriving DecidableEq

/-- The runes of `l` that fit in `n` bytes, and the bytes left over when the next rune does
not fit. -/
def takeBytes : List Char → Nat → List Char × Nat
  | [], _ => ([], 0)
  | r :: rest, n =>
    if r.utf8Size ≤ n then
      ((r :: (takeBytes rest (n - r.utf8Size)).1), (takeBytes rest (n - r.utf8Size)).2)
    else
      ([], n)

/-- Go `s[:n]` for `n ≤ len(s)`. -/
def sliceTo (s : String) (n : Nat) : SlicedText :=
  { runes := String.mk (takeBytes s.data n).1, cut := (takeBytes s.data n).2 }

/-- Go `len` of a sliced string. -/
def SlicedText.len (t : SlicedText) : Nat :=
  LanguageDetection.len t.runes + t.cut

/-- Go `strings.TrimSpace` of a sliced string: the bytes of a rune that was cut through
decode to the replacement rune, which is not white space, so nothing is trimmed at that
end. -/
def SlicedText.trimSpace (t : SlicedText) : SlicedText :=
  if t.cut = 0 then { runes := stringsTrimSpace t.runes, cut := 0 }
  else { runes := String.mk (t.runes.data.dropWhile unicodeIsSpace), cut := t.cut }

/-- The call `client.DetectDominantLanguageWithContext(ctx, input)` of the AWS SDK: given
the text and the state of the remote service, an output or an error, and the next state. -/
abbrev ComprehendClient (σ : Type) :=
  SlicedText → σ → (Option DetectDominantLanguageOutput × Option GoError) × σ

/-- Go struct `adapters.AWSComprehendAdapter`. -/
structure AWSComprehendAdapter (σ : Type) where
  client : ComprehendClient σ
  region : String
  maxRetries : Int

/-- Method `convertLanguageCode` (its receiver is not used). -/
def convertLanguageCode (rt : GoRuntime) (awsCode : String) : LanguageCode :=
  let langCode := stringsToLower rt.unicodeToLower awsCode
  if langCode = "en" then "en-US"
  else if langCode = "es" then "es-ES"
  else if langCode = "fr" then "fr-FR"
  else if langCode = "de" then "de-DE"
  else if langCode = "it" then "it-IT"
  else if langCode = "pt" then "pt-PT"
  else if langCode = "ru" then "ru-RU"
  else if langCode = "ja" then "ja-JP"
  else if langCode = "ko" then "ko-KR"
  else if langCode = "zh" ∨ langCode = "zh-tw" ∨ langCode = "zh-cn" then "zh-CN"
  else if langCode = "ar" then "ar-SA"
  else if langCode = "hi" then "hi-IN"
  else awsCode

/-- The loop that finds the language with the highest confidence, started with the current
`dominantLang` (`if dominantLang == nil || *lang.Score > *dominantLang.Score`). The result
is `none` when a nil pointer is dereferenced. -/
def findDominant : List (Option DominantLanguage) → Option DominantLanguage →
    Option (Option DominantLanguage)
  | [], dominantLang => some dominantLang
  | lang :: rest, none => findDominant rest lang
  | lang :: rest, some dominant =>
    match lang with
    | none => none
    | some l =>
      match l.Score, dominant.Score with
      | some score, some dominantScore =>
        if Float32.lt dominantScore score then findDominant rest (some l)
        else findDominant rest (some dominant)
      | _, _ => none

/-- The loop that builds the alternatives from the other detected languages
(`if lang.LanguageCode != nil && *lang.LanguageCode != *dominantLang.LanguageCode`). The
result is `none` when a nil pointer is dereferenced. -/
def awsAlternatives (rt : GoRuntime) (dominantCode : String) :
    List (Option DominantLanguage) → Option (List LanguageAlternative)
  | [] => some []
  | none :: _ => none
  | some l :: rest =>
    match l.LanguageCode with
    | none => awsAlternatives rt dominantCode rest
    | some code =>
      if code ≠ dominantCode then
        match l.Score with
        | none => none
        | some score =>
          match awsAlternatives rt dominantCode rest with
          | none => none
          | some alternatives =>
            some ({ LanguageCode := convertLanguageCode rt code, Confidence := score }
              :: alternatives)
      else awsAlternatives rt dominantCode rest

/-- The answers of `AWSComprehendAdapter.DetectLanguage` that carry only a reason. -/
def awsUnknown (reason : String) : LanguageDetectionResponse :=
  { LanguageCode := "unknown", Confidence := .finite 0, Alternatives := [], DocumentID := "",
    Metadata := { ProcessingTimeMs := 0, ServiceVersion := "", ModelVersion := "",
                  Provider := "aws-comprehend", Details := [("reason", reason)] } }

/-- Method `AWSComprehendAdapter.DetectLanguage`. The result is `none` when the Go code
would panic on a nil dereference, and otherwise the returned pair together with the state
the remote service is left in. -/
def AWSComprehendAdapter.DetectLanguage {σ : Type} (a : AWSComprehendAdapter σ)
    (rt : GoRuntime) (text : Text) (st : σ) : Option (Returned × σ) :=
  let textStr : SlicedText :=
    if len text > 5000 then sliceTo text 5000 else { runes := text, cut := 0 }
  if textStr.trimSpace.len < 3 then
    some ((some (awsUnknown "text_too_short"), none), st)
  else
    match a.client textStr st with
    | ((_, some err), st1) =>
      some ((none, some (.wrapf "AWS Comprehend error: %w" [] err)), st1)
    | ((none, none), _) => none
    | ((some result, none), st1) =>
      if result.Languages.length = 0 then
        some ((some (awsUnknown "no_languages_detected"), none), st1)
      else
        match findDominant result.Languages none with
        | none => none
        | some none => some ((some (awsUnknown "invalid_response"), none), st1)
        | some (some dominantLang) =>
          match dominantLang.LanguageCode with
          | none => some ((some (awsUnknown "invalid_response"), none), st1)
          | some dominantCode =>
            let langCode := convertLanguageCode rt dominantCode
            match dominantLang.Score with
            | none => none
            | some confidence =>
              match awsAlternatives rt dominantCode result.Languages with
              | none => none
              | some alternatives =>
                some ((some { LanguageCode := langCode, Confidence := confidence,
                              Alternatives := alternatives, DocumentID := "",
                              Metadata := { ProcessingTimeMs := 0, ServiceVersion := "",
                                            ModelVersion := "", Provider := "aws-comprehend",
                                            Details := [("region", a.region),
                                              ("total_langs", toString result.Languages.length),
                                              ("aws_lang_code", dominantCode)] } },
                       none), st1)

/-! ## infrastructure/config/config.go -/

/-- Go struct `config.Config`. -/
structure Config where
  ServerAddress : String
  ServerPort : Int
  AWSRegion : String
  UseAWSComprehend : Bool
  MaxTextLength : Int
  MinConfidenceThreshold : Float32
  ServiceVersion : String
  ModelVersion : String
  SupportedLanguages : List LanguageCode
  ShutdownTimeoutSeconds : Int
  deriving DecidableEq

/-- What `NewConfigProvider` reads from outside: the process environment (`os.Getenv`, an
unset variable reads as the empty string) and the parsers `strconv.Atoi`,
`strconv.ParseFloat(s, 32)` and `strconv.ParseBool` (`none` when they return an error). -/
structure Environment where
  Getenv : String → String
  Atoi : String → Option Int
  ParseFloat32 : String → Option Float32
  ParseBool : String → Option Bool

/-- Helper `getEnv`. -/
def getEnv (env : Environment) (key defaultValue : String) : String :=
  if env.Getenv key ≠ "" then env.Getenv key else defaultValue

/-- Helper `getEnvInt`. -/
def getEnvInt (env : Environment) (key : String) (defaultValue : Int) : Int :=
  if env.Getenv key ≠ "" then
    match env.Atoi (env.Getenv key) with
    | some intValue => intValue
    | none => defaultValue
  else defaultValue

/-- Helper `getEnvFloat32`. -/
def getEnvFloat32 (env : Environment) (key : String) (defaultValue : Float32) : Float32 :=
  if env.Getenv key ≠ "" then
    match env.ParseFloat32 (env.Getenv key) with
    | some floatValue => floatValue
    | none => defaultValue
  else defaultValue

/-- Helper `getEnvBool`. -/
def getEnvBool (env : Environment) (key : String) (defaultValue : Bool) : Bool :=
  if env.Getenv key ≠ "" then
    match env.ParseBool (env.Getenv key) with
    | some boolValue => boolValue
    | none => defaultValue
  else defaultValue

/-- The scan of `strings.Split(s, ",")`: `cur` holds the runes of the entry being read, last
rune first; an entry ends at a comma or at the end of the input. -/
def splitCommaFrom : List Char → List Char → List String
  | [], cur => [String.mk cur.reverse]
  | r :: rest, cur =>
    if r = ',' then String.mk cur.reverse :: splitCommaFrom rest []
    else splitCommaFrom rest (r :: cur)

/-- Go `strings.Split(s, ",")`. -/
def stringsSplitComma (s : String) : List String :=
  splitCommaFrom s.data []

/-- The loop of `parseSupportedLanguages`
(`lang = strings.TrimSpace(lang); if lang != "" { result = append(result, lang) }`). -/
def appendLanguages : List String → List LanguageCode
  | [] => []
  | lang :: rest =>
    if stringsTrimSpace lang ≠ "" then stringsTrimSpace lang :: appendLanguages rest
    else appendLanguages rest

/-- Function `parseSupportedLanguages`. -/
def parseSupportedLanguages (languagesStr : String) : List LanguageCode :=
  if languagesStr = "" then
    ["en-US", "es-ES", "fr-FR", "de-DE", "it-IT", "pt-PT", "ru-RU",
     "ja-JP", "ko-KR", "zh-CN", "ar-SA", "hi-IN", "unknown"]
  else
    let result := appendLanguages (stringsSplitComma languagesStr)
    if result.length = 0 then ["en-US", "unknown"]
    else result

/-- Constructor `NewConfigProvider`: the configuration it reads from the environment. -/
def NewConfigProvider (env : Environment) : Config :=
  { ServerAddress := getEnv env "SERVER_ADDRESS" "0.0.0.0"
    ServerPort := getEnvInt env "SERVER_PORT" 6011
    AWSRegion := getEnv env "AWS_REGION" "us-east-1"
    UseAWSComprehend := getEnvBool env "USE_AWS_COMPREHEND" true
    MaxTextLength := getEnvInt env "MAX_TEXT_LENGTH" 5000
    MinConfidenceThreshold := getEnvFloat32 env "MIN_CONFIDENCE_THRESHOLD" (Float32.ofRat (1 / 10))
    ServiceVersion := getEnv env "SERVICE_VERSION" "1.0.0"
    ModelVersion := getEnv env "MODEL_VERSION" "1.0.0"
    SupportedLanguages := parseSupportedLanguages (getEnv env "SUPPORTED_LANGUAGES" "")
    ShutdownTimeoutSeconds := getEnvInt env "SHUTDOWN_TIMEOUT_SECONDS" 30 }

/-- The five getters by which `config.ConfigProvider` implements `domain.ConfigProvider`. -/
def Config.provider (config : Config) : ConfigProvider :=
  { GetMaxTextLength := config.MaxTextLength
    GetMinConfidenceThreshold := config.MinConfidenceThreshold
    GetSupportedLanguages := config.SupportedLanguages
    GetServiceVersion := config.ServiceVersion
    GetModelVersion := config.ModelVersion }

/-- Method `ValidateConfig`; `none` is the Go `nil` error. The errors are built by
`fmt.Errorf` without `%w`: they carry a message and wrap nothing. -/
def ValidateConfig (config : Config) : Option GoError :=
  if config.ServerPort ≤ 0 ∨ config.ServerPort > 65535 then
    some (.foreign 0 ("invalid server port: " ++ toString config.ServerPort))
  else if config.UseAWSComprehend = true ∧ config.AWSRegion = "" then
    some (.foreign 0 "AWS region is required when using AWS Comprehend")
  else if config.MaxTextLength ≤ 0 then
    some (.foreign 0 "max text length must be positive")
  else if Float32.lt config.MinConfidenceThreshold (.finite 0) = true ∨
      Float32.lt (.finite 1) config.MinConfidenceThreshold = true then
    some (.foreign 0 "confidence threshold must be between 0 and 1")
  else if config.SupportedLanguages.length = 0 then
    some (.foreign 0 "at least one supported language must be configured")
  else if config.ShutdownTimeoutSeconds ≤ 0 then
    some (.foreign 0 "shutdown timeout must be positive")
  else
    none

/-- The environment in which no variable is set (the parsers are then never called). -/
def emptyEnvironment : Environment :=
  { Getenv := fun _ => ""
    Atoi := fun _ => none
    ParseFloat32 := fun _ => none
    ParseBool := fun _ => none }

/-! ## infrastructure/grpc/server.go

The generated package `pb` is outside the repository; its message types are taken from the
field list the specification gives for the transport boundary. -/

/-- Modelled from the spec: the message `pb.LanguageAlternative`, missing from the sources,
with the fields `languageCode: string` and `confidence: float` of the transport boundary. -/
structure pb.LanguageAlternative where
  LanguageCode : String
  Confidence : Float32
  deriving DecidableEq

/-- Modelled from the spec: the message `pb.ProcessingMetadata`, missing from the sources,
with the fields `processingTimeMs: int64`, `serviceVersion`, `modelVersion`, `provider` and
`details: map<string,string>` of the transport boundary. -/
structure pb.ProcessingMetadata where
  ProcessingTimeMs : Int
  ServiceVersion : String
  ModelVersion : String
  Provider : String
  Details : StringMap
  deriving DecidableEq

/-- Modelled from the spec: the message `pb.DetectLanguageResponse`, missing from the
sources, with the fields `languageCode`, `confidence`, `alternatives`, `documentId` and
`metadata` of the transport boundary; `Alternatives` is a slice of pointers and `Metadata`
a pointer. -/
structure pb.DetectLanguageResponse where
  LanguageCode : String
  Confidence : Float32
  Alternatives : List (Option pb.LanguageAlternative)
  DocumentId : String
  Metadata : Option pb.ProcessingMetadata
  deriving DecidableEq

/-- The loop of `convertToProtobufResponse`
(`alternatives = append(alternatives, &pb.LanguageAlternative{...})`). -/
def appendPbAlternatives : List LanguageAlternative → List (Option pb.LanguageAlternative)
  | [] => []
  | alt :: rest =>
    some { LanguageCode := alt.LanguageCode, Confidence := alt.Confidence }
      :: appendPbAlternatives rest

/-- Method `Server.convertToProtobufResponse` (its receiver is not used). The result is
`none` when `resp` is nil, where the Go code panics; the field `Details` of the metadata is
not set and stays the nil map. -/
def convertToProtobufResponse (resp : Option LanguageDetectionResponse) :
    Option pb.DetectLanguageResponse :=
  match resp with
  | none => none
  | some resp =>
    let alternatives := appendPbAlternatives resp.Alternatives
    some { LanguageCode := resp.LanguageCode
           Confidence := resp.Confidence
           Alternatives := alternatives
           DocumentId := resp.DocumentID
           Metadata := some { ProcessingTimeMs := resp.Metadata.ProcessingTimeMs
                              ServiceVersion := resp.Metadata.ServiceVersion
                              ModelVersion := resp.Metadata.ModelVersion
                              Provider := resp.Metadata.Provider
                              Details := [] } }

/-- The pattern-matching detector as a `domain.LanguageDetector`: it has no state of its
own, so it leaves the state it is given untouched. -/
def FallbackAdapter.detector (f : FallbackAdapter) (rt : GoRuntime) (σ : Type) :
    LanguageDetector σ :=
  fun text st => (f.DetectLanguage rt text, st)

/-! ## Auxiliary facts -/

theorem findSupported_iff_mem (supported : List LanguageCode) (code : LanguageCode) :
    findSupported supported code = true ↔ code ∈ supported := by
  induction supported with
  | nil => simp [findSupported]
  | cons lang rest ih =>
    by_cases h : lang = code
    · simp [findSupported, h]
    · have h2 : ¬ code = lang := fun h3 => h h3.symm
      simp [findSupported, h, h2, ih]

theorem errorsIs_wrapf_sentinel (format : String) (args : List FmtArg) (cause : GoError)
    (k : DomainError) :
    errorsIs (.wrapf format args cause) (.sentinel k) = errorsIs cause (.sentinel k) := by
  simp [errorsIs]

theorem errorsIs_sentinel_sentinel (j k : DomainError) :
    errorsIs (.sentinel j) (.sentinel k) = decide (j = k) := by
  simp [errorsIs]

theorem errorsIs_self (e : GoError) : errorsIs e e = true := by
  cases e <;> simp [errorsIs]

theorem Float32.lt_irrefl (x : Float32) : Float32.lt x x = false := by
  cases x <;> simp [Float32.lt]

theorem validateRequest_eq_none_iff {σ : Type} (s : LanguageDetectionServiceImpl σ)
    (req : LanguageDetectionRequest) :
    s.validateRequest (some req) = none ↔
      req.Text ≠ "" ∧ (len req.Text : Int) ≤ s.config.GetMaxTextLength := by
  unfold LanguageDetectionServiceImpl.validateRequest
  by_cases h1 : req.Text = ""
  · simp [h1]
  · by_cases h2 : (len req.Text : Int) > s.config.GetMaxTextLength
    · simp [h1, h2]
    · simp [h1, h2]; omega

theorem validateResponse_eq_none_iff {σ : Type} (s : LanguageDetectionServiceImpl σ)
    (resp : LanguageDetectionResponse) :
    s.validateResponse (some resp) = none ↔
      Float32.lt resp.Confidence s.config.GetMinConfidenceThreshold = false ∧
      (s.config.GetSupportedLanguages = [] ∨
        resp.LanguageCode ∈ s.config.GetSupportedLanguages) := by
  unfold LanguageDetectionServiceImpl.validateResponse
  cases hlt : Float32.lt resp.Confidence s.config.GetMinConfidenceThreshold
  · cases hs : s.config.GetSupportedLanguages with
    | nil => simp [hlt, hs]
    | cons a l =>
      have hm := findSupported_iff_mem (a :: l) resp.LanguageCode
      cases hf : findSupported (a :: l) resp.LanguageCode
      · rw [hf] at hm
        simp [hlt, hs, hf]
        simpa using hm
      · rw [hf] at hm
        simp [hlt, hs, hf]
        simpa using hm
  · simp [hlt]

/-- The three outcomes of `validateResponse` on a present response, in the order the checks
run: confidence below the threshold, language code outside a non-empty allow-list, accepted. -/
theorem validateResponse_cases {σ : Type} (s : LanguageDetectionServiceImpl σ)
    (resp : LanguageDetectionResponse) :
    (Float32.lt resp.Confidence s.config.GetMinConfidenceThreshold = true ∧
      s.validateResponse (some resp) =
        some (.wrapf "%w: confidence %.2f below threshold %.2f"
          [.float resp.Confidence, .float s.config.GetMinConfidenceThreshold]
          (.sentinel .ErrLowConfidence))) ∨
    (Float32.lt resp.Confidence s.config.GetMinConfidenceThreshold = false ∧
      s.config.GetSupportedLanguages ≠ [] ∧
      resp.LanguageCode ∉ s.config.GetSupportedLanguages ∧
      s.validateResponse (some resp) =
        some (.wrapf "%w: %s" [.str resp.LanguageCode] (.sentinel .ErrInvalidLanguageCode))) ∨
    (Float32.lt resp.Confidence s.config.GetMinConfidenceThreshold = false ∧
      (s.config.GetSupportedLanguages = [] ∨
        resp.LanguageCode ∈ s.config.GetSupportedLanguages) ∧
      s.validateResponse (some resp) = none) := by
  cases hlt : Float32.lt resp.Confidence s.config.GetMinConfidenceThreshold
  · by_cases hacc : s.config.GetSupportedLanguages = [] ∨
        resp.LanguageCode ∈ s.config.GetSupportedLanguages
    · exact Or.inr (Or.inr ⟨rfl, hacc, (validateResponse_eq_none_iff s resp).mpr ⟨hlt, hacc⟩⟩)
    · have h1 : s.config.GetSupportedLanguages ≠ [] := fun h => hacc (Or.inl h)
      have h2 : resp.LanguageCode ∉ s.config.GetSupportedLanguages := fun h => hacc (Or.inr h)
      have h3 : findSupported s.config.GetSupportedLanguages resp.LanguageCode = false := by
        cases hf : findSupported s.config.GetSupportedLanguages resp.LanguageCode
        · rfl
        · exact absurd ((findSupported_iff_mem _ _).mp hf) h2
      have h4 : 0 < s.config.GetSupportedLanguages.length := List.length_pos.mpr h1
      refine Or.inr (Or.inl ⟨rfl, h1, h2, ?_⟩)
      simp [LanguageDetectionServiceImpl.validateResponse, hlt, h3, h4]
  · refine Or.inl ⟨rfl, ?_⟩
    simp [LanguageDetectionServiceImpl.validateResponse, hlt]

/-! ## The four ways a call of the orchestrator ends -/

/-- Request validation failed: the error is wrapped, the detector state is untouched. -/
theorem DetectLanguage_of_request_rejected {σ : Type} (s : LanguageDetectionServiceImpl σ)
    (request : Option LanguageDetectionRequest) (elapsedMs : Int) (st : σ) (err : GoError)
    (h : s.validateRequest request = some err) :
    s.DetectLanguage request elapsedMs st =
      some ((none, some (.wrapf "validation failed: %w" [] err)), st) := by
  simp [LanguageDetectionServiceImpl.DetectLanguage, h]

/-- The detector returned an error: it is wrapped and the response is dropped. -/
theorem DetectLanguage_of_detector_error {σ : Type} (s : LanguageDetectionServiceImpl σ)
    (req : LanguageDetectionRequest) (elapsedMs : Int) (st st1 : σ)
    (r : Option LanguageDetectionResponse) (err : GoError)
    (hv : s.validateRequest (some req) = none)
    (hd : s.detector req.Text st = ((r, some err), st1)) :
    s.DetectLanguage (some req) elapsedMs st =
      some ((none, some (.wrapf "language detection failed: %w" [] err)), st1) := by
  simp [LanguageDetectionServiceImpl.DetectLanguage, hv, hd]

/-- Response validation failed: the error is wrapped and the response is dropped. -/
theorem DetectLanguage_of_response_rejected {σ : Type} (s : LanguageDetectionServiceImpl σ)
    (req : LanguageDetectionRequest) (elapsedMs : Int) (st st1 : σ)
    (r : Option LanguageDetectionResponse) (err : GoError)
    (hv : s.validateRequest (some req) = none)
    (hd : s.detector req.Text st = ((r, none), st1))
    (hr : s.validateResponse r = some err) :
    s.DetectLanguage (some req) elapsedMs st =
      some ((none, some (.wrapf "response validation failed: %w" [] err)), st1) := by
  simp [LanguageDetectionServiceImpl.DetectLanguage, hv, hd, hr]

/-- Both validations passed: the detector's response is returned with the document id and
the three processing fields overwritten (lines 52-55 of service.go). -/
theorem DetectLanguage_of_accepted {σ : Type} (s : LanguageDetectionServiceImpl σ)
    (req : LanguageDetectionRequest) (elapsedMs : Int) (st st1 : σ)
    (resp : LanguageDetectionResponse)
    (hv : s.validateRequest (some req) = none)
    (hd : s.detector req.Text st = ((some resp, none), st1))
    (hr : s.validateResponse (some resp) = none) :
    s.DetectLanguage (some req) elapsedMs st =
      some ((some { resp with
                DocumentID := req.DocumentID
                Metadata := { resp.Metadata with
                  ProcessingTimeMs := elapsedMs
                  ServiceVersion := s.config.GetServiceVersion
                  ModelVersion := s.config.GetModelVersion } },
             none), st1) := by
  simp [LanguageDetectionServiceImpl.DetectLanguage, hv, hd, hr]

theorem validateRequest_none {σ : Type} (s : LanguageDetectionServiceImpl σ) :
    s.validateRequest none = some (.sentinel .ErrInvalidRequest) := rfl

theorem validateResponse_none {σ : Type} (s : LanguageDetectionServiceImpl σ) :
    s.validateResponse none = some (.sentinel .ErrInternalError) := rfl

/-- Every call returns (no nil dereference is reached), and what it returns is either a
response without error or an error without response. -/
theorem DetectLanguage_total {σ : Type} (s : LanguageDetectionServiceImpl σ)
    (request : Option LanguageDetectionRequest) (elapsedMs : Int) (st : σ) :
    (∃ resp st1, s.DetectLanguage request elapsedMs st = some ((some resp, none), st1)) ∨
    (∃ e st1, s.DetectLanguage request elapsedMs st = some ((none, some e), st1)) := by
  cases hv : s.validateRequest request with
  | some err => exact Or.inr ⟨_, _, DetectLanguage_of_request_rejected s request elapsedMs st err hv⟩
  | none =>
    cases request with
    | none => simp [validateRequest_none] at hv
    | some req =>
      rcases hd : s.detector req.Text st with ⟨⟨r, e⟩, st1⟩
      cases e with
      | some err => exact Or.inr ⟨_, _, DetectLanguage_of_detector_error s req elapsedMs st st1 r err hv hd⟩
      | none =>
        cases hr : s.validateResponse r with
        | some err =>
          exact Or.inr ⟨_, _, DetectLanguage_of_response_rejected s req elapsedMs st st1 r err hv hd hr⟩
        | none =>
          cases r with
          | none => simp [validateResponse_none] at hr
          | some resp =>
            exact Or.inl ⟨_, _, DetectLanguage_of_accepted s req elapsedMs st st1 resp hv hd hr⟩

/-! ## Claims about the orchestrator -/

/-- C1: the orchestrator succeeds (returns a response and a nil error) if and only if the
request is present, its text is non-empty, the byte length of the text is at most
`maxTextLength`, the detector returns a present result without error, the confidence of
that result is not below `minConfidenceThreshold`, and `supportedLanguages` is empty or
contains the result's language code. In every other case it returns an error and an absent
response. -/
theorem DetectLanguage_succeeds_iff {σ : Type} (s : LanguageDetectionServiceImpl σ)
    (request : Option LanguageDetectionRequest) (elapsedMs : Int) (st : σ) :
    ((∃ resp st1, s.DetectLanguage request elapsedMs st = some ((some resp, none), st1)) ↔
      ∃ req, request = some req ∧ req.Text ≠ "" ∧
        (len req.Text : Int) ≤ s.config.GetMaxTextLength ∧
        ∃ resp, (s.detector req.Text st).1 = (some resp, none) ∧
          Float32.lt resp.Confidence s.config.GetMinConfidenceThreshold = false ∧
          (s.config.GetSupportedLanguages = [] ∨
            resp.LanguageCode ∈ s.config.GetSupportedLanguages)) ∧
    ((¬ ∃ resp st1, s.DetectLanguage request elapsedMs st = some ((some resp, none), st1)) →
      ∃ e st1, s.DetectLanguage request elapsedMs st = some ((none, some e), st1)) := by
  refine ⟨⟨?_, ?_⟩, fun h => (DetectLanguage_total s request elapsedMs st).resolve_left h⟩
  · rintro ⟨resp, st2, h⟩
    cases hv : s.validateRequest request with
    | some err =>
      rw [DetectLanguage_of_request_rejected s request elapsedMs st err hv] at h
      simp at h
    | none =>
      cases request with
      | none => simp [validateRequest_none] at hv
      | some req =>
        rcases hd : s.detector req.Text st with ⟨⟨r, e⟩, st1⟩
        cases e with
        | some err =>
          rw [DetectLanguage_of_detector_error s req elapsedMs st st1 r err hv hd] at h
          simp at h
        | none =>
          cases hr : s.validateResponse r with
          | some err =>
            rw [DetectLanguage_of_response_rejected s req elapsedMs st st1 r err hv hd hr] at h
            simp at h
          | none =>
            cases r with
            | none => simp [validateResponse_none] at hr
            | some resp1 =>
              have h1 := (validateRequest_eq_none_iff s req).mp hv
              have h2 := (validateResponse_eq_none_iff s resp1).mp hr
              exact ⟨req, rfl, h1.1, h1.2, resp1, by rw [hd], h2.1, h2.2⟩
  · rintro ⟨req, rfl, h1, h2, resp, hd, h3, h4⟩
    have hv := (validateRequest_eq_none_iff s req).mpr ⟨h1, h2⟩
    have hr := (validateResponse_eq_none_iff s resp).mpr ⟨h3, h4⟩
    have hd1 : s.detector req.Text st = ((some resp, none), (s.detector req.Text st).2) := by
      rw [← hd]
    exact ⟨_, _, DetectLanguage_of_accepted s req elapsedMs st _ resp hv hd1 hr⟩

/-- C1 at the input of `TestDetectLanguage_Success`: the call succeeds. -/
theorem DetectLanguage_succeeds_iff_witness :
    ∃ resp st1,
      LanguageDetectionServiceImpl.DetectLanguage
        { detector := fun _ (n : Nat) =>
            ((some { LanguageCode := "en-US", Confidence := .finite (mkRat 19 20),
                     Alternatives := [], DocumentID := "",
                     Metadata := { ProcessingTimeMs := 0, ServiceVersion := "",
                                   ModelVersion := "", Provider := "test", Details := [] } },
              none), n + 1),
          config := { GetMaxTextLength := 1000, GetMinConfidenceThreshold := .finite (mkRat 1 10),
                      GetSupportedLanguages := ["en-US", "es-ES"],
                      GetServiceVersion := "1.0.0", GetModelVersion := "1.0.0" } }
        (some { Text := "Hello world", DocumentID := "doc-123", Metadata := [] }) 5 0
      = some ((some resp, none), st1) :=
  (DetectLanguage_succeeds_iff _ _ 5 0).1.2
    ⟨_, rfl, by decide, by decide, _, rfl, by decide, Or.inr (by decide)⟩

/-- C2: for a present request with non-empty text, the orchestrator fails with TextTooLong
(its request validation rejects with an error that `errors.Is` `ErrTextTooLong`, without
touching the detector) if and only if the byte length of the text is strictly greater than
`maxTextLength`; at length equal to `maxTextLength` (or below) request validation returns
nil. The last part says what `errors.Is` sees on any failure: `ErrTextTooLong` is in the
chain exactly when the text is too long or the detector's own error carries it. -/
theorem DetectLanguage_TextTooLong_iff {σ : Type} (s : LanguageDetectionServiceImpl σ)
    (req : LanguageDetectionRequest) (elapsedMs : Int) (st : σ) (hne : req.Text ≠ "") :
    ((∃ e, s.DetectLanguage (some req) elapsedMs st =
            some ((none, some (.wrapf "validation failed: %w" [] e)), st) ∧
          errorsIs e (.sentinel .ErrTextTooLong) = true) ↔
      (len req.Text : Int) > s.config.GetMaxTextLength) ∧
    ((len req.Text : Int) ≤ s.config.GetMaxTextLength → s.validateRequest (some req) = none) ∧
    (∀ e st1, s.DetectLanguage (some req) elapsedMs st = some ((none, some e), st1) →
      (errorsIs e (.sentinel .ErrTextTooLong) = true ↔
        ((len req.Text : Int) > s.config.GetMaxTextLength ∨
          ∃ de, (s.detector req.Text st).1.2 = some de ∧
            errorsIs de (.sentinel .ErrTextTooLong) = true))) := by
  by_cases hlen : (len req.Text : Int) > s.config.GetMaxTextLength
  · have hv : s.validateRequest (some req) =
        some (.wrapf "%w: text length %d exceeds maximum %d"
          [.int (len req.Text), .int s.config.GetMaxTextLength] (.sentinel .ErrTextTooLong)) := by
      simp [LanguageDetectionServiceImpl.validateRequest, hne, hlen]
    have hD := DetectLanguage_of_request_rejected s (some req) elapsedMs st _ hv
    refine ⟨⟨fun _ => hlen, fun _ => ⟨_, hD, by simp [errorsIs]⟩⟩, fun h => absurd hlen (by omega),
      fun e st1 h => ?_⟩
    rw [hD] at h
    simp only [Option.some.injEq, Prod.mk.injEq, true_and] at h
    rw [← h.1]
    simp [errorsIs, hlen]
  · have hle : (len req.Text : Int) ≤ s.config.GetMaxTextLength := by omega
    have hv := (validateRequest_eq_none_iff s req).mpr ⟨hne, hle⟩
    rcases hd : s.detector req.Text st with ⟨⟨r, de⟩, st2⟩
    refine ⟨⟨?_, fun h => absurd h hlen⟩, fun _ => hv, fun e st1 h => ?_⟩
    · rintro ⟨e, h, -⟩
      exfalso
      cases de with
      | some err =>
        rw [DetectLanguage_of_detector_error s req elapsedMs st st2 r err hv hd] at h
        simp at h
      | none =>
        cases hr : s.validateResponse r with
        | some err =>
          rw [DetectLanguage_of_response_rejected s req elapsedMs st st2 r err hv hd hr] at h
          simp at h
        | none =>
          cases r with
          | none => simp [validateResponse_none] at hr
          | some resp =>
            rw [DetectLanguage_of_accepted s req elapsedMs st st2 resp hv hd hr] at h
            simp at h
    · cases de with
      | some err =>
        rw [DetectLanguage_of_detector_error s req elapsedMs st st2 r err hv hd] at h
        simp only [Option.some.injEq, Prod.mk.injEq, true_and] at h
        rw [← h.1]
        simp [errorsIs, hlen]
      | none =>
        cases hr : s.validateResponse r with
        | some err =>
          rw [DetectLanguage_of_response_rejected s req elapsedMs st st2 r err hv hd hr] at h
          simp only [Option.some.injEq, Prod.mk.injEq, true_and] at h
          rw [← h.1]
          cases r with
          | none =>
            simp only [validateResponse_none, Option.some.injEq] at hr
            rw [← hr]
            simp [errorsIs, hlen]
          | some resp =>
            unfold LanguageDetectionServiceImpl.validateResponse at hr
            simp only [] at hr
            split at hr
            · simp only [Option.some.injEq] at hr
              rw [← hr]; simp [errorsIs, hlen]
            · split at hr
              · split at hr
                · simp only [Option.some.injEq] at hr
                  rw [← hr]; simp [errorsIs, hlen]
                · simp at hr
              · simp at hr
        | none =>
          cases r with
          | none => simp [validateResponse_none] at hr
          | some resp =>
            rw [DetectLanguage_of_accepted s req elapsedMs st st2 resp hv hd hr] at h
            simp at h

/-- C2 at the input of `TestDetectLanguage_TextTooLong` (limit 10, a text of 21 bytes): the
call fails with TextTooLong and the detector state is the initial one. -/
theorem DetectLanguage_TextTooLong_iff_witness :
    ("This text is too long" : String) ≠ "" ∧
    ∃ e,
      LanguageDetectionServiceImpl.DetectLanguage
        { detector := fun _ (n : Nat) => ((none, none), n + 1),
          config := { GetMaxTextLength := 10, GetMinConfidenceThreshold := .finite 0,
                      GetSupportedLanguages := [],
                      GetServiceVersion := "", GetModelVersion := "" } }
        (some { Text := "This text is too long", DocumentID := "", Metadata := [] }) 0 0
        = some ((none, some (.wrapf "validation failed: %w" [] e)), 0) ∧
      errorsIs e (.sentinel .ErrTextTooLong) = true :=
  ⟨by decide,
   (DetectLanguage_TextTooLong_iff
      { detector := fun _ (n : Nat) => ((none, none), n + 1),
        config := { GetMaxTextLength := 10, GetMinConfidenceThreshold := .finite 0,
                    GetSupportedLanguages := [],
                    GetServiceVersion := "", GetModelVersion := "" } }
      { Text := "This text is too long", DocumentID := "", Metadata := [] } 0 0
      (by decide)).1.2 (by decide)⟩

/-- C3: for a present request whose text is the empty string the orchestrator fails with
EmptyText under every policy and detector; the error is not TextTooLong, also when
`maxTextLength` is zero or negative, and the detector is not called. -/
theorem DetectLanguage_EmptyText {σ : Type} (s : LanguageDetectionServiceImpl σ)
    (req : LanguageDetectionRequest) (elapsedMs : Int) (st : σ) (hempty : req.Text = "") :
    s.DetectLanguage (some req) elapsedMs st =
      some ((none, some (.wrapf "validation failed: %w" [] (.sentinel .ErrEmptyText))), st) ∧
    errorsIs (.wrapf "validation failed: %w" [] (.sentinel .ErrEmptyText))
      (.sentinel .ErrEmptyText) = true ∧
    errorsIs (.wrapf "validation failed: %w" [] (.sentinel .ErrEmptyText))
      (.sentinel .ErrTextTooLong) = false := by
  have hv : s.validateRequest (some req) = some (.sentinel .ErrEmptyText) := by
    simp [LanguageDetectionServiceImpl.validateRequest, hempty]
  exact ⟨DetectLanguage_of_request_rejected s (some req) elapsedMs st _ hv,
    by simp [errorsIs], by simp [errorsIs]⟩

/-- C3 at an empty text under the limit -1, where the length 0 also exceeds the limit. -/
theorem DetectLanguage_EmptyText_witness :
    (len "" : Int) > -1 ∧
    LanguageDetectionServiceImpl.DetectLanguage
      { detector := fun _ (n : Nat) => ((none, none), n + 1),
        config := { GetMaxTextLength := -1, GetMinConfidenceThreshold := .finite 0,
                    GetSupportedLanguages := [],
                    GetServiceVersion := "", GetModelVersion := "" } }
      (some { Text := "", DocumentID := "d", Metadata := [] }) 0 0
      = some ((none, some (.wrapf "validation failed: %w" [] (.sentinel .ErrEmptyText))), 0) :=
  ⟨by decide,
   (DetectLanguage_EmptyText
      { detector := fun _ (n : Nat) => ((none, none), n + 1),
        config := { GetMaxTextLength := -1, GetMinConfidenceThreshold := .finite 0,
                    GetSupportedLanguages := [],
                    GetServiceVersion := "", GetModelVersion := "" } }
      { Text := "", DocumentID := "d", Metadata := [] } 0 0 rfl).1⟩

/-- C4: for an absent (nil) request the orchestrator fails with InvalidRequest, for every
detector, policy and detector state; the detector state is untouched. -/
theorem DetectLanguage_nil_request {σ : Type} (s : LanguageDetectionServiceImpl σ)
    (elapsedMs : Int) (st : σ) :
    s.DetectLanguage none elapsedMs st =
      some ((none, some (.wrapf "validation failed: %w" [] (.sentinel .ErrInvalidRequest))),
        st) ∧
    errorsIs (.wrapf "validation failed: %w" [] (.sentinel .ErrInvalidRequest))
      (.sentinel .ErrInvalidRequest) = true :=
  ⟨DetectLanguage_of_request_rejected s none elapsedMs st _ (validateRequest_none s),
    by simp [errorsIs]⟩

/-- C5: when request validation rejects (absent request, empty text, or text longer than
`maxTextLength`) the detector is not invoked: two services with the same policy and any two
detectors, in any detector states, return the same error and no response, and each detector
is left in the state it was in. -/
theorem DetectLanguage_rejected_detector_independent {σ₁ σ₂ : Type}
    (d₁ : LanguageDetector σ₁) (d₂ : LanguageDetector σ₂) (cfg : ConfigProvider)
    (request : Option LanguageDetectionRequest) (ms₁ ms₂ : Int) (st₁ : σ₁) (st₂ : σ₂)
    (hrej : request = none ∨ ∃ req, request = some req ∧
      (req.Text = "" ∨ (len req.Text : Int) > cfg.GetMaxTextLength)) :
    ∃ e,
      LanguageDetectionServiceImpl.DetectLanguage { detector := d₁, config := cfg }
        request ms₁ st₁ = some ((none, some e), st₁) ∧
      LanguageDetectionServiceImpl.DetectLanguage { detector := d₂, config := cfg }
        request ms₂ st₂ = some ((none, some e), st₂) := by
  have key : ∃ err, ∀ (σ : Type) (d : LanguageDetector σ),
      LanguageDetectionServiceImpl.validateRequest { detector := d, config := cfg } request
        = some err := by
    rcases hrej with rfl | ⟨req, rfl, h | h⟩
    · exact ⟨_, fun _ _ => rfl⟩
    · exact ⟨.sentinel .ErrEmptyText, fun _ _ => by
        simp [LanguageDetectionServiceImpl.validateRequest, h]⟩
    · by_cases h0 : req.Text = ""
      · exact ⟨.sentinel .ErrEmptyText, fun _ _ => by
          simp [LanguageDetectionServiceImpl.validateRequest, h0]⟩
      · exact ⟨.wrapf "%w: text length %d exceeds maximum %d"
            [.int (len req.Text), .int cfg.GetMaxTextLength] (.sentinel .ErrTextTooLong),
          fun _ _ => by simp [LanguageDetectionServiceImpl.validateRequest, h0, h]⟩
  obtain ⟨err, herr⟩ := key
  exact ⟨_, DetectLanguage_of_request_rejected _ request ms₁ st₁ err (herr σ₁ d₁),
    DetectLanguage_of_request_rejected _ request ms₂ st₂ err (herr σ₂ d₂)⟩

/-- C5 at an over-long text, with a detector that would fail and one that would succeed,
both counting their calls: same error, both counters unchanged. -/
theorem DetectLanguage_rejected_detector_independent_witness :
    ∃ e,
      LanguageDetectionServiceImpl.DetectLanguage
        { detector := fun _ (n : Nat) => ((none, some (.foreign 0 "detector error")), n + 1),
          config := { GetMaxTextLength := 10, GetMinConfidenceThreshold := .finite 0,
                      GetSupportedLanguages := [],
                      GetServiceVersion := "", GetModelVersion := "" } }
        (some { Text := "This text is too long", DocumentID := "", Metadata := [] }) 0 7
        = some ((none, some e), 7) ∧
      LanguageDetectionServiceImpl.DetectLanguage
        { detector := fun _ (n : Nat) =>
            ((some { LanguageCode := "en-US", Confidence := .finite 1,
                     Alternatives := [], DocumentID := "",
                     Metadata := { ProcessingTimeMs := 0, ServiceVersion := "",
                                   ModelVersion := "", Provider := "test", Details := [] } },
              none), n + 1),
          config := { GetMaxTextLength := 10, GetMinConfidenceThreshold := .finite 0,
                      GetSupportedLanguages := [],
                      GetServiceVersion := "", GetModelVersion := "" } }
        (some { Text := "This text is too long", DocumentID := "", Metadata := [] }) 3 9
        = some ((none, some e), 9) :=
  DetectLanguage_rejected_detector_independent _ _
    { GetMaxTextLength := 10, GetMinConfidenceThreshold := .finite 0,
      GetSupportedLanguages := [], GetServiceVersion := "", GetModelVersion := "" }
    (some { Text := "This text is too long", DocumentID := "", Metadata := [] }) 0 3 7 9
    (Or.inr ⟨_, rfl, Or.inr (by decide)⟩)

/-- C6: for a valid request (non-empty text of at most `maxTextLength` bytes) and a detector
that returns a present result without error, the orchestrator fails with LowConfidence if
and only if the result's confidence is strictly less than `minConfidenceThreshold`; in
particular a confidence equal to the threshold is not rejected as LowConfidence. -/
theorem DetectLanguage_LowConfidence_iff {σ : Type} (s : LanguageDetectionServiceImpl σ)
    (req : LanguageDetectionRequest) (resp : LanguageDetectionResponse) (elapsedMs : Int)
    (st : σ) (hne : req.Text ≠ "") (hlen : (len req.Text : Int) ≤ s.config.GetMaxTextLength)
    (hd : (s.detector req.Text st).1 = (some resp, none)) :
    ((∃ e st1, s.DetectLanguage (some req) elapsedMs st = some ((none, some e), st1) ∧
        errorsIs e (.sentinel .ErrLowConfidence) = true) ↔
      Float32.lt resp.Confidence s.config.GetMinConfidenceThreshold = true) ∧
    (resp.Confidence = s.config.GetMinConfidenceThreshold →
      ¬ ∃ e st1, s.DetectLanguage (some req) elapsedMs st = some ((none, some e), st1) ∧
        errorsIs e (.sentinel .ErrLowConfidence) = true) := by
  have hv := (validateRequest_eq_none_iff s req).mpr ⟨hne, hlen⟩
  have hd1 : s.detector req.Text st = ((some resp, none), (s.detector req.Text st).2) := by
    rw [← hd]
  have main : (∃ e st1, s.DetectLanguage (some req) elapsedMs st = some ((none, some e), st1) ∧
        errorsIs e (.sentinel .ErrLowConfidence) = true) ↔
      Float32.lt resp.Confidence s.config.GetMinConfidenceThreshold = true := by
    rcases validateResponse_cases s resp with ⟨hlt, hr⟩ | ⟨hlt, -, -, hr⟩ | ⟨hlt, -, hr⟩
    · refine ⟨fun _ => hlt, fun _ => ⟨_, _,
        DetectLanguage_of_response_rejected s req elapsedMs st _ _ _ hv hd1 hr, ?_⟩⟩
      simp [errorsIs]
    · rw [DetectLanguage_of_response_rejected s req elapsedMs st _ _ _ hv hd1 hr, hlt]
      constructor
      · rintro ⟨e, st1, h, he⟩
        simp only [Option.some.injEq, Prod.mk.injEq, true_and] at h
        rw [← h.1] at he
        simp [errorsIs] at he
      · intro h; simp at h
    · rw [DetectLanguage_of_accepted s req elapsedMs st _ resp hv hd1 hr, hlt]
      constructor
      · rintro ⟨e, st1, h, -⟩
        simp at h
      · intro h; simp at h
  refine ⟨main, fun heq hfail => ?_⟩
  have := main.mp hfail
  rw [heq, Float32.lt_irrefl] at this
  simp at this

/-- C6 at the input of `TestDetectLanguage_LowConfidence` (confidence 0.05, threshold 0.1):
the call fails with LowConfidence. -/
theorem DetectLanguage_LowConfidence_iff_witness :
    ∃ e st1,
      LanguageDetectionServiceImpl.DetectLanguage
        { detector := fun _ (n : Nat) =>
            ((some { LanguageCode := "en-US", Confidence := .finite (mkRat 1 20),
                     Alternatives := [], DocumentID := "",
                     Metadata := { ProcessingTimeMs := 0, ServiceVersion := "",
                                   ModelVersion := "", Provider := "test", Details := [] } },
              none), n + 1),
          config := { GetMaxTextLength := 1000, GetMinConfidenceThreshold := .finite (mkRat 1 10),
                      GetSupportedLanguages := [],
                      GetServiceVersion := "", GetModelVersion := "" } }
        (some { Text := "Hello world", DocumentID := "", Metadata := [] }) 0 0
        = some ((none, some e), st1) ∧
      errorsIs e (.sentinel .ErrLowConfidence) = true :=
  (DetectLanguage_LowConfidence_iff
    { detector := fun _ (n : Nat) =>
        ((some { LanguageCode := "en-US", Confidence := .finite (mkRat 1 20),
                 Alternatives := [], DocumentID := "",
                 Metadata := { ProcessingTimeMs := 0, ServiceVersion := "",
                               ModelVersion := "", Provider := "test", Details := [] } },
          none), n + 1),
      config := { GetMaxTextLength := 1000, GetMinConfidenceThreshold := .finite (mkRat 1 10),
                  GetSupportedLanguages := [],
                  GetServiceVersion := "", GetModelVersion := "" } }
    { Text := "Hello world", DocumentID := "", Metadata := [] } _ 0 0
    (by decide) (by decide) rfl).1.2 (by decide)

/-- C7: for a valid request and a detector result (present, returned without error) whose
confidence is not below the threshold, the orchestrator fails with InvalidLanguageCode
exactly when `supportedLanguages` is non-empty and does not contain the result's language
code; the error carries the offending code. The code "unknown" gets no special treatment:
it is rejected unless it is a member of `supportedLanguages`. -/
theorem DetectLanguage_InvalidLanguageCode_iff {σ : Type} (s : LanguageDetectionServiceImpl σ)
    (req : LanguageDetectionRequest) (resp : LanguageDetectionResponse) (elapsedMs : Int)
    (st : σ) (hne : req.Text ≠ "") (hlen : (len req.Text : Int) ≤ s.config.GetMaxTextLength)
    (hd : (s.detector req.Text st).1 = (some resp, none))
    (hconf : Float32.lt resp.Confidence s.config.GetMinConfidenceThreshold = false) :
    ((s.config.GetSupportedLanguages ≠ [] ∧
        resp.LanguageCode ∉ s.config.GetSupportedLanguages) →
      s.DetectLanguage (some req) elapsedMs st =
        some ((none, some (.wrapf "response validation failed: %w" []
          (.wrapf "%w: %s" [.str resp.LanguageCode] (.sentinel .ErrInvalidLanguageCode)))),
          (s.detector req.Text st).2)) ∧
    ((∃ e st1, s.DetectLanguage (some req) elapsedMs st = some ((none, some e), st1) ∧
        errorsIs e (.sentinel .ErrInvalidLanguageCode) = true) ↔
      (s.config.GetSupportedLanguages ≠ [] ∧
        resp.LanguageCode ∉ s.config.GetSupportedLanguages)) := by
  have hv := (validateRequest_eq_none_iff s req).mpr ⟨hne, hlen⟩
  have hd1 : s.detector req.Text st = ((some resp, none), (s.detector req.Text st).2) := by
    rw [← hd]
  rcases validateResponse_cases s resp with ⟨hlt, -⟩ | ⟨-, h1, h2, hr⟩ | ⟨-, hacc, hr⟩
  · rw [hconf] at hlt; simp at hlt
  · have hD := DetectLanguage_of_response_rejected s req elapsedMs st _ _ _ hv hd1 hr
    exact ⟨fun _ => hD, fun _ => ⟨h1, h2⟩, fun _ => ⟨_, _, hD, by simp [errorsIs]⟩⟩
  · have hnot : ¬ (s.config.GetSupportedLanguages ≠ [] ∧
        resp.LanguageCode ∉ s.config.GetSupportedLanguages) := by
      rintro ⟨h1, h2⟩
      rcases hacc with h | h
      · exact h1 h
      · exact h2 h
    refine ⟨fun h => absurd h hnot, ?_, fun h => absurd h hnot⟩
    rintro ⟨e, st1, h, -⟩
    rw [DetectLanguage_of_accepted s req elapsedMs st _ resp hv hd1 hr] at h
    simp at h

/-- C7 at a detector answering "unknown" with confidence 1 under the allow-list
{"en-US", "es-ES"}: the call fails with InvalidLanguageCode. -/
theorem DetectLanguage_InvalidLanguageCode_iff_witness :
    LanguageDetectionServiceImpl.DetectLanguage
      { detector := fun _ (n : Nat) =>
          ((some { LanguageCode := "unknown", Confidence := .finite 1,
                   Alternatives := [], DocumentID := "",
                   Metadata := { ProcessingTimeMs := 0, ServiceVersion := "",
                                 ModelVersion := "", Provider := "test", Details := [] } },
            none), n + 1),
        config := { GetMaxTextLength := 1000, GetMinConfidenceThreshold := .finite 0,
                    GetSupportedLanguages := ["en-US", "es-ES"],
                    GetServiceVersion := "", GetModelVersion := "" } }
      (some { Text := "Bonjour monde", DocumentID := "", Metadata := [] }) 0 0
      = some ((none, some (.wrapf "response validation failed: %w" []
          (.wrapf "%w: %s" [.str "unknown"] (.sentinel .ErrInvalidLanguageCode)))), 1) :=
  (DetectLanguage_InvalidLanguageCode_iff
    { detector := fun _ (n : Nat) =>
        ((some { LanguageCode := "unknown", Confidence := .finite 1,
                 Alternatives := [], DocumentID := "",
                 Metadata := { ProcessingTimeMs := 0, ServiceVersion := "",
                               ModelVersion := "", Provider := "test", Details := [] } },
          none), n + 1),
      config := { GetMaxTextLength := 1000, GetMinConfidenceThreshold := .finite 0,
                  GetSupportedLanguages := ["en-US", "es-ES"],
                  GetServiceVersion := "", GetModelVersion := "" } }
    { Text := "Bonjour monde", DocumentID := "", Metadata := [] } _ 0 0
    (by decide) (by decide) rfl (by decide)).1 ⟨by decide, by decide⟩

/-- C8: the response checks are fail-fast in a fixed order. When a detector result has both
a confidence below `minConfidenceThreshold` and a language code outside a non-empty
`supportedLanguages`, the orchestrator fails with LowConfidence, and the error it returns
is not InvalidLanguageCode. -/
theorem DetectLanguage_LowConfidence_first {σ : Type} (s : LanguageDetectionServiceImpl σ)
    (req : LanguageDetectionRequest) (resp : LanguageDetectionResponse) (elapsedMs : Int)
    (st : σ) (hne : req.Text ≠ "") (hlen : (len req.Text : Int) ≤ s.config.GetMaxTextLength)
    (hd : (s.detector req.Text st).1 = (some resp, none))
    (hlow : Float32.lt resp.Confidence s.config.GetMinConfidenceThreshold = true)
    (_hsup : s.config.GetSupportedLanguages ≠ [])
    (_hcode : resp.LanguageCode ∉ s.config.GetSupportedLanguages) :
    ∃ e, s.DetectLanguage (some req) elapsedMs st =
        some ((none, some e), (s.detector req.Text st).2) ∧
      errorsIs e (.sentinel .ErrLowConfidence) = true ∧
      errorsIs e (.sentinel .ErrInvalidLanguageCode) = false := by
  have hv := (validateRequest_eq_none_iff s req).mpr ⟨hne, hlen⟩
  have hd1 : s.detector req.Text st = ((some resp, none), (s.detector req.Text st).2) := by
    rw [← hd]
  rcases validateResponse_cases s resp with ⟨-, hr⟩ | ⟨hlt, -⟩ | ⟨hlt, -⟩
  · exact ⟨_, DetectLanguage_of_response_rejected s req elapsedMs st _ _ _ hv hd1 hr,
      by simp [errorsIs], by simp [errorsIs]⟩
  · rw [hlow] at hlt; simp at hlt
  · rw [hlow] at hlt; simp at hlt

/-- C8 at a detector answering "fr-FR" with confidence 0.05 under threshold 0.1 and
allow-list {"en-US", "es-ES"}: LowConfidence is reported, InvalidLanguageCode is not. -/
theorem DetectLanguage_LowConfidence_first_witness :
    ∃ e,
      LanguageDetectionServiceImpl.DetectLanguage
        { detector := fun _ (n : Nat) =>
            ((some { LanguageCode := "fr-FR", Confidence := .finite (mkRat 1 20),
                     Alternatives := [], DocumentID := "",
                     Metadata := { ProcessingTimeMs := 0, ServiceVersion := "",
                                   ModelVersion := "", Provider := "test", Details := [] } },
              none), n + 1),
          config := { GetMaxTextLength := 1000, GetMinConfidenceThreshold := .finite (mkRat 1 10),
                      GetSupportedLanguages := ["en-US", "es-ES"],
                      GetServiceVersion := "", GetModelVersion := "" } }
        (some { Text := "Bonjour monde", DocumentID := "", Metadata := [] }) 0 0
        = some ((none, some e), 1) ∧
      errorsIs e (.sentinel .ErrLowConfidence) = true ∧
      errorsIs e (.sentinel .ErrInvalidLanguageCode) = false :=
  DetectLanguage_LowConfidence_first
    { detector := fun _ (n : Nat) =>
        ((some { LanguageCode := "fr-FR", Confidence := .finite (mkRat 1 20),
                 Alternatives := [], DocumentID := "",
                 Metadata := { ProcessingTimeMs := 0, ServiceVersion := "",
                               ModelVersion := "", Provider := "test", Details := [] } },
          none), n + 1),
      config := { GetMaxTextLength := 1000, GetMinConfidenceThreshold := .finite (mkRat 1 10),
                  GetSupportedLanguages := ["en-US", "es-ES"],
                  GetServiceVersion := "", GetModelVersion := "" } }
    { Text := "Bonjour monde", DocumentID := "", Metadata := [] } _ 0 0
    (by decide) (by decide) rfl (by decide) (by decide) (by decide)

/-- C9: if, for a valid request, the detector fails with an error `e`, the orchestrator
returns no response and the error `fmt.Errorf("language detection failed: %w", e)`: its
cause (`errors.Unwrap`) is `e`, `errors.Is` recognises `e` in it, and it matches a
validation sentinel only if `e` itself does. -/
theorem DetectLanguage_detector_error {σ : Type} (s : LanguageDetectionServiceImpl σ)
    (req : LanguageDetectionRequest) (e : GoError) (elapsedMs : Int) (st : σ)
    (hne : req.Text ≠ "") (hlen : (len req.Text : Int) ≤ s.config.GetMaxTextLength)
    (hd : (s.detector req.Text st).1.2 = some e) :
    s.DetectLanguage (some req) elapsedMs st =
      some ((none, some (.wrapf "language detection failed: %w" [] e)),
        (s.detector req.Text st).2) ∧
    errorsUnwrap (.wrapf "language detection failed: %w" [] e) = some e ∧
    errorsIs (.wrapf "language detection failed: %w" [] e) e = true ∧
    (∀ k : DomainError,
      errorsIs (.wrapf "language detection failed: %w" [] e) (.sentinel k) =
        errorsIs e (.sentinel k)) := by
  have hv := (validateRequest_eq_none_iff s req).mpr ⟨hne, hlen⟩
  have hd1 : s.detector req.Text st =
      (((s.detector req.Text st).1.1, some e), (s.detector req.Text st).2) := by
    rw [← hd]
  exact ⟨DetectLanguage_of_detector_error s req elapsedMs st _ _ e hv hd1, rfl,
    by simp [errorsIs, errorsIs_self], fun k => errorsIs_wrapf_sentinel _ _ _ k⟩

/-- C9 at the input of `TestDetectLanguage_DetectorError`. -/
theorem DetectLanguage_detector_error_witness :
    LanguageDetectionServiceImpl.DetectLanguage
      { detector := fun _ (n : Nat) => ((none, some (.foreign 0 "detector error")), n + 1),
        config := { GetMaxTextLength := 1000, GetMinConfidenceThreshold := .finite (mkRat 1 10),
                    GetSupportedLanguages := [],
                    GetServiceVersion := "", GetModelVersion := "" } }
      (some { Text := "Hello world", DocumentID := "", Metadata := [] }) 0 0
      = some ((none, some (.wrapf "language detection failed: %w" []
          (.foreign 0 "detector error"))), 1) :=
  (DetectLanguage_detector_error
    { detector := fun _ (n : Nat) => ((none, some (.foreign 0 "detector error")), n + 1),
      config := { GetMaxTextLength := 1000, GetMinConfidenceThreshold := .finite (mkRat 1 10),
                  GetSupportedLanguages := [],
                  GetServiceVersion := "", GetModelVersion := "" } }
    { Text := "Hello world", DocumentID := "", Metadata := [] } _ 0 0
    (by decide) (by decide) rfl).1

/-- C10: if, for a valid request, the detector returns a nil error and a nil result, the
orchestrator fails with InternalError (and returns no response). -/
theorem DetectLanguage_nil_response {σ : Type} (s : LanguageDetectionServiceImpl σ)
    (req : LanguageDetectionRequest) (elapsedMs : Int) (st : σ)
    (hne : req.Text ≠ "") (hlen : (len req.Text : Int) ≤ s.config.GetMaxTextLength)
    (hd : (s.detector req.Text st).1 = (none, none)) :
    s.DetectLanguage (some req) elapsedMs st =
      some ((none, some (.wrapf "response validation failed: %w" []
        (.sentinel .ErrInternalError))), (s.detector req.Text st).2) ∧
    errorsIs (.wrapf "response validation failed: %w" [] (.sentinel .ErrInternalError))
      (.sentinel .ErrInternalError) = true := by
  have hv := (validateRequest_eq_none_iff s req).mpr ⟨hne, hlen⟩
  have hd1 : s.detector req.Text st = ((none, none), (s.detector req.Text st).2) := by
    rw [← hd]
  exact ⟨DetectLanguage_of_response_rejected s req elapsedMs st _ _ _ hv hd1
    (validateResponse_none s), by simp [errorsIs]⟩

/-- C10 at a detector that returns `(nil, nil)`. -/
theorem DetectLanguage_nil_response_witness :
    LanguageDetectionServiceImpl.DetectLanguage
      { detector := fun _ (n : Nat) => ((none, none), n + 1),
        config := { GetMaxTextLength := 1000, GetMinConfidenceThreshold := .finite (mkRat 1 10),
                    GetSupportedLanguages := ["en-US", "es-ES"],
                    GetServiceVersion := "", GetModelVersion := "" } }
      (some { Text := "Hello world", DocumentID := "", Metadata := [] }) 0 0
      = some ((none, some (.wrapf "response validation failed: %w" []
          (.sentinel .ErrInternalError))), 1) :=
  (DetectLanguage_nil_response
    { detector := fun _ (n : Nat) => ((none, none), n + 1),
      config := { GetMaxTextLength := 1000, GetMinConfidenceThreshold := .finite (mkRat 1 10),
                  GetSupportedLanguages := ["en-US", "es-ES"],
                  GetServiceVersion := "", GetModelVersion := "" } }
    { Text := "Hello world", DocumentID := "", Metadata := [] } 0 0
    (by decide) (by decide) rfl).1

/-! ## What a successful call returns -/

/-- A successful call went through all four stages: the request was present and valid, the
detector answered `dresp` without error, `dresp` passed response validation, and the value
returned is `dresp` with four fields overwritten. -/
theorem DetectLanguage_success_inv {σ : Type} (s : LanguageDetectionServiceImpl σ)
    (request : Option LanguageDetectionRequest) (elapsedMs : Int) (st st1 : σ)
    (resp : LanguageDetectionResponse)
    (h : s.DetectLanguage request elapsedMs st = some ((some resp, none), st1)) :
    ∃ req dresp, request = some req ∧ s.validateRequest (some req) = none ∧
      s.detector req.Text st = ((some dresp, none), st1) ∧
      s.validateResponse (some dresp) = none ∧
      resp = { dresp with
                DocumentID := req.DocumentID
                Metadata := { dresp.Metadata with
                  ProcessingTimeMs := elapsedMs
                  ServiceVersion := s.config.GetServiceVersion
                  ModelVersion := s.config.GetModelVersion } } := by
  cases hv : s.validateRequest request with
  | some err =>
    rw [DetectLanguage_of_request_rejected s request elapsedMs st err hv] at h
    simp at h
  | none =>
    cases request with
    | none => simp [validateRequest_none] at hv
    | some req =>
      rcases hd : s.detector req.Text st with ⟨⟨r, e⟩, st2⟩
      cases e with
      | some err =>
        rw [DetectLanguage_of_detector_error s req elapsedMs st st2 r err hv hd] at h
        simp at h
      | none =>
        cases hr : s.validateResponse r with
        | some err =>
          rw [DetectLanguage_of_response_rejected s req elapsedMs st st2 r err hv hd hr] at h
          simp at h
        | none =>
          cases r with
          | none => simp [validateResponse_none] at hr
          | some dresp =>
            rw [DetectLanguage_of_accepted s req elapsedMs st st2 dresp hv hd hr] at h
            simp only [Option.some.injEq, Prod.mk.injEq, and_true] at h
            obtain ⟨h1, h2⟩ := h
            subst h2
            exact ⟨req, dresp, rfl, hv, hd, hr, h1.symm⟩

/-! ## Claims about the result of a successful call -/

/-- C11: on every successful call of the orchestrator the request is present and the
returned result carries the request's `documentId`, the configured service version and the
configured model version (and, as processing time, the elapsed time read from the clock). -/
theorem DetectLanguage_success_metadata {σ : Type} (s : LanguageDetectionServiceImpl σ)
    (request : Option LanguageDetectionRequest) (elapsedMs : Int) (st st1 : σ)
    (resp : LanguageDetectionResponse)
    (h : s.DetectLanguage request elapsedMs st = some ((some resp, none), st1)) :
    ∃ req, request = some req ∧
      resp.DocumentID = req.DocumentID ∧
      resp.Metadata.ServiceVersion = s.config.GetServiceVersion ∧
      resp.Metadata.ModelVersion = s.config.GetModelVersion ∧
      resp.Metadata.ProcessingTimeMs = elapsedMs := by
  obtain ⟨req, dresp, hreq, -, -, -, hresp⟩ := DetectLanguage_success_inv s request elapsedMs st st1 resp h
  subst hresp
  exact ⟨req, hreq, rfl, rfl, rfl, rfl⟩

/-- C11 at the input of `TestDetectLanguage_Success`. -/
theorem DetectLanguage_success_metadata_witness :
    ∃ req, some ({ Text := "Hello world", DocumentID := "doc-123", Metadata := [] } :
        LanguageDetectionRequest) = some req ∧
      ("doc-123" : String) = req.DocumentID ∧ ("1.0.0" : String) = "1.0.0" ∧
      ("1.0.0" : String) = "1.0.0" ∧ (5 : Int) = 5 :=
  DetectLanguage_success_metadata
    { detector := fun _ (n : Nat) =>
        ((some { LanguageCode := "en-US", Confidence := .finite (mkRat 19 20),
                 Alternatives := [], DocumentID := "",
                 Metadata := { ProcessingTimeMs := 0, ServiceVersion := "",
                               ModelVersion := "", Provider := "test", Details := [] } },
          none), n + 1),
      config := { GetMaxTextLength := 1000, GetMinConfidenceThreshold := .finite (mkRat 1 10),
                  GetSupportedLanguages := ["en-US", "es-ES"],
                  GetServiceVersion := "1.0.0", GetModelVersion := "1.0.0" } }
    (some { Text := "Hello world", DocumentID := "doc-123", Metadata := [] }) 5 0 1
    { LanguageCode := "en-US", Confidence := .finite (mkRat 19 20),
      Alternatives := [], DocumentID := "doc-123",
      Metadata := { ProcessingTimeMs := 5, ServiceVersion := "1.0.0",
                    ModelVersion := "1.0.0", Provider := "test", Details := [] } }
    (by decide)

/-- C12: on every successful call the returned result has the language code, confidence and
alternatives, and the metadata provider and details, of the result the detector produced;
the returned value is the detector's result with only `DocumentID`, `ProcessingTimeMs`,
`ServiceVersion` and `ModelVersion` overwritten. -/
theorem DetectLanguage_success_frame {σ : Type} (s : LanguageDetectionServiceImpl σ)
    (request : Option LanguageDetectionRequest) (elapsedMs : Int) (st st1 : σ)
    (resp : LanguageDetectionResponse)
    (h : s.DetectLanguage request elapsedMs st = some ((some resp, none), st1)) :
    ∃ req dresp, request = some req ∧ s.detector req.Text st = ((some dresp, none), st1) ∧
      resp.LanguageCode = dresp.LanguageCode ∧
      resp.Confidence = dresp.Confidence ∧
      resp.Alternatives = dresp.Alternatives ∧
      resp.Metadata.Provider = dresp.Metadata.Provider ∧
      resp.Metadata.Details = dresp.Metadata.Details ∧
      resp = { dresp with
                DocumentID := req.DocumentID
                Metadata := { dresp.Metadata with
                  ProcessingTimeMs := elapsedMs
                  ServiceVersion := s.config.GetServiceVersion
                  ModelVersion := s.config.GetModelVersion } } := by
  obtain ⟨req, dresp, hreq, -, hd, -, hresp⟩ :=
    DetectLanguage_success_inv s request elapsedMs st st1 resp h
  refine ⟨req, dresp, hreq, hd, ?_, ?_, ?_, ?_, ?_, hresp⟩ <;> rw [hresp]

/-- C12 at a detector result with alternatives and details, which come back untouched. -/
theorem DetectLanguage_success_frame_witness :
    ∃ req dresp,
      some ({ Text := "Hello world", DocumentID := "doc-123", Metadata := [] } :
        LanguageDetectionRequest) = some req ∧
      ((fun (_ : Text) (n : Nat) =>
        (((some { LanguageCode := "en-US", Confidence := .finite (mkRat 19 20),
                  Alternatives := [{ LanguageCode := "es-ES", Confidence := .finite (mkRat 1 5) }],
                  DocumentID := "x",
                  Metadata := { ProcessingTimeMs := 77, ServiceVersion := "a",
                                ModelVersion := "b", Provider := "test",
                                Details := [("k", "v")] } },
          none), n + 1) : Returned × Nat)) req.Text 0 = ((some dresp, none), 1)) ∧
      ("en-US" : String) = dresp.LanguageCode ∧
      Float32.finite (mkRat 19 20) = dresp.Confidence ∧
      [({ LanguageCode := "es-ES", Confidence := .finite (mkRat 1 5) } : LanguageAlternative)]
        = dresp.Alternatives ∧
      ("test" : String) = dresp.Metadata.Provider ∧
      [(("k" : String), ("v" : String))] = dresp.Metadata.Details ∧
      ({ LanguageCode := "en-US", Confidence := .finite (mkRat 19 20),
         Alternatives := [{ LanguageCode := "es-ES", Confidence := .finite (mkRat 1 5) }],
         DocumentID := "doc-123",
         Metadata := { ProcessingTimeMs := 5, ServiceVersion := "1.0.0",
                       ModelVersion := "1.0.0", Provider := "test",
                       Details := [("k", "v")] } } : LanguageDetectionResponse) =
        { dresp with
            DocumentID := req.DocumentID
            Metadata := { dresp.Metadata with
              ProcessingTimeMs := 5
              ServiceVersion := "1.0.0"
              ModelVersion := "1.0.0" } } :=
  DetectLanguage_success_frame
    { detector := fun _ (n : Nat) =>
        ((some { LanguageCode := "en-US", Confidence := .finite (mkRat 19 20),
                 Alternatives := [{ LanguageCode := "es-ES", Confidence := .finite (mkRat 1 5) }],
                 DocumentID := "x",
                 Metadata := { ProcessingTimeMs := 77, ServiceVersion := "a",
                               ModelVersion := "b", Provider := "test",
                               Details := [("k", "v")] } },
          none), n + 1),
      config := { GetMaxTextLength := 1000, GetMinConfidenceThreshold := .finite (mkRat 1 10),
                  GetSupportedLanguages := ["en-US", "es-ES"],
                  GetServiceVersion := "1.0.0", GetModelVersion := "1.0.0" } }
    (some { Text := "Hello world", DocumentID := "doc-123", Metadata := [] }) 5 0 1
    { LanguageCode := "en-US", Confidence := .finite (mkRat 19 20),
      Alternatives := [{ LanguageCode := "es-ES", Confidence := .finite (mkRat 1 5) }],
      DocumentID := "doc-123",
      Metadata := { ProcessingTimeMs := 5, ServiceVersion := "1.0.0",
                    ModelVersion := "1.0.0", Provider := "test", Details := [("k", "v")] } }
    (by decide)

/-- C13: threshold monotonicity. If the orchestrator succeeds with a result of confidence
`c`, then the same call under the policy that differs only in its `minConfidenceThreshold`,
now a `t` with `c < t`, fails with LowConfidence. -/
theorem DetectLanguage_threshold_monotone {σ : Type} (d : LanguageDetector σ)
    (cfg : ConfigProvider) (request : Option LanguageDetectionRequest) (ms ms1 : Int)
    (st st1 : σ) (resp : LanguageDetectionResponse) (t : Float32)
    (h : LanguageDetectionServiceImpl.DetectLanguage { detector := d, config := cfg }
          request ms st = some ((some resp, none), st1))
    (ht : Float32.lt resp.Confidence t = true) :
    ∃ e, LanguageDetectionServiceImpl.DetectLanguage
          { detector := d, config := { cfg with GetMinConfidenceThreshold := t } }
          request ms1 st = some ((none, some e), st1) ∧
      errorsIs e (.sentinel .ErrLowConfidence) = true := by
  obtain ⟨req, dresp, hreq, hv, hd, -, hresp⟩ := DetectLanguage_success_inv _ request ms st st1 resp h
  subst hreq
  have hconf : resp.Confidence = dresp.Confidence := by rw [hresp]
  rw [hconf] at ht
  have hv1 : LanguageDetectionServiceImpl.validateRequest
      { detector := d, config := { cfg with GetMinConfidenceThreshold := t } } (some req)
      = none := by
    rw [validateRequest_eq_none_iff] at hv ⊢
    exact hv
  have hr1 : LanguageDetectionServiceImpl.validateResponse
      { detector := d, config := { cfg with GetMinConfidenceThreshold := t } } (some dresp)
      = some (.wrapf "%w: confidence %.2f below threshold %.2f"
          [.float dresp.Confidence, .float t] (.sentinel .ErrLowConfidence)) := by
    simp [LanguageDetectionServiceImpl.validateResponse, ht]
  exact ⟨_, DetectLanguage_of_response_rejected _ req ms1 st st1 _ _ hv1 hd hr1,
    by simp [errorsIs]⟩

/-- C13 at the result of `TestDetectLanguage_Success` (confidence 0.95) with the threshold
raised from 0.1 to 1. -/
theorem DetectLanguage_threshold_monotone_witness :
    ∃ e, LanguageDetectionServiceImpl.DetectLanguage
          { detector := fun _ (n : Nat) =>
              ((some { LanguageCode := "en-US", Confidence := .finite (mkRat 19 20),
                       Alternatives := [], DocumentID := "",
                       Metadata := { ProcessingTimeMs := 0, ServiceVersion := "",
                                     ModelVersion := "", Provider := "test", Details := [] } },
                none), n + 1),
            config := { GetMaxTextLength := 1000, GetMinConfidenceThreshold := .finite 1,
                        GetSupportedLanguages := ["en-US", "es-ES"],
                        GetServiceVersion := "1.0.0", GetModelVersion := "1.0.0" } }
          (some { Text := "Hello world", DocumentID := "doc-123", Metadata := [] }) 6 0
          = some ((none, some e), 1) ∧
      errorsIs e (.sentinel .ErrLowConfidence) = true :=
  DetectLanguage_threshold_monotone
    (fun _ (n : Nat) =>
        ((some { LanguageCode := "en-US", Confidence := .finite (mkRat 19 20),
                 Alternatives := [], DocumentID := "",
                 Metadata := { ProcessingTimeMs := 0, ServiceVersion := "",
                               ModelVersion := "", Provider := "test", Details := [] } },
          none), n + 1))
    { GetMaxTextLength := 1000, GetMinConfidenceThreshold := .finite (mkRat 1 10),
      GetSupportedLanguages := ["en-US", "es-ES"],
      GetServiceVersion := "1.0.0", GetModelVersion := "1.0.0" }
    (some { Text := "Hello world", DocumentID := "doc-123", Metadata := [] }) 5 6 0 1
    { LanguageCode := "en-US", Confidence := .finite (mkRat 19 20),
      Alternatives := [], DocumentID := "doc-123",
      Metadata := { ProcessingTimeMs := 5, ServiceVersion := "1.0.0",
                    ModelVersion := "1.0.0", Provider := "test", Details := [] } }
    (.finite 1) (by decide) (by decide)

/-- C14, as stated, fails when the smaller set is the empty one: under the allow-list
{"en-US", "es-ES"} the call succeeds with language code "en-US"; with the allow-list
replaced by the empty list (a smaller set that does not contain "en-US") the same call
still succeeds, because an empty `supportedLanguages` switches the check off. -/
theorem DetectLanguage_allowlist_emptied_succeeds :
    (∃ r, LanguageDetectionServiceImpl.DetectLanguage
        { detector := fun _ (n : Nat) =>
            ((some { LanguageCode := "en-US", Confidence := .finite (mkRat 19 20),
                     Alternatives := [], DocumentID := "",
                     Metadata := { ProcessingTimeMs := 0, ServiceVersion := "",
                                   ModelVersion := "", Provider := "test", Details := [] } },
              none), n + 1),
          config := { GetMaxTextLength := 1000, GetMinConfidenceThreshold := .finite (mkRat 1 10),
                      GetSupportedLanguages := ["en-US", "es-ES"],
                      GetServiceVersion := "1.0.0", GetModelVersion := "1.0.0" } }
        (some { Text := "Hello world", DocumentID := "doc-123", Metadata := [] }) 5 0
        = some ((some r, none), 1) ∧ r.LanguageCode = "en-US") ∧
    ([] : List LanguageCode) ⊆ ["en-US", "es-ES"] ∧
    "en-US" ∉ ([] : List LanguageCode) ∧
    ¬ ∃ e st1, LanguageDetectionServiceImpl.DetectLanguage
        { detector := fun _ (n : Nat) =>
            ((some { LanguageCode := "en-US", Confidence := .finite (mkRat 19 20),
                     Alternatives := [], DocumentID := "",
                     Metadata := { ProcessingTimeMs := 0, ServiceVersion := "",
                                   ModelVersion := "", Provider := "test", Details := [] } },
              none), n + 1),
          config := { GetMaxTextLength := 1000, GetMinConfidenceThreshold := .finite (mkRat 1 10),
                      GetSupportedLanguages := [],
                      GetServiceVersion := "1.0.0", GetModelVersion := "1.0.0" } }
        (some { Text := "Hello world", DocumentID := "doc-123", Metadata := [] }) 5 0
        = some ((none, some e), st1) ∧
      errorsIs e (.sentinel .ErrInvalidLanguageCode) = true := by
  refine ⟨⟨{ LanguageCode := "en-US", Confidence := .finite (mkRat 19 20),
             Alternatives := [], DocumentID := "doc-123",
             Metadata := { ProcessingTimeMs := 5, ServiceVersion := "1.0.0",
                           ModelVersion := "1.0.0", Provider := "test", Details := [] } },
    by decide, rfl⟩, by simp, by simp, ?_⟩
  rintro ⟨e, st1, h, -⟩
  have hs : LanguageDetectionServiceImpl.DetectLanguage
        { detector := fun _ (n : Nat) =>
            ((some { LanguageCode := "en-US", Confidence := .finite (mkRat 19 20),
                     Alternatives := [], DocumentID := "",
                     Metadata := { ProcessingTimeMs := 0, ServiceVersion := "",
                                   ModelVersion := "", Provider := "test", Details := [] } },
              none), n + 1),
          config := { GetMaxTextLength := 1000, GetMinConfidenceThreshold := .finite (mkRat 1 10),
                      GetSupportedLanguages := [],
                      GetServiceVersion := "1.0.0", GetModelVersion := "1.0.0" } }
        (some { Text := "Hello world", DocumentID := "doc-123", Metadata := [] }) 5 0
        = some ((some { LanguageCode := "en-US", Confidence := .finite (mkRat 19 20),
                        Alternatives := [], DocumentID := "doc-123",
                        Metadata := { ProcessingTimeMs := 5, ServiceVersion := "1.0.0",
                                      ModelVersion := "1.0.0", Provider := "test",
                                      Details := [] } }, none), 1) := by decide
  rw [hs] at h
  simp at h

/-- C14, amended: allow-list monotonicity for non-empty lists. If the orchestrator succeeds
with a result of language code `L`, then the same call under the policy that differs only
in its `supportedLanguages`, now a non-empty list that does not contain `L` (in particular
any non-empty smaller set without `L`), fails with InvalidLanguageCode. -/
theorem DetectLanguage_allowlist_monotone {σ : Type} (d : LanguageDetector σ)
    (cfg : ConfigProvider) (request : Option LanguageDetectionRequest) (ms ms1 : Int)
    (st st1 : σ) (resp : LanguageDetectionResponse) (supported : List LanguageCode)
    (h : LanguageDetectionServiceImpl.DetectLanguage { detector := d, config := cfg }
          request ms st = some ((some resp, none), st1))
    (hne : supported ≠ [])
    (hL : resp.LanguageCode ∉ supported) :
    ∃ e, LanguageDetectionServiceImpl.DetectLanguage
          { detector := d, config := { cfg with GetSupportedLanguages := supported } }
          request ms1 st = some ((none, some e), st1) ∧
      errorsIs e (.sentinel .ErrInvalidLanguageCode) = true := by
  obtain ⟨req, dresp, hreq, hv, hd, hr, hresp⟩ :=
    DetectLanguage_success_inv _ request ms st st1 resp h
  subst hreq
  have hcode : resp.LanguageCode = dresp.LanguageCode := by rw [hresp]
  rw [hcode] at hL
  have hv1 : LanguageDetectionServiceImpl.validateRequest
      { detector := d, config := { cfg with GetSupportedLanguages := supported } } (some req)
      = none := by
    rw [validateRequest_eq_none_iff] at hv ⊢
    exact hv
  have hconf := ((validateResponse_eq_none_iff _ dresp).mp hr).1
  rcases validateResponse_cases
      ({ detector := d, config := { cfg with GetSupportedLanguages := supported } } :
        LanguageDetectionServiceImpl σ) dresp with ⟨hlt, -⟩ | ⟨-, -, -, hr1⟩ | ⟨-, hacc, -⟩
  · have hconf1 : Float32.lt dresp.Confidence cfg.GetMinConfidenceThreshold = false := hconf
    have hlt1 : Float32.lt dresp.Confidence cfg.GetMinConfidenceThreshold = true := hlt
    rw [hconf1] at hlt1
    simp at hlt1
  · exact ⟨_, DetectLanguage_of_response_rejected _ req ms1 st st1 _ _ hv1 hd hr1,
      by simp [errorsIs]⟩
  · rcases hacc with h0 | h0
    · exact absurd h0 hne
    · exact absurd h0 hL

/-- C14 amended, at the result of `TestDetectLanguage_Success` ("en-US") with the allow-list
{"en-US", "es-ES"} shrunk to {"es-ES"}. -/
theorem DetectLanguage_allowlist_monotone_witness :
    ∃ e, LanguageDetectionServiceImpl.DetectLanguage
          { detector := fun _ (n : Nat) =>
              ((some { LanguageCode := "en-US", Confidence := .finite (mkRat 19 20),
                       Alternatives := [], DocumentID := "",
                       Metadata := { ProcessingTimeMs := 0, ServiceVersion := "",
                                     ModelVersion := "", Provider := "test", Details := [] } },
                none), n + 1),
            config := { GetMaxTextLength := 1000,
                        GetMinConfidenceThreshold := .finite (mkRat 1 10),
                        GetSupportedLanguages := ["es-ES"],
                        GetServiceVersion := "1.0.0", GetModelVersion := "1.0.0" } }
          (some { Text := "Hello world", DocumentID := "doc-123", Metadata := [] }) 6 0
          = some ((none, some e), 1) ∧
      errorsIs e (.sentinel .ErrInvalidLanguageCode) = true :=
  DetectLanguage_allowlist_monotone
    (fun _ (n : Nat) =>
        ((some { LanguageCode := "en-US", Confidence := .finite (mkRat 19 20),
                 Alternatives := [], DocumentID := "",
                 Metadata := { ProcessingTimeMs := 0, ServiceVersion := "",
                               ModelVersion := "", Provider := "test", Details := [] } },
          none), n + 1))
    { GetMaxTextLength := 1000, GetMinConfidenceThreshold := .finite (mkRat 1 10),
      GetSupportedLanguages := ["en-US", "es-ES"],
      GetServiceVersion := "1.0.0", GetModelVersion := "1.0.0" }
    (some { Text := "Hello world", DocumentID := "doc-123", Metadata := [] }) 5 6 0 1
    { LanguageCode := "en-US", Confidence := .finite (mkRat 19 20),
      Alternatives := [], DocumentID := "doc-123",
      Metadata := { ProcessingTimeMs := 5, ServiceVersion := "1.0.0",
                    ModelVersion := "1.0.0", Provider := "test", Details := [] } }
    ["es-ES"] (by decide) (by decide) (by decide)

/-! ## Rounding to `float32` -/

theorem log2Fuel_spec (fuel n : Nat) (h : n ≤ fuel) (hn : 0 < n) :
    2 ^ log2Fuel fuel n ≤ n ∧ n < 2 ^ (log2Fuel fuel n + 1) := by
  induction fuel generalizing n with
  | zero => omega
  | succ fuel ih =>
    by_cases h2 : 2 ≤ n
    · rw [log2Fuel, if_pos h2]
      obtain ⟨h3, h4⟩ := ih (n / 2) (by omega) (by omega)
      rw [pow_succ, pow_succ]
      constructor <;> omega
    · rw [log2Fuel, if_neg h2]
      have : n = 1 := by omega
      subst this
      decide

theorem natLog2_spec (n : Nat) (hn : 0 < n) :
    2 ^ natLog2 n ≤ n ∧ n < 2 ^ (natLog2 n + 1) :=
  log2Fuel_spec n n (Nat.le_refl n) hn

theorem pow2_eq (e : Int) : pow2 e = (2 : ℚ) ^ e := by
  unfold pow2
  split
  · rename_i h
    obtain ⟨k, rfl⟩ := Int.eq_ofNat_of_zero_le h
    simp
  · rename_i h
    obtain ⟨k, hk⟩ := Int.eq_ofNat_of_zero_le (show (0 : Int) ≤ -e by omega)
    have he : e = -(k : Int) := by omega
    subst he
    simp

theorem binaryExponent_spec (a : ℚ) (ha : 0 < a) :
    (2 : ℚ) ^ binaryExponent a ≤ a ∧ a < (2 : ℚ) ^ (binaryExponent a + 1) := by
  have hnum : 0 < a.num := Rat.num_pos.mpr ha
  have hp : 0 < a.num.toNat := by omega
  have hd : 0 < a.den := a.den_pos
  obtain ⟨hp1, hp2⟩ := natLog2_spec _ hp
  obtain ⟨hd1, hd2⟩ := natLog2_spec _ hd
  have hcast : (a.num.toNat : ℚ) = (a.num : ℚ) := by
    have : ((a.num.toNat : Int) : ℚ) = (a.num : ℚ) := by
      rw [Int.toNat_of_nonneg hnum.le]
    exact_mod_cast this
  have hmul : a * (a.den : ℚ) = (a.num.toNat : ℚ) := by
    rw [hcast]
    exact Rat.mul_den_eq_num a
  have hdq : (0 : ℚ) < (a.den : ℚ) := by exact_mod_cast hd
  have hp1q : (2 : ℚ) ^ natLog2 a.num.toNat ≤ (a.num.toNat : ℚ) := by exact_mod_cast hp1
  have hp2q : (a.num.toNat : ℚ) < (2 : ℚ) ^ (natLog2 a.num.toNat + 1) := by exact_mod_cast hp2
  have hd1q : (2 : ℚ) ^ natLog2 a.den ≤ (a.den : ℚ) := by exact_mod_cast hd1
  have hd2q : (a.den : ℚ) < (2 : ℚ) ^ (natLog2 a.den + 1) := by exact_mod_cast hd2
  -- the quotient lies strictly between `2 ^ (e0 - 1)` and `2 ^ (e0 + 1)`
  have hup : a < (2 : ℚ) ^ ((natLog2 a.num.toNat : Int) - (natLog2 a.den : Int) + 1) := by
    have e1 : (2 : ℚ) ^ ((natLog2 a.num.toNat : Int) - (natLog2 a.den : Int) + 1) =
        (2 : ℚ) ^ (natLog2 a.num.toNat + 1) / (2 : ℚ) ^ natLog2 a.den := by
      rw [show ((natLog2 a.num.toNat : Int) - (natLog2 a.den : Int) + 1) =
        ((natLog2 a.num.toNat + 1 : Nat) : Int) - ((natLog2 a.den : Nat) : Int) by push_cast; ring]
      rw [zpow_sub₀ (by norm_num), zpow_natCast, zpow_natCast]
    rw [e1, lt_div_iff₀ (by positivity)]
    calc a * 2 ^ natLog2 a.den
        ≤ a * a.den := mul_le_mul_of_nonneg_left hd1q ha.le
      _ = (a.num.toNat : ℚ) := hmul
      _ < 2 ^ (natLog2 a.num.toNat + 1) := hp2q
  have hlow : (2 : ℚ) ^ ((natLog2 a.num.toNat : Int) - (natLog2 a.den : Int) - 1) < a := by
    have e1 : (2 : ℚ) ^ ((natLog2 a.num.toNat : Int) - (natLog2 a.den : Int) - 1) =
        (2 : ℚ) ^ natLog2 a.num.toNat / (2 : ℚ) ^ (natLog2 a.den + 1) := by
      rw [show ((natLog2 a.num.toNat : Int) - (natLog2 a.den : Int) - 1) =
        ((natLog2 a.num.toNat : Nat) : Int) - ((natLog2 a.den + 1 : Nat) : Int) by push_cast; ring]
      rw [zpow_sub₀ (by norm_num), zpow_natCast, zpow_natCast]
    rw [e1, div_lt_iff₀ (by positivity)]
    calc (2 : ℚ) ^ natLog2 a.num.toNat
        ≤ (a.num.toNat : ℚ) := hp1q
      _ = a * a.den := hmul.symm
      _ < a * 2 ^ (natLog2 a.den + 1) := mul_lt_mul_of_pos_left hd2q ha
  unfold binaryExponent
  simp only [pow2_eq]
  split
  · rename_i h
    exact ⟨h, hup⟩
  · rename_i h
    refine ⟨hlow.le, ?_⟩
    rw [sub_add_cancel]
    exact not_le.mp h

theorem roundHalfEven_le (p d N : Nat) (hd : 0 < d) (h : p ≤ N * d) :
    roundHalfEven p d ≤ N := by
  have h1 : p / d ≤ N := Nat.div_le_of_le_mul (by rw [Nat.mul_comm]; exact h)
  by_cases h2 : p / d = N
  · have h3 : d * (p / d) + p % d = p := Nat.div_add_mod p d
    rw [h2] at h3
    have h4 : p % d = 0 := by
      have : d * N = N * d := Nat.mul_comm d N
      omega
    unfold roundHalfEven
    rw [h4, if_pos (by omega), h2]
  · unfold roundHalfEven
    split_ifs <;> omega

theorem roundHalfEven_ge (p d N : Nat) (hd : 0 < d) (h : N * d ≤ p) :
    N ≤ roundHalfEven p d := by
  have h1 : N ≤ p / d := (Nat.le_div_iff_mul_le hd).mpr h
  unfold roundHalfEven
  split_ifs <;> omega

theorem roundHalfEven_one (m : Nat) : roundHalfEven m 1 = m := by
  unfold roundHalfEven
  simp [Nat.mod_one]


theorem roundHalfEven_rat_le (x : ℚ) (hx : 0 ≤ x) (N : Nat) (h : x ≤ N) :
    roundHalfEven x.num.toNat x.den ≤ N := by
  apply roundHalfEven_le _ _ _ x.den_pos
  have hnum : 0 ≤ x.num := Rat.num_nonneg.mpr hx
  have h1 : (x.num : ℚ) ≤ (N : ℚ) * (x.den : ℚ) := by
    rw [← Rat.mul_den_eq_num x]
    exact mul_le_mul_of_nonneg_right h (by positivity)
  have h2 : x.num ≤ (N : Int) * (x.den : Int) := by exact_mod_cast h1
  have h3 : (x.num.toNat : Int) = x.num := Int.toNat_of_nonneg hnum
  have h4 : (x.num.toNat : Int) ≤ ((N * x.den : Nat) : Int) := by
    rw [h3]; push_cast; exact h2
  exact_mod_cast h4

theorem roundHalfEven_rat_ge (x : ℚ) (hx : 0 ≤ x) (N : Nat) (h : (N : ℚ) ≤ x) :
    N ≤ roundHalfEven x.num.toNat x.den := by
  apply roundHalfEven_ge _ _ _ x.den_pos
  have hnum : 0 ≤ x.num := Rat.num_nonneg.mpr hx
  have h1 : (N : ℚ) * (x.den : ℚ) ≤ (x.num : ℚ) := by
    rw [← Rat.mul_den_eq_num x]
    exact mul_le_mul_of_nonneg_right h (by positivity)
  have h2 : (N : Int) * (x.den : Int) ≤ x.num := by exact_mod_cast h1
  have h3 : (x.num.toNat : Int) = x.num := Int.toNat_of_nonneg hnum
  have h4 : ((N * x.den : Nat) : Int) ≤ (x.num.toNat : Int) := by
    rw [h3]; push_cast; exact h2
  exact_mod_cast h4

theorem roundHalfEven_rat_natCast (m : Nat) :
    roundHalfEven (m : ℚ).num.toNat (m : ℚ).den = m := by
  rw [Rat.num_natCast, Rat.den_natCast, Int.toNat_ofNat, roundHalfEven_one]

/-- The conversion of a positive value, with the powers of two written as such. -/
theorem Float32.ofRat_of_pos (q : ℚ) (hq : 0 < q) :
    Float32.ofRat q =
      if (2 : ℚ) ^ (128 : Int) ≤
          (roundHalfEven (q / (2 : ℚ) ^ (max (binaryExponent q) (-126) - 23)).num.toNat
            (q / (2 : ℚ) ^ (max (binaryExponent q) (-126) - 23)).den : ℚ) *
            (2 : ℚ) ^ (max (binaryExponent q) (-126) - 23)
      then .posInf
      else .finite ((roundHalfEven
          (q / (2 : ℚ) ^ (max (binaryExponent q) (-126) - 23)).num.toNat
          (q / (2 : ℚ) ^ (max (binaryExponent q) (-126) - 23)).den : ℚ) *
        (2 : ℚ) ^ (max (binaryExponent q) (-126) - 23)) := by
  unfold Float32.ofRat
  simp only [pow2_eq, abs_of_pos hq, hq.ne', if_false, not_lt.mpr hq.le]

/-- A positive value whose quotient by its unit in the last place is a whole number is
converted exactly. -/
theorem Float32.ofRat_exact (q : ℚ) (hq : 0 < q) (hlt : q < (2 : ℚ) ^ (128 : Int)) (m : Nat)
    (hm : q / (2 : ℚ) ^ (max (binaryExponent q) (-126) - 23) = m) :
    Float32.ofRat q = .finite q := by
  have hpos : (0 : ℚ) < (2 : ℚ) ^ (max (binaryExponent q) (-126) - 23) := by positivity
  have hval : (m : ℚ) * (2 : ℚ) ^ (max (binaryExponent q) (-126) - 23) = q := by
    rw [← hm, div_mul_cancel₀ _ hpos.ne']
  rw [Float32.ofRat_of_pos q hq, hm, roundHalfEven_rat_natCast, hval, if_neg (not_le.mpr hlt)]

theorem Float32.ofRat_zero : Float32.ofRat 0 = .finite 0 := by
  simp [Float32.ofRat]

/-- A whole number up to `2 ^ 24` is converted exactly. -/
theorem Float32.ofRat_natCast (n : Nat) (hn : n ≤ 2 ^ 24) :
    Float32.ofRat (n : ℚ) = .finite (n : ℚ) := by
  rcases Nat.eq_zero_or_pos n with h0 | hpos
  · subst h0
    simpa using Float32.ofRat_zero
  have hq : (0 : ℚ) < (n : ℚ) := by exact_mod_cast hpos
  obtain ⟨h1, h2⟩ := binaryExponent_spec (n : ℚ) hq
  have hnq : (n : ℚ) ≤ (2 : ℚ) ^ (24 : Int) := by
    have : (n : ℚ) ≤ ((2 ^ 24 : Nat) : ℚ) := by exact_mod_cast hn
    rw [show (2 : ℚ) ^ (24 : Int) = ((2 ^ 24 : Nat) : ℚ) by norm_num]
    exact this
  have hone : (1 : ℚ) ≤ (n : ℚ) := by exact_mod_cast hpos
  have he24 : binaryExponent (n : ℚ) ≤ 24 :=
    (zpow_le_zpow_iff_right₀ (by norm_num : (1 : ℚ) < 2)).mp (h1.trans hnq)
  have he0 : 0 ≤ binaryExponent (n : ℚ) := by
    have : (2 : ℚ) ^ (0 : Int) < (2 : ℚ) ^ (binaryExponent (n : ℚ) + 1) := by
      rw [zpow_zero]
      exact lt_of_le_of_lt hone h2
    have := (zpow_lt_zpow_iff_right₀ (by norm_num : (1 : ℚ) < 2)).mp this
    omega
  have hmax : max (binaryExponent (n : ℚ)) (-126) = binaryExponent (n : ℚ) :=
    max_eq_left (by omega)
  have hlt : (n : ℚ) < (2 : ℚ) ^ (128 : Int) :=
    lt_of_le_of_lt hnq (by norm_num)
  obtain ⟨e, he⟩ : ∃ e, binaryExponent (n : ℚ) = e := ⟨_, rfl⟩
  rw [he] at h1 h2 he24 he0 hmax
  by_cases h23 : e ≤ 23
  · obtain ⟨k, hk⟩ := Int.eq_ofNat_of_zero_le (show (0 : Int) ≤ 23 - e by omega)
    apply Float32.ofRat_exact (n : ℚ) hq hlt (n * 2 ^ k)
    rw [he, hmax, show e - 23 = -(k : Int) by omega, zpow_neg, div_inv_eq_mul, zpow_natCast]
    push_cast
    ring
  · have he : e = 24 := by omega
    subst he
    have hn24 : (n : ℚ) = (2 : ℚ) ^ (24 : Int) := le_antisymm hnq h1
    apply Float32.ofRat_exact (n : ℚ) hq hlt (2 ^ 23)
    rw [‹binaryExponent (n : ℚ) = 24›, hmax, hn24]
    norm_num

/-- A value in the unit interval is converted to a value in the unit interval. -/
theorem Float32.ofRat_unit (q : ℚ) (h0 : 0 ≤ q) (h1 : q ≤ 1) :
    ∃ c, Float32.ofRat q = .finite c ∧ 0 ≤ c ∧ c ≤ 1 := by
  rcases h0.eq_or_lt with hz | hq
  · subst hz
    exact ⟨0, Float32.ofRat_zero, le_refl _, by norm_num⟩
  obtain ⟨hb1, -⟩ := binaryExponent_spec q hq
  have he0 : binaryExponent q ≤ 0 := by
    have : (2 : ℚ) ^ binaryExponent q ≤ (2 : ℚ) ^ (0 : Int) := by
      rw [zpow_zero]
      exact hb1.trans h1
    exact (zpow_le_zpow_iff_right₀ (by norm_num : (1 : ℚ) < 2)).mp this
  obtain ⟨e, he⟩ : ∃ e, max (binaryExponent q) (-126) = e := ⟨_, rfl⟩
  have hele : e ≤ 0 := by rw [← he]; exact max_le he0 (by norm_num)
  obtain ⟨k, hk⟩ := Int.eq_ofNat_of_zero_le (show (0 : Int) ≤ 23 - e by omega)
  have hpos : (0 : ℚ) < (2 : ℚ) ^ (e - 23) := by positivity
  have hone : ((2 ^ k : Nat) : ℚ) * (2 : ℚ) ^ (e - 23) = 1 := by
    rw [show e - 23 = -(k : Int) by omega, zpow_neg, zpow_natCast]
    push_cast
    exact mul_inv_cancel₀ (by positivity)
  have hx : q / (2 : ℚ) ^ (e - 23) ≤ ((2 ^ k : Nat) : ℚ) := by
    rw [div_le_iff₀ hpos, hone]
    exact h1
  have hr := roundHalfEven_rat_le (q / (2 : ℚ) ^ (e - 23)) (by positivity) (2 ^ k) hx
  have hmag : (roundHalfEven (q / (2 : ℚ) ^ (e - 23)).num.toNat
      (q / (2 : ℚ) ^ (e - 23)).den : ℚ) * (2 : ℚ) ^ (e - 23) ≤ 1 := by
    rw [← hone]
    apply mul_le_mul_of_nonneg_right _ hpos.le
    exact_mod_cast hr
  rw [Float32.ofRat_of_pos q hq, he]
  rw [if_neg (not_le.mpr (lt_of_le_of_lt hmag (by norm_num)))]
  exact ⟨_, rfl, by positivity, hmag⟩

/-- A value of at least `2 ^ j`, with `j` a normal exponent, is converted to a value of at
least `2 ^ j`, or to the positive infinity. -/
theorem Float32.ofRat_ge_pow (q : ℚ) (j : Int) (hj : -126 ≤ j) (h : (2 : ℚ) ^ j ≤ q) :
    Float32.ofRat q = .posInf ∨ ∃ c, Float32.ofRat q = .finite c ∧ (2 : ℚ) ^ j ≤ c := by
  have hq : 0 < q := lt_of_lt_of_le (by positivity) h
  obtain ⟨hb1, hb2⟩ := binaryExponent_spec q hq
  have hje : j ≤ binaryExponent q := by
    have := (zpow_lt_zpow_iff_right₀ (by norm_num : (1 : ℚ) < 2)).mp (lt_of_le_of_lt h hb2)
    omega
  have hmax : max (binaryExponent q) (-126) = binaryExponent q := max_eq_left (by omega)
  obtain ⟨e, he⟩ : ∃ e, binaryExponent q = e := ⟨_, rfl⟩
  rw [he] at hb1 hb2 hje hmax
  have hpos : (0 : ℚ) < (2 : ℚ) ^ (e - 23) := by positivity
  have hsplit : ((2 ^ 23 : Nat) : ℚ) * (2 : ℚ) ^ (e - 23) = (2 : ℚ) ^ e := by
    rw [show ((2 ^ 23 : Nat) : ℚ) = (2 : ℚ) ^ (23 : Int) by norm_num,
      ← zpow_add₀ (by norm_num : (2 : ℚ) ≠ 0)]
    congr 1
    ring
  have hx : ((2 ^ 23 : Nat) : ℚ) ≤ q / (2 : ℚ) ^ (e - 23) := by
    rw [le_div_iff₀ hpos, hsplit]
    exact hb1
  have hr := roundHalfEven_rat_ge (q / (2 : ℚ) ^ (e - 23)) (by positivity) (2 ^ 23) hx
  have hmag : (2 : ℚ) ^ j ≤ (roundHalfEven (q / (2 : ℚ) ^ (e - 23)).num.toNat
      (q / (2 : ℚ) ^ (e - 23)).den : ℚ) * (2 : ℚ) ^ (e - 23) := by
    calc (2 : ℚ) ^ j ≤ (2 : ℚ) ^ e :=
          (zpow_le_zpow_iff_right₀ (by norm_num : (1 : ℚ) < 2)).mpr hje
      _ = ((2 ^ 23 : Nat) : ℚ) * (2 : ℚ) ^ (e - 23) := hsplit.symm
      _ ≤ _ := by
          apply mul_le_mul_of_nonneg_right _ hpos.le
          exact_mod_cast hr
  rw [Float32.ofRat_of_pos q hq, he, hmax]
  split
  · exact Or.inl rfl
  · exact Or.inr ⟨_, rfl, hmag⟩

/-- The `float32` constants of the detector: 0.05 is 13421773 / 2 ^ 28 and 0.15 is
5033165 / 2 ^ 25, both slightly above the decimal they stand for. -/
theorem Float32.constants :
    Float32.ofRat (1 / 20) = .finite (13421773 / 268435456) ∧
    Float32.ofRat (3 / 20) = .finite (5033165 / 33554432) := by
  decide!

/-- The nearest integer is within one half of the quotient. -/
theorem roundHalfEven_error (p d : Nat) (hd : 0 < d) :
    2 * (roundHalfEven p d * d) ≤ 2 * p + d ∧ 2 * p ≤ 2 * (roundHalfEven p d * d) + d := by
  have h1 : d * (p / d) + p % d = p := Nat.div_add_mod p d
  have h2 : p % d < d := Nat.mod_lt p hd
  obtain ⟨q, hq⟩ : ∃ q, p / d = q := ⟨_, rfl⟩
  obtain ⟨r, hr⟩ : ∃ r, p % d = r := ⟨_, rfl⟩
  rw [hq, hr] at h1
  rw [hr] at h2
  have h3 : (q + 1) * d = d * q + d := by ring
  have h4 : q * d = d * q := by ring
  unfold roundHalfEven
  rw [hq, hr]
  split_ifs <;> constructor <;> omega

theorem roundHalfEven_rat_error (y : ℚ) (hy : 0 ≤ y) :
    (roundHalfEven y.num.toNat y.den : ℚ) ≤ y + 1 / 2 ∧
    y ≤ (roundHalfEven y.num.toNat y.den : ℚ) + 1 / 2 := by
  have hnum : 0 ≤ y.num := Rat.num_nonneg.mpr hy
  have hden : (0 : ℚ) < (y.den : ℚ) := by exact_mod_cast y.den_pos
  obtain ⟨h1, h2⟩ := roundHalfEven_error y.num.toNat y.den y.den_pos
  have hcast : (y.num.toNat : ℚ) = (y.num : ℚ) := by
    have : ((y.num.toNat : Int) : ℚ) = (y.num : ℚ) := by rw [Int.toNat_of_nonneg hnum]
    exact_mod_cast this
  have hmul : y * (y.den : ℚ) = (y.num.toNat : ℚ) := by
    rw [hcast]; exact Rat.mul_den_eq_num y
  have h1q : (2 : ℚ) * ((roundHalfEven y.num.toNat y.den : ℚ) * (y.den : ℚ)) ≤
      2 * (y.num.toNat : ℚ) + (y.den : ℚ) := by exact_mod_cast h1
  have h2q : (2 : ℚ) * (y.num.toNat : ℚ) ≤
      2 * ((roundHalfEven y.num.toNat y.den : ℚ) * (y.den : ℚ)) + (y.den : ℚ) := by
    exact_mod_cast h2
  rw [← hmul] at h1q h2q
  constructor
  · have : (roundHalfEven y.num.toNat y.den : ℚ) * (y.den : ℚ) ≤ (y + 1 / 2) * (y.den : ℚ) := by
      linarith
    exact le_of_mul_le_mul_right this hden
  · have : y * (y.den : ℚ) ≤ ((roundHalfEven y.num.toNat y.den : ℚ) + 1 / 2) * (y.den : ℚ) := by
      linarith
    exact le_of_mul_le_mul_right this hden

/-- Rounding to the nearest integer is monotone. -/
theorem roundHalfEven_rat_mono (a b : ℚ) (ha : 0 ≤ a) (hab : a ≤ b) :
    roundHalfEven a.num.toNat a.den ≤ roundHalfEven b.num.toNat b.den := by
  by_contra hlt
  have hlt1 : roundHalfEven b.num.toNat b.den + 1 ≤ roundHalfEven a.num.toNat a.den := by
    omega
  have hq : (roundHalfEven b.num.toNat b.den : ℚ) + 1 ≤
      (roundHalfEven a.num.toNat a.den : ℚ) := by exact_mod_cast hlt1
  obtain ⟨h1, -⟩ := roundHalfEven_rat_error a ha
  obtain ⟨-, h2⟩ := roundHalfEven_rat_error b (ha.trans hab)
  have heq : a = b := le_antisymm hab (by linarith)
  subst heq
  omega

theorem binaryExponent_mono (x y : ℚ) (hx : 0 < x) (hxy : x ≤ y) :
    binaryExponent x ≤ binaryExponent y := by
  obtain ⟨h1, -⟩ := binaryExponent_spec x hx
  obtain ⟨-, h2⟩ := binaryExponent_spec y (lt_of_lt_of_le hx hxy)
  have := (zpow_lt_zpow_iff_right₀ (by norm_num : (1 : ℚ) < 2)).mp
    (lt_of_le_of_lt (h1.trans hxy) h2)
  omega

/-- The exponent of a value between two consecutive powers of two. -/
theorem binaryExponent_eq (x : ℚ) (e : Int) (h1 : (2 : ℚ) ^ e ≤ x) (h2 : x < (2 : ℚ) ^ (e + 1)) :
    binaryExponent x = e := by
  have hx : 0 < x := lt_of_lt_of_le (by positivity) h1
  obtain ⟨h3, h4⟩ := binaryExponent_spec x hx
  have ha := (zpow_lt_zpow_iff_right₀ (by norm_num : (1 : ℚ) < 2)).mp (lt_of_le_of_lt h1 h4)
  have hb := (zpow_lt_zpow_iff_right₀ (by norm_num : (1 : ℚ) < 2)).mp (lt_of_le_of_lt h3 h2)
  omega

/-- The conversion of a positive value, given its unit in the last place. -/
theorem Float32.ofRat_of_exponent (q : ℚ) (hq : 0 < q) (e : Int)
    (he : max (binaryExponent q) (-126) = e) :
    Float32.ofRat q =
      if (2 : ℚ) ^ (128 : Int) ≤
          (roundHalfEven (q / (2 : ℚ) ^ (e - 23)).num.toNat
            (q / (2 : ℚ) ^ (e - 23)).den : ℚ) * (2 : ℚ) ^ (e - 23)
      then .posInf
      else .finite ((roundHalfEven (q / (2 : ℚ) ^ (e - 23)).num.toNat
          (q / (2 : ℚ) ^ (e - 23)).den : ℚ) * (2 : ℚ) ^ (e - 23)) := by
  rw [Float32.ofRat_of_pos q hq, he]

/-- The magnitude computed for a positive value lies in the closed binade of the value:
between `2 ^ e` and `2 ^ (e + 1)` for a normal exponent `e`, and up to `2 ^ (-125)` below. -/
theorem Float32.magnitude_bounds (q : ℚ) (hq : 0 < q) :
    (roundHalfEven (q / (2 : ℚ) ^ (max (binaryExponent q) (-126) - 23)).num.toNat
        (q / (2 : ℚ) ^ (max (binaryExponent q) (-126) - 23)).den : ℚ) *
      (2 : ℚ) ^ (max (binaryExponent q) (-126) - 23) ≤
      (2 : ℚ) ^ (max (binaryExponent q) (-126) + 1) ∧
    (-126 ≤ binaryExponent q →
      (2 : ℚ) ^ binaryExponent q ≤
        (roundHalfEven (q / (2 : ℚ) ^ (max (binaryExponent q) (-126) - 23)).num.toNat
            (q / (2 : ℚ) ^ (max (binaryExponent q) (-126) - 23)).den : ℚ) *
          (2 : ℚ) ^ (max (binaryExponent q) (-126) - 23)) := by
  obtain ⟨hb1, hb2⟩ := binaryExponent_spec q hq
  obtain ⟨e, he⟩ : ∃ e, max (binaryExponent q) (-126) = e := ⟨_, rfl⟩
  rw [he]
  have hle : binaryExponent q ≤ e := by rw [← he]; exact le_max_left _ _
  have hpos : (0 : ℚ) < (2 : ℚ) ^ (e - 23) := by positivity
  have hsplit24 : ((2 ^ 24 : Nat) : ℚ) * (2 : ℚ) ^ (e - 23) = (2 : ℚ) ^ (e + 1) := by
    rw [show ((2 ^ 24 : Nat) : ℚ) = (2 : ℚ) ^ (24 : Int) by norm_num,
      ← zpow_add₀ (by norm_num : (2 : ℚ) ≠ 0)]
    congr 1
    ring
  have hsplit23 : ((2 ^ 23 : Nat) : ℚ) * (2 : ℚ) ^ (e - 23) = (2 : ℚ) ^ e := by
    rw [show ((2 ^ 23 : Nat) : ℚ) = (2 : ℚ) ^ (23 : Int) by norm_num,
      ← zpow_add₀ (by norm_num : (2 : ℚ) ≠ 0)]
    congr 1
    ring
  constructor
  · have hx : q / (2 : ℚ) ^ (e - 23) ≤ ((2 ^ 24 : Nat) : ℚ) := by
      rw [div_le_iff₀ hpos, hsplit24]
      exact le_trans hb2.le
        ((zpow_le_zpow_iff_right₀ (by norm_num : (1 : ℚ) < 2)).mpr (by omega))
    have hr := roundHalfEven_rat_le (q / (2 : ℚ) ^ (e - 23)) (by positivity) (2 ^ 24) hx
    rw [← hsplit24]
    apply mul_le_mul_of_nonneg_right _ hpos.le
    exact_mod_cast hr
  · intro hnormal
    have hee : e = binaryExponent q := by rw [← he]; exact max_eq_left hnormal
    have hx : ((2 ^ 23 : Nat) : ℚ) ≤ q / (2 : ℚ) ^ (e - 23) := by
      rw [le_div_iff₀ hpos, hsplit23, hee]
      exact hb1
    have hr := roundHalfEven_rat_ge (q / (2 : ℚ) ^ (e - 23)) (by positivity) (2 ^ 23) hx
    rw [← hee, ← hsplit23]
    apply mul_le_mul_of_nonneg_right _ hpos.le
    exact_mod_cast hr

/-- Conversion to `float32` is monotone on the non-negative values: below a value that is
converted to a number, every value is converted to a number that is not larger. -/
theorem Float32.ofRat_mono (x y : ℚ) (hx : 0 ≤ x) (hxy : x ≤ y) (cy : ℚ)
    (hy : Float32.ofRat y = .finite cy) :
    ∃ cx, Float32.ofRat x = .finite cx ∧ 0 ≤ cx ∧ cx ≤ cy := by
  rcases hx.eq_or_lt with hz | hxpos
  · subst hz
    refine ⟨0, Float32.ofRat_zero, le_refl _, ?_⟩
    rcases hxy.eq_or_lt with hz | hypos
    · subst hz
      rw [Float32.ofRat_zero] at hy
      simp only [Float32.finite.injEq] at hy
      rw [← hy]
    · rw [Float32.ofRat_of_pos y hypos] at hy
      split at hy
      · simp at hy
      · simp only [Float32.finite.injEq] at hy
        rw [← hy]
        positivity
  have hypos : 0 < y := lt_of_lt_of_le hxpos hxy
  have hexp := binaryExponent_mono x y hxpos hxy
  obtain ⟨hxu, -⟩ := Float32.magnitude_bounds x hxpos
  obtain ⟨-, hyl⟩ := Float32.magnitude_bounds y hypos
  rw [Float32.ofRat_of_pos y hypos] at hy
  rw [Float32.ofRat_of_pos x hxpos]
  obtain ⟨ex, hex⟩ : ∃ e, max (binaryExponent x) (-126) = e := ⟨_, rfl⟩
  obtain ⟨ey, hey⟩ : ∃ e, max (binaryExponent y) (-126) = e := ⟨_, rfl⟩
  rw [hex] at hxu ⊢
  rw [hey] at hy hyl
  have hee : ex ≤ ey := by
    rw [← hex, ← hey]
    exact max_le_max hexp (le_refl _)
  split at hy
  · simp at hy
  rename_i hfin
  simp only [Float32.finite.injEq] at hy
  have hle : (roundHalfEven (x / (2 : ℚ) ^ (ex - 23)).num.toNat
      (x / (2 : ℚ) ^ (ex - 23)).den : ℚ) * (2 : ℚ) ^ (ex - 23) ≤ cy := by
    rw [← hy]
    rcases hee.eq_or_lt with heq | hlt
    · subst heq
      apply mul_le_mul_of_nonneg_right _ (by positivity)
      have := roundHalfEven_rat_mono (x / (2 : ℚ) ^ (ex - 23)) (y / (2 : ℚ) ^ (ex - 23))
        (by positivity) (div_le_div_of_nonneg_right hxy (by positivity))
      exact_mod_cast this
    · have hynormal : -126 ≤ binaryExponent y := by
        by_contra hcon
        have : ey = -126 := by rw [← hey]; exact max_eq_right (by omega)
        have : -126 ≤ ex := by rw [← hex]; exact le_max_right _ _
        omega
      have heyb : ey = binaryExponent y := by rw [← hey]; exact max_eq_left hynormal
      calc _ ≤ (2 : ℚ) ^ (ex + 1) := hxu
        _ ≤ (2 : ℚ) ^ ey := (zpow_le_zpow_iff_right₀ (by norm_num : (1 : ℚ) < 2)).mpr (by omega)
        _ = (2 : ℚ) ^ binaryExponent y := by rw [heyb]
        _ ≤ _ := hyl hynormal
  rw [if_neg (not_le.mpr (lt_of_le_of_lt (hy ▸ hle) (not_le.mp hfin)))]
  exact ⟨_, rfl, by positivity, hle⟩

/-- Below `2 ^ j`, with `j` from -125 to 128, conversion to `float32` moves a non-negative
value by at most `2 ^ (j - 25)`, half a unit in the last place of the binade below `2 ^ j`. -/
theorem Float32.ofRat_error (x : ℚ) (j : Int) (hj : -125 ≤ j) (hj2 : j ≤ 127) (hx : 0 ≤ x)
    (hlt : x < (2 : ℚ) ^ j) :
    ∃ c, Float32.ofRat x = .finite c ∧ c ≤ x + (2 : ℚ) ^ (j - 25) ∧ x ≤ c + (2 : ℚ) ^ (j - 25) ∧
      c ≤ (2 : ℚ) ^ j := by
  rcases hx.eq_or_lt with hz | hxpos
  · subst hz
    exact ⟨0, Float32.ofRat_zero, by positivity, by positivity, by positivity⟩
  obtain ⟨hb1, -⟩ := binaryExponent_spec x hxpos
  have hexp : binaryExponent x < j :=
    (zpow_lt_zpow_iff_right₀ (by norm_num : (1 : ℚ) < 2)).mp (lt_of_le_of_lt hb1 hlt)
  obtain ⟨hmag, -⟩ := Float32.magnitude_bounds x hxpos
  obtain ⟨e, he⟩ : ∃ e, max (binaryExponent x) (-126) = e := ⟨_, rfl⟩
  have hej : e + 1 ≤ j := by
    rw [← he]
    have : max (binaryExponent x) (-126) ≤ j - 1 := max_le (by omega) (by omega)
    omega
  rw [he] at hmag
  have hpos : (0 : ℚ) < (2 : ℚ) ^ (e - 23) := by positivity
  obtain ⟨h1, h2⟩ := roundHalfEven_rat_error (x / (2 : ℚ) ^ (e - 23)) (by positivity)
  have hhalf : (1 : ℚ) / 2 * (2 : ℚ) ^ (e - 23) ≤ (2 : ℚ) ^ (j - 25) := by
    rw [show (1 : ℚ) / 2 = (2 : ℚ) ^ (-1 : Int) by norm_num,
      ← zpow_add₀ (by norm_num : (2 : ℚ) ≠ 0)]
    exact (zpow_le_zpow_iff_right₀ (by norm_num : (1 : ℚ) < 2)).mpr (by omega)
  have hcancel : x / (2 : ℚ) ^ (e - 23) * (2 : ℚ) ^ (e - 23) = x :=
    div_mul_cancel₀ _ hpos.ne'
  have hle_j : (roundHalfEven (x / (2 : ℚ) ^ (e - 23)).num.toNat
      (x / (2 : ℚ) ^ (e - 23)).den : ℚ) * (2 : ℚ) ^ (e - 23) ≤ (2 : ℚ) ^ j :=
    hmag.trans ((zpow_le_zpow_iff_right₀ (by norm_num : (1 : ℚ) < 2)).mpr hej)
  have hfinite : ¬ (2 : ℚ) ^ (128 : Int) ≤ (roundHalfEven (x / (2 : ℚ) ^ (e - 23)).num.toNat
      (x / (2 : ℚ) ^ (e - 23)).den : ℚ) * (2 : ℚ) ^ (e - 23) := by
    rw [not_le]
    exact lt_of_le_of_lt hle_j
      ((zpow_lt_zpow_iff_right₀ (by norm_num : (1 : ℚ) < 2)).mpr (by omega))
  rw [Float32.ofRat_of_exponent x hxpos e he, if_neg hfinite]
  refine ⟨_, rfl, ?_, ?_, hle_j⟩
  · calc _ ≤ (x / (2 : ℚ) ^ (e - 23) + 1 / 2) * (2 : ℚ) ^ (e - 23) :=
          mul_le_mul_of_nonneg_right h1 hpos.le
      _ = x + 1 / 2 * (2 : ℚ) ^ (e - 23) := by rw [add_mul, hcancel]
      _ ≤ _ := by linarith
  · calc x = x / (2 : ℚ) ^ (e - 23) * (2 : ℚ) ^ (e - 23) := hcancel.symm
      _ ≤ ((roundHalfEven (x / (2 : ℚ) ^ (e - 23)).num.toNat
            (x / (2 : ℚ) ^ (e - 23)).den : ℚ) + 1 / 2) * (2 : ℚ) ^ (e - 23) :=
          mul_le_mul_of_nonneg_right h2 hpos.le
      _ = _ + 1 / 2 * (2 : ℚ) ^ (e - 23) := by rw [add_mul]
      _ ≤ _ := by linarith

/-- A multiple of `2 ^ (-24)` in the unit interval is converted exactly. -/
theorem Float32.ofRat_dyadic (k : Nat) (hk : k ≤ 2 ^ 24) :
    Float32.ofRat ((k : ℚ) / ((2 ^ 24 : Nat) : ℚ)) = .finite ((k : ℚ) / ((2 ^ 24 : Nat) : ℚ)) := by
  rcases Nat.eq_zero_or_pos k with h0 | hpos
  · subst h0
    simpa using Float32.ofRat_zero
  have h24 : ((2 ^ 24 : Nat) : ℚ) = (2 : ℚ) ^ (24 : Int) := by norm_num
  have hkq : (1 : ℚ) ≤ (k : ℚ) := by exact_mod_cast hpos
  have hkq2 : (k : ℚ) ≤ (2 : ℚ) ^ (24 : Int) := by
    rw [← h24]; exact_mod_cast hk
  obtain ⟨x, hx⟩ : ∃ x, (k : ℚ) / ((2 ^ 24 : Nat) : ℚ) = x := ⟨_, rfl⟩
  have hxk : x * (2 : ℚ) ^ (24 : Int) = k := by
    rw [← hx, h24, div_mul_cancel₀ _ (by positivity)]
  have hxpos : 0 < x := by
    rw [← hx]; positivity
  have hx1 : x ≤ 1 := by
    rw [← hx, h24]
    exact (div_le_one (by positivity)).mpr hkq2
  have hxlow : (2 : ℚ) ^ (-24 : Int) ≤ x := by
    rw [← hx, h24, zpow_neg, ← one_div]
    exact div_le_div_of_nonneg_right hkq (by positivity)
  rw [hx]
  obtain ⟨hb1, hb2⟩ := binaryExponent_spec x hxpos
  have he0 : binaryExponent x ≤ 0 := by
    have : (2 : ℚ) ^ binaryExponent x ≤ (2 : ℚ) ^ (0 : Int) := by
      rw [zpow_zero]; exact hb1.trans hx1
    exact (zpow_le_zpow_iff_right₀ (by norm_num : (1 : ℚ) < 2)).mp this
  have helow : -24 ≤ binaryExponent x := by
    have := (zpow_lt_zpow_iff_right₀ (by norm_num : (1 : ℚ) < 2)).mp
      (lt_of_le_of_lt hxlow hb2)
    omega
  have hmax : max (binaryExponent x) (-126) = binaryExponent x := max_eq_left (by omega)
  have hlt : x < (2 : ℚ) ^ (128 : Int) := lt_of_le_of_lt hx1 (by norm_num)
  obtain ⟨e, he⟩ : ∃ e, binaryExponent x = e := ⟨_, rfl⟩
  rw [he] at hb1 hb2 he0 helow hmax
  by_cases hneg : e ≤ -1
  · obtain ⟨i, hi⟩ := Int.eq_ofNat_of_zero_le (show (0 : Int) ≤ -1 - e by omega)
    have hpow : (2 : ℚ) ^ (24 : Int) * ((2 : ℚ) ^ (i : Int) * (2 : ℚ) ^ (e - 23)) = 1 := by
      rw [← hi, ← zpow_add₀ (by norm_num : (2 : ℚ) ≠ 0),
        ← zpow_add₀ (by norm_num : (2 : ℚ) ≠ 0),
        show (24 : Int) + (-1 - e + (e - 23)) = 0 by ring, zpow_zero]
    apply Float32.ofRat_exact x hxpos hlt (k * 2 ^ i)
    rw [he, hmax, div_eq_iff (by positivity)]
    push_cast
    rw [← hxk, ← zpow_natCast (2 : ℚ) i, mul_assoc, mul_assoc, hpow, mul_one]
  · have he : e = 0 := by omega
    subst he
    have hx_eq : x = 1 := le_antisymm hx1 (by simpa using hb1)
    apply Float32.ofRat_exact x hxpos hlt (2 ^ 23)
    rw [‹binaryExponent x = 0›, hmax, hx_eq]
    norm_num

/-- Conversion to `float32` is strictly monotone on the fractions `k / n` of the unit
interval with a denominator up to `2 ^ 24`. -/
theorem Float32.ofRat_fraction_lt (n k₁ k₂ : Nat) (hn : n ≤ 2 ^ 24)
    (h12 : k₁ < k₂) (h2n : k₂ ≤ n) :
    ∃ c₁ c₂, Float32.ofRat ((k₁ : ℚ) / (n : ℚ)) = .finite c₁ ∧
      Float32.ofRat ((k₂ : ℚ) / (n : ℚ)) = .finite c₂ ∧ c₁ < c₂ := by
  have hnpos : 0 < n := by omega
  have hnq : (0 : ℚ) < (n : ℚ) := by exact_mod_cast hnpos
  rcases Nat.lt_or_ge n (2 ^ 24) with hlt | hge
  · -- the two fractions are more than `2 ^ (-24)` apart
    have hx1 : (k₁ : ℚ) / (n : ℚ) < (2 : ℚ) ^ (0 : Int) := by
      rw [zpow_zero, div_lt_one hnq]
      exact_mod_cast (by omega : k₁ < n)
    obtain ⟨c₁, hc₁, hup, -, -⟩ := Float32.ofRat_error ((k₁ : ℚ) / (n : ℚ)) 0 (by norm_num)
      (by norm_num) (by positivity) hx1
    have hgap : (k₁ : ℚ) / (n : ℚ) + 1 / (n : ℚ) ≤ (k₂ : ℚ) / (n : ℚ) := by
      rw [← add_div]
      apply div_le_div_of_nonneg_right _ hnq.le
      exact_mod_cast h12
    have hn24 : (1 : ℚ) / (2 : ℚ) ^ (24 : Int) < 1 / (n : ℚ) := by
      apply one_div_lt_one_div_of_lt hnq
      rw [show (2 : ℚ) ^ (24 : Int) = ((2 ^ 24 : Nat) : ℚ) by norm_num]
      exact_mod_cast hlt
    have h25 : (2 : ℚ) ^ ((0 : Int) - 25) + (2 : ℚ) ^ ((0 : Int) - 25) =
        1 / (2 : ℚ) ^ (24 : Int) := by norm_num
    rcases Nat.lt_or_ge k₂ n with h2lt | h2ge
    · have hx2 : (k₂ : ℚ) / (n : ℚ) < (2 : ℚ) ^ (0 : Int) := by
        rw [zpow_zero, div_lt_one hnq]
        exact_mod_cast h2lt
      obtain ⟨c₂, hc₂, -, hlow, -⟩ := Float32.ofRat_error ((k₂ : ℚ) / (n : ℚ)) 0 (by norm_num)
        (by norm_num) (by positivity) hx2
      exact ⟨c₁, c₂, hc₁, hc₂, by linarith⟩
    · have hk2 : k₂ = n := by omega
      subst hk2
      have hone : (k₂ : ℚ) / (k₂ : ℚ) = ((1 : Nat) : ℚ) := by
        rw [div_self hnq.ne']; norm_num
      have hc₂ := Float32.ofRat_natCast 1 (by norm_num)
      rw [← hone] at hc₂
      refine ⟨c₁, _, hc₁, hc₂, ?_⟩
      rw [div_self hnq.ne'] at hgap
      have : (0 : ℚ) < (2 : ℚ) ^ ((0 : Int) - 25) := by positivity
      rw [div_self hnq.ne']
      linarith
  · have h24 : n = 2 ^ 24 := by omega
    subst h24
    refine ⟨_, _, Float32.ofRat_dyadic k₁ (by omega), Float32.ofRat_dyadic k₂ h2n, ?_⟩
    apply div_lt_div_of_pos_right _ hnq
    exact_mod_cast h12

/-- On the fractions `k / n` of the unit interval with a denominator up to `2 ^ 24`,
conversion to `float32` keeps the side of the constants 0.15 and 0.05: the converted
fraction is below the `float32` constant 0.15 exactly when the fraction is below 3/20, and
above the `float32` constant 0.05 exactly when the fraction is above 1/20. -/
theorem Float32.ofRat_fraction_thresholds (n k : Nat) (hn1 : 1 ≤ n) (hn : n ≤ 2 ^ 24)
    (hk : k ≤ n) :
    ∃ c, Float32.ofRat ((k : ℚ) / (n : ℚ)) = .finite c ∧
      (c < 5033165 / 33554432 ↔ (k : ℚ) / (n : ℚ) < 3 / 20) ∧
      (13421773 / 268435456 < c ↔ 1 / 20 < (k : ℚ) / (n : ℚ)) := by
  have h15 := Float32.constants.2
  have h05 := Float32.constants.1
  have hnq : (0 : ℚ) < (n : ℚ) := by exact_mod_cast hn1
  have hn24 : (n : ℚ) ≤ 16777216 := by exact_mod_cast hn
  have hx0 : (0 : ℚ) ≤ (k : ℚ) / (n : ℚ) := by positivity
  have hx1 : (k : ℚ) / (n : ℚ) ≤ 1 := (div_le_one hnq).mpr (by exact_mod_cast hk)
  obtain ⟨c, hc, hc0, hc1⟩ := Float32.ofRat_unit _ hx0 hx1
  have hinv : (1 : ℚ) / (20 * 16777216) ≤ 1 / (20 * (n : ℚ)) :=
    one_div_le_one_div_of_le (by positivity) (by linarith)
  refine ⟨c, hc, ⟨?_, ?_⟩, ⟨?_, ?_⟩⟩
  · intro hlt
    by_contra hge
    obtain ⟨c', hc', -, hle⟩ := Float32.ofRat_mono (3 / 20) _ (by norm_num) (not_lt.mp hge) c hc
    rw [h15] at hc'
    simp only [Float32.finite.injEq] at hc'
    rw [← hc'] at hle
    linarith
  · intro hlt
    -- `k / n` is at least `1 / (20 n)` below 3/20
    have hnat : 20 * k + 1 ≤ 3 * n := by
      have h := (div_lt_iff₀ hnq).mp hlt
      have h' : (20 : ℚ) * (k : ℚ) < 3 * (n : ℚ) := by linarith
      have : 20 * k < 3 * n := by exact_mod_cast h'
      omega
    have hgap : (k : ℚ) / (n : ℚ) ≤ 3 / 20 - 1 / (20 * (n : ℚ)) := by
      rw [div_le_iff₀ hnq, sub_mul, div_mul_eq_mul_div, div_mul_eq_mul_div,
        show (1 : ℚ) * (n : ℚ) / (20 * (n : ℚ)) = 1 / 20 by
          rw [div_eq_div_iff (by positivity) (by norm_num)]; ring]
      have : (20 : ℚ) * (k : ℚ) + 1 ≤ 3 * (n : ℚ) := by exact_mod_cast hnat
      linarith
    have hx4 : (k : ℚ) / (n : ℚ) < (2 : ℚ) ^ (-2 : Int) := by
      have : (2 : ℚ) ^ (-2 : Int) = 1 / 4 := by norm_num
      rw [this]; linarith
    obtain ⟨c', hc', hup, -, -⟩ := Float32.ofRat_error _ (-2) (by norm_num) (by norm_num)
      hx0 hx4
    rw [hc] at hc'
    simp only [Float32.finite.injEq] at hc'
    subst hc'
    have h27 : (2 : ℚ) ^ ((-2 : Int) - 25) = 1 / 134217728 := by norm_num
    rw [h27] at hup
    have : (1 : ℚ) / (20 * 16777216) = 1 / 335544320 := by norm_num
    linarith
  · intro hlt
    by_contra hge
    obtain ⟨c', hc', -, hle⟩ := Float32.ofRat_mono _ (1 / 20) hx0 (not_lt.mp hge)
      (13421773 / 268435456) h05
    rw [hc] at hc'
    simp only [Float32.finite.injEq] at hc'
    rw [← hc'] at hle
    linarith
  · intro hlt
    have hnat : n + 1 ≤ 20 * k := by
      have h := (lt_div_iff₀ hnq).mp hlt
      have h' : (n : ℚ) < 20 * (k : ℚ) := by linarith
      have : n < 20 * k := by exact_mod_cast h'
      omega
    have hgap : 1 / 20 + 1 / (20 * (n : ℚ)) ≤ (k : ℚ) / (n : ℚ) := by
      rw [le_div_iff₀ hnq, add_mul, div_mul_eq_mul_div, div_mul_eq_mul_div,
        show (1 : ℚ) * (n : ℚ) / (20 * (n : ℚ)) = 1 / 20 by
          rw [div_eq_div_iff (by positivity) (by norm_num)]; ring]
      have : (n : ℚ) + 1 ≤ 20 * (k : ℚ) := by exact_mod_cast hnat
      linarith
    by_cases h16 : (k : ℚ) / (n : ℚ) < (2 : ℚ) ^ (-4 : Int)
    · obtain ⟨c', hc', -, hlow, -⟩ := Float32.ofRat_error _ (-4) (by norm_num) (by norm_num)
        hx0 h16
      rw [hc] at hc'
      simp only [Float32.finite.injEq] at hc'
      subst hc'
      have h29 : (2 : ℚ) ^ ((-4 : Int) - 25) = 1 / 536870912 := by norm_num
      rw [h29] at hlow
      have : (1 : ℚ) / (20 * 16777216) = 1 / 335544320 := by norm_num
      linarith
    · rcases Float32.ofRat_ge_pow _ (-4) (by norm_num) (not_lt.mp h16) with h | ⟨c', hc', hle⟩
      · rw [hc] at h
        simp at h
      · rw [hc] at hc'
        simp only [Float32.finite.injEq] at hc'
        subst hc'
        have : (2 : ℚ) ^ (-4 : Int) = 1 / 16 := by norm_num
        rw [this] at hle
        linarith

/-! ## The pattern-matching detector: scores -/

/-- The counter of `calculateLanguageScore` stops at `2 ^ 24`: adding 1 to the `float32`
value `2 ^ 24` gives `2 ^ 24` again. -/
theorem Float32.add_one (s : Nat) (hs : s ≤ 2 ^ 24) :
    Float32.add (.finite (s : ℚ)) (.finite 1) = .finite ((min (s + 1) (2 ^ 24) : Nat) : ℚ) := by
  have hsat : Float32.ofRat 16777217 = .finite 16777216 := by decide!
  rw [Float32.add]
  rcases Nat.lt_or_ge s (2 ^ 24) with hlt | hge
  · rw [show (s : ℚ) + 1 = ((s + 1 : Nat) : ℚ) by push_cast; rfl,
      Float32.ofRat_natCast (s + 1) hlt, Nat.min_eq_left hlt]
  · have h24 : s = 2 ^ 24 := Nat.le_antisymm hs hge
    subst h24
    rw [show (((2 ^ 24 : Nat) : ℚ) + 1) = 16777217 by norm_num, hsat]
    norm_num

/-- The counting loop adds to the score the number of words whose cleaned form is a
marker word, up to the point where the `float32` counter stops, `2 ^ 24`. -/
theorem countMatches_eq (rt : GoRuntime) (patterns : List String) (words : List String)
    (s : Nat) (hs : s ≤ 2 ^ 24) :
    countMatches rt patterns words (.finite (s : ℚ)) =
      .finite ((min (s + words.countP fun w => patterns.contains (cleanWord rt w)) (2 ^ 24)
        : Nat) : ℚ) := by
  induction words generalizing s with
  | nil =>
    simp only [countMatches, List.countP_nil, Nat.add_zero, Nat.min_eq_left hs]
  | cons word rest ih =>
    by_cases h : patterns.contains (cleanWord rt word) = true
    · rw [countMatches, if_pos h, Float32.add_one s hs, ih _ (Nat.min_le_right _ _),
        List.countP_cons, if_pos h]
      congr 2
      omega
    · rw [countMatches, if_neg h, ih s hs, List.countP_cons, if_neg h]
      simp

/-- The score of a language: the number of matching words, or `2 ^ 24` if there are more. -/
theorem calculateLanguageScore_eq (f : FallbackAdapter) (rt : GoRuntime)
    (words : List String) (patterns : List String) :
    f.calculateLanguageScore rt words patterns =
      .finite ((min (words.countP fun w => patterns.contains (cleanWord rt w)) (2 ^ 24)
        : Nat) : ℚ) := by
  unfold FallbackAdapter.calculateLanguageScore
  have h := countMatches_eq rt patterns words 0 (Nat.zero_le _)
  simp only [Nat.cast_zero, Nat.zero_add] at h
  exact h

/-- The map `languageScores` holds, for every configured language, its quotient. -/
theorem languageScores_eq (f : FallbackAdapter) (rt : GoRuntime) (words : List String) :
    f.languageScores rt words = f.patterns.map fun entry =>
      (entry.1, f.ratio rt words entry.2) := rfl

/-- The conversion `float32(len(words))` of a positive word count `n` gives a value that is
at least 1 and at least every stopped counter `min k (2 ^ 24)` with `k ≤ n`, or the positive
infinity. -/
theorem Float32.ofNat_spec (n k : Nat) (hn : 1 ≤ n) (hk : k ≤ n) :
    Float32.ofNat n = .posInf ∨
    ∃ c, Float32.ofNat n = .finite c ∧ 1 ≤ c ∧ ((min k (2 ^ 24) : Nat) : ℚ) ≤ c := by
  unfold Float32.ofNat
  rcases Nat.le_total n (2 ^ 24) with hle | hge
  · refine Or.inr ⟨n, Float32.ofRat_natCast n hle, by exact_mod_cast hn, ?_⟩
    have : min k (2 ^ 24) ≤ n := le_trans (Nat.min_le_left _ _) hk
    exact_mod_cast this
  · have h24 : (2 : ℚ) ^ (24 : Int) ≤ (n : ℚ) := by
      rw [show (2 : ℚ) ^ (24 : Int) = ((2 ^ 24 : Nat) : ℚ) by norm_num]
      exact_mod_cast hge
    rcases Float32.ofRat_ge_pow (n : ℚ) 24 (by norm_num) h24 with h | ⟨c, hc, hle⟩
    · exact Or.inl h
    · refine Or.inr ⟨c, hc, le_trans (by norm_num) hle, le_trans ?_ hle⟩
      rw [show (2 : ℚ) ^ (24 : Int) = ((2 ^ 24 : Nat) : ℚ) by norm_num]
      exact_mod_cast Nat.min_le_right k (2 ^ 24)

/-- With at least one word, the quotient of a language is a number between 0 and 1, and it
is 0 when no word matches. -/
theorem ratio_spec (f : FallbackAdapter) (rt : GoRuntime) (words : List String)
    (hwords : words ≠ []) (patterns : List String) :
    ∃ c, f.ratio rt words patterns = .finite c ∧ 0 ≤ c ∧ c ≤ 1 ∧
      ((words.countP fun w => patterns.contains (cleanWord rt w)) = 0 → c = 0) := by
  have hn : 1 ≤ words.length := List.length_pos.mpr hwords
  have hk : (words.countP fun w => patterns.contains (cleanWord rt w)) ≤ words.length :=
    List.countP_le_length _
  unfold FallbackAdapter.ratio
  rw [calculateLanguageScore_eq]
  obtain ⟨k, hkdef⟩ : ∃ k, (words.countP fun w => patterns.contains (cleanWord rt w)) = k :=
    ⟨_, rfl⟩
  rw [hkdef] at hk ⊢
  rcases Float32.ofNat_spec words.length k hn hk with h | ⟨c, hc, h1, hle⟩
  · rw [h]
    exact ⟨0, rfl, le_refl _, by norm_num, fun _ => rfl⟩
  · rw [hc]
    have hc0 : c ≠ 0 := by
      intro h0
      rw [h0] at h1
      norm_num at h1
    have hcpos : 0 < c := lt_of_lt_of_le (by norm_num) h1
    simp only [Float32.div, hc0, if_false]
    have hq0 : (0 : ℚ) ≤ ((min k (2 ^ 24) : Nat) : ℚ) / c := by positivity
    have hq1 : ((min k (2 ^ 24) : Nat) : ℚ) / c ≤ 1 := (div_le_one hcpos).mpr hle
    obtain ⟨r, hr, hr0, hr1⟩ := Float32.ofRat_unit _ hq0 hq1
    refine ⟨r, hr, hr0, hr1, ?_⟩
    intro hz
    subst hz
    simp only [Nat.zero_min, Nat.cast_zero, zero_div, Float32.ofRat_zero] at hr
    simpa using hr.symm

/-- On at most `2 ^ 24` words, the quotient of a language is the `float32` nearest to the
exact ratio of matching words to words. -/
theorem ratio_ofRat (f : FallbackAdapter) (rt : GoRuntime) (words : List String)
    (hwords : words ≠ []) (hlen : words.length ≤ 2 ^ 24) (patterns : List String) :
    f.ratio rt words patterns =
      Float32.ofRat (((words.countP fun w => patterns.contains (cleanWord rt w) : Nat) : ℚ) /
        (words.length : ℚ)) := by
  have hn : 1 ≤ words.length := List.length_pos.mpr hwords
  have hk : (words.countP fun w => patterns.contains (cleanWord rt w)) ≤ words.length :=
    List.countP_le_length _
  have hn0 : (words.length : ℚ) ≠ 0 := by
    have : words.length ≠ 0 := by omega
    exact_mod_cast this
  unfold FallbackAdapter.ratio
  rw [calculateLanguageScore_eq, Nat.min_eq_left (le_trans hk hlen)]
  unfold Float32.ofNat
  rw [Float32.ofRat_natCast _ hlen]
  simp only [Float32.div, hn0, if_false]

/-- On at most `2 ^ 24` words, the quotients of two languages compare as their numbers of
matching words do. -/
theorem ratio_lt_iff (f : FallbackAdapter) (rt : GoRuntime) (words : List String)
    (hwords : words ≠ []) (hlen : words.length ≤ 2 ^ 24) (p q : List String) :
    (Float32.lt (f.ratio rt words p) (f.ratio rt words q) = true ↔
      (words.countP fun w => p.contains (cleanWord rt w)) <
        (words.countP fun w => q.contains (cleanWord rt w))) ∧
    (f.ratio rt words p = f.ratio rt words q ↔
      (words.countP fun w => p.contains (cleanWord rt w)) =
        (words.countP fun w => q.contains (cleanWord rt w))) := by
  rw [ratio_ofRat f rt words hwords hlen p, ratio_ofRat f rt words hwords hlen q]
  have hkp : (words.countP fun w => p.contains (cleanWord rt w)) ≤ words.length :=
    List.countP_le_length _
  have hkq : (words.countP fun w => q.contains (cleanWord rt w)) ≤ words.length :=
    List.countP_le_length _
  obtain ⟨kp, hp⟩ : ∃ k, (words.countP fun w => p.contains (cleanWord rt w)) = k := ⟨_, rfl⟩
  obtain ⟨kq, hq⟩ : ∃ k, (words.countP fun w => q.contains (cleanWord rt w)) = k := ⟨_, rfl⟩
  rw [hp] at hkp ⊢
  rw [hq] at hkq ⊢
  rcases Nat.lt_trichotomy kp kq with h | h | h
  · obtain ⟨c₁, c₂, h₁, h₂, hlt⟩ := Float32.ofRat_fraction_lt words.length kp kq hlen h hkq
    rw [h₁, h₂]
    refine ⟨⟨fun _ => h, fun _ => by simpa [Float32.lt] using hlt⟩, ⟨fun he => ?_, fun he => ?_⟩⟩
    · simp only [Float32.finite.injEq] at he
      rw [he] at hlt
      exact absurd hlt (lt_irrefl _)
    · omega
  · subst h
    refine ⟨⟨fun hlt => ?_, fun hlt => absurd hlt (lt_irrefl _)⟩, ⟨fun _ => rfl, fun _ => rfl⟩⟩
    rw [Float32.lt_irrefl] at hlt
    exact absurd hlt (by simp)
  · obtain ⟨c₁, c₂, h₁, h₂, hlt⟩ := Float32.ofRat_fraction_lt words.length kq kp hlen h hkp
    rw [h₁, h₂]
    refine ⟨⟨fun hl => ?_, fun hl => by omega⟩, ⟨fun he => ?_, fun he => by omega⟩⟩
    · simp only [Float32.lt, decide_eq_true_eq] at hl
      exact absurd (lt_trans hl hlt) (lt_irrefl _)
    · simp only [Float32.finite.injEq] at he
      rw [he] at hlt
      exact absurd hlt (lt_irrefl _)

/-- On at most `2 ^ 24` words, the quotient of a language is below the `float32` constant
0.15 exactly when its ratio of matching words to words is below 3/20, and above the
`float32` constant 0.05 exactly when the ratio is above 1/20. -/
theorem ratio_thresholds (f : FallbackAdapter) (rt : GoRuntime) (words : List String)
    (hwords : words ≠ []) (hlen : words.length ≤ 2 ^ 24) (patterns : List String) :
    (Float32.lt (f.ratio rt words patterns) (Float32.ofRat (3 / 20)) = true ↔
      ((words.countP fun w => patterns.contains (cleanWord rt w) : Nat) : ℚ) /
        (words.length : ℚ) < 3 / 20) ∧
    (Float32.lt (Float32.ofRat (1 / 20)) (f.ratio rt words patterns) = true ↔
      (1 : ℚ) / 20 < ((words.countP fun w => patterns.contains (cleanWord rt w) : Nat) : ℚ) /
        (words.length : ℚ)) := by
  have hn : 1 ≤ words.length := List.length_pos.mpr hwords
  obtain ⟨c, hc, h15, h05⟩ := Float32.ofRat_fraction_thresholds words.length
    (words.countP fun w => patterns.contains (cleanWord rt w)) hn hlen
    (List.countP_le_length _)
  rw [ratio_ofRat f rt words hwords hlen patterns, hc, Float32.constants.1,
    Float32.constants.2]
  simp only [Float32.lt, decide_eq_true_eq]
  exact ⟨h15, h05⟩

/-- With at least one word, every score in `languageScores` is a rational in `[0, 1]`. -/
theorem languageScores_finite (f : FallbackAdapter) (rt : GoRuntime) (words : List String)
    (hwords : words ≠ []) :
    ∀ p ∈ f.languageScores rt words, ∃ q, p.2 = .finite q ∧ 0 ≤ q ∧ q ≤ 1 := by
  rw [languageScores_eq f rt words]
  intro p hp
  obtain ⟨entry, -, rfl⟩ := List.mem_map.mp hp
  obtain ⟨c, hc, h0, h1, -⟩ := ratio_spec f rt words hwords entry.2
  exact ⟨c, hc, h0, h1⟩

/-- The best-score loop on finite scores: the score it ends with is at least the one it
started with and at least every score visited, and the pair it ends with is the starting
pair or one of the visited entries. -/
theorem findBest_spec (l : List (LanguageCode × Float32))
    (hfin : ∀ p ∈ l, ∃ q, p.2 = .finite q) (lang0 : LanguageCode) (b0 : ℚ) :
    ∃ b, (findBest l (lang0, .finite b0)).2 = .finite b ∧ b0 ≤ b ∧
      (∀ p ∈ l, ∀ q, p.2 = .finite q → q ≤ b) ∧
      ((findBest l (lang0, .finite b0) = (lang0, .finite b0)) ∨
        (findBest l (lang0, .finite b0) ∈ l ∧ b0 < b)) := by
  induction l generalizing lang0 b0 with
  | nil => exact ⟨b0, rfl, le_refl _, by simp, Or.inl rfl⟩
  | cons hd tl ih =>
    obtain ⟨lang, score⟩ := hd
    obtain ⟨q, hq⟩ := hfin (lang, score) (List.mem_cons_self _ _)
    simp only at hq
    subst hq
    have hfin1 : ∀ p ∈ tl, ∃ q, p.2 = .finite q := fun p hp => hfin p (List.mem_cons_of_mem _ hp)
    by_cases hlt : b0 < q
    · obtain ⟨b, hb, hle, hall, hmem⟩ := ih hfin1 lang q
      have hstep : findBest ((lang, .finite q) :: tl) (lang0, .finite b0) =
          findBest tl (lang, .finite q) := by
        simp [findBest, Float32.lt, hlt]
      rw [hstep]
      refine ⟨b, hb, le_trans (le_of_lt hlt) hle, ?_, Or.inr ⟨?_, lt_of_lt_of_le hlt hle⟩⟩
      · intro p hp r hr
        rcases List.mem_cons.mp hp with rfl | hp
        · simp only [Float32.finite.injEq] at hr
          rw [← hr]; exact hle
        · exact hall p hp r hr
      · rcases hmem with h | ⟨h, -⟩
        · rw [h]; exact List.mem_cons_self _ _
        · exact List.mem_cons_of_mem _ h
    · obtain ⟨b, hb, hle, hall, hmem⟩ := ih hfin1 lang0 b0
      have hstep : findBest ((lang, .finite q) :: tl) (lang0, .finite b0) =
          findBest tl (lang0, .finite b0) := by
        simp [findBest, Float32.lt, hlt]
      rw [hstep]
      refine ⟨b, hb, hle, ?_, ?_⟩
      · intro p hp r hr
        rcases List.mem_cons.mp hp with rfl | hp
        · simp only [Float32.finite.injEq] at hr
          rw [← hr]; exact le_trans (not_lt.mp hlt) hle
        · exact hall p hp r hr
      · rcases hmem with h | ⟨h, hb0⟩
        · exact Or.inl h
        · exact Or.inr ⟨List.mem_cons_of_mem _ h, hb0⟩

/-- What the alternatives loop collects: the visited entries other than `bestLang` whose
score exceeds the `float32` constant 0.05. -/
theorem mem_collectAlternatives (bestLang : LanguageCode) (l : List (LanguageCode × Float32))
    (a : LanguageAlternative) :
    a ∈ collectAlternatives bestLang l ↔
      ∃ p ∈ l, p.1 ≠ bestLang ∧ Float32.lt (Float32.ofRat (1 / 20)) p.2 = true ∧
        a = { LanguageCode := p.1, Confidence := p.2 } := by
  induction l with
  | nil => simp [collectAlternatives]
  | cons hd tl ih =>
    obtain ⟨lang, score⟩ := hd
    by_cases h : lang ≠ bestLang ∧ Float32.lt (Float32.ofRat (1 / 20)) score = true
    · rw [collectAlternatives, if_pos h, List.mem_cons, ih]
      constructor
      · rintro (rfl | ⟨p, hp, h1, h2, h3⟩)
        · exact ⟨(lang, score), List.mem_cons_self _ _, h.1, h.2, rfl⟩
        · exact ⟨p, List.mem_cons_of_mem _ hp, h1, h2, h3⟩
      · rintro ⟨p, hp, h1, h2, h3⟩
        rcases List.mem_cons.mp hp with rfl | hp
        · exact Or.inl h3
        · exact Or.inr ⟨p, hp, h1, h2, h3⟩
    · rw [collectAlternatives, if_neg h, ih]
      constructor
      · rintro ⟨p, hp, h1, h2, h3⟩
        exact ⟨p, List.mem_cons_of_mem _ hp, h1, h2, h3⟩
      · rintro ⟨p, hp, h1, h2, h3⟩
        rcases List.mem_cons.mp hp with rfl | hp
        · exact absurd ⟨h1, h2⟩ h
        · exact ⟨p, hp, h1, h2, h3⟩

/-- The best pair on a text with at least one word: its score `c` is a rational in `[0, 1]`
that bounds every language's quotient; and either nothing beat the zero values, or the pair
is the entry of a configured language whose quotient is `c > 0`. -/
theorem best_spec (f : FallbackAdapter) (rt : GoRuntime) (hwf : rt.WellFormed)
    (words : List String) (hwords : words ≠ []) :
    ∃ c, (f.best rt words).2 = .finite c ∧ 0 ≤ c ∧ c ≤ 1 ∧
      (∀ entry ∈ f.patterns, ∃ r, f.ratio rt words entry.2 = .finite r ∧ r ≤ c) ∧
      (f.best rt words = ("", .finite 0) ∨
        (0 < c ∧ ∃ entry ∈ f.patterns, (f.best rt words).1 = entry.1 ∧
          f.ratio rt words entry.2 = .finite c)) := by
  have hmem : ∀ p, p ∈ rt.rangeBest (f.languageScores rt words) ↔
      p ∈ f.languageScores rt words := fun p => (hwf.1 _).mem_iff
  have hfin := languageScores_finite f rt words hwords
  have hfin1 : ∀ p ∈ rt.rangeBest (f.languageScores rt words), ∃ q, p.2 = .finite q := by
    intro p hp
    obtain ⟨q, hq, -⟩ := hfin p ((hmem p).mp hp)
    exact ⟨q, hq⟩
  obtain ⟨c, hc, h0, hall, hcase⟩ := findBest_spec _ hfin1 "" 0
  have hscores := languageScores_eq f rt words
  refine ⟨c, hc, h0, ?_, ?_, ?_⟩
  · rcases hcase with h | ⟨h, -⟩
    · have : (f.best rt words).2 = .finite 0 := by
        unfold FallbackAdapter.best; rw [h]
      rw [FallbackAdapter.best] at this
      rw [this] at hc
      simp only [Float32.finite.injEq] at hc
      rw [← hc]; norm_num
    · obtain ⟨q, hq, -, hq1⟩ := hfin _ ((hmem _).mp h)
      rw [hq] at hc
      simp only [Float32.finite.injEq] at hc
      rw [← hc]; exact hq1
  · intro entry hentry
    obtain ⟨r, hr, -⟩ := ratio_spec f rt words hwords entry.2
    refine ⟨r, hr, ?_⟩
    apply hall (entry.1, f.ratio rt words entry.2) _ r hr
    rw [hmem, hscores]
    exact List.mem_map.mpr ⟨entry, hentry, rfl⟩
  · rcases hcase with h | ⟨h, hpos⟩
    · exact Or.inl h
    · refine Or.inr ⟨hpos, ?_⟩
      unfold FallbackAdapter.best
      obtain ⟨B, hB⟩ : ∃ B, findBest (rt.rangeBest (f.languageScores rt words))
          ("", .finite 0) = B := ⟨_, rfl⟩
      rw [hB] at h hc ⊢
      have h1 := (hmem B).mp h
      rw [hscores] at h1
      obtain ⟨entry, hentry, he⟩ := List.mem_map.mp h1
      refine ⟨entry, hentry, ?_, ?_⟩
      · rw [← he]
      · rw [← he] at hc
        exact hc

/-- The alternatives: each is a configured language other than `bestLang` whose quotient
exceeds the `float32` constant 0.05, with that quotient as confidence. -/
theorem alternatives_spec (f : FallbackAdapter) (rt : GoRuntime) (hwf : rt.WellFormed)
    (words : List String) (a : LanguageAlternative) :
    a ∈ f.alternatives rt words ↔
      ∃ entry ∈ f.patterns, entry.1 ≠ (f.best rt words).1 ∧
        Float32.lt (Float32.ofRat (1 / 20)) (f.ratio rt words entry.2) = true ∧
        a = { LanguageCode := entry.1, Confidence := f.ratio rt words entry.2 } := by
  unfold FallbackAdapter.alternatives
  rw [mem_collectAlternatives]
  have hmem : ∀ p, p ∈ rt.rangeAlternatives (f.languageScores rt words) ↔
      p ∈ f.languageScores rt words := fun p => (hwf.2.1 _).mem_iff
  have hscores := languageScores_eq f rt words
  constructor
  · rintro ⟨p, hp, h1, h2, h3⟩
    rw [hmem, hscores] at hp
    obtain ⟨entry, hentry, rfl⟩ := List.mem_map.mp hp
    exact ⟨entry, hentry, h1, h2, h3⟩
  · rintro ⟨entry, hentry, h1, h2, h3⟩
    refine ⟨(entry.1, f.ratio rt words entry.2), ?_, h1, h2, h3⟩
    rw [hmem, hscores]
    exact List.mem_map.mpr ⟨entry, hentry, rfl⟩

/-- An alternative's confidence is a rational above 1/20 and at most 1. -/
theorem alternative_bounds (f : FallbackAdapter) (rt : GoRuntime) (words : List String)
    (hwords : words ≠ []) (patterns : List String)
    (h : Float32.lt (Float32.ofRat (1 / 20)) (f.ratio rt words patterns) = true) :
    ∃ c, f.ratio rt words patterns = .finite c ∧ (1 : ℚ) / 20 < c ∧ c ≤ 1 := by
  obtain ⟨c, hc, -, h1, -⟩ := ratio_spec f rt words hwords patterns
  rw [hc, Float32.constants.1] at h
  simp only [Float32.lt, decide_eq_true_eq] at h
  exact ⟨c, hc, lt_trans (by norm_num) h, h1⟩

/-! ## The pattern-matching detector: gates and tokens -/

/-- A field is found as soon as the input has a rune that is not white space, or a field
is already being read. -/
theorem fieldsFrom_ne_nil (l cur : List Char)
    (h : (∃ r ∈ l, unicodeIsSpace r = false) ∨ cur ≠ []) : fieldsFrom l cur ≠ [] := by
  induction l generalizing cur with
  | nil =>
    rcases h with ⟨r, hr, -⟩ | h
    · simp at hr
    · simp [fieldsFrom, h]
  | cons r rest ih =>
    cases hsp : unicodeIsSpace r
    · rw [fieldsFrom]
      simp only [hsp, Bool.false_eq_true, if_false]
      exact ih (r :: cur) (Or.inr (List.cons_ne_nil _ _))
    · rw [fieldsFrom]
      simp only [hsp, if_true]
      by_cases hcur : cur = []
      · rw [if_pos hcur]
        apply ih [] (Or.inl _)
        rcases h with ⟨r1, hr1, hns⟩ | h
        · rcases List.mem_cons.mp hr1 with rfl | hr1
          · rw [hsp] at hns; simp at hns
          · exact ⟨r1, hr1, hns⟩
        · exact absurd hcur h
      · rw [if_neg hcur]
        exact List.cons_ne_nil _ _

/-- A text that passes the short-text gate has at least one word. -/
theorem words_ne_nil_of_gate (rt : GoRuntime) (hwf : rt.WellFormed) (text : Text)
    (hgate : 3 ≤ len (normalizedText rt text)) :
    stringsFields (normalizedText rt text) ≠ [] := by
  unfold stringsFields
  apply fieldsFrom_ne_nil
  left
  have hdata : (normalizedText rt text).data =
      ((text.data.dropWhile unicodeIsSpace).rdropWhile unicodeIsSpace).map rt.unicodeToLower := rfl
  have hne : (text.data.dropWhile unicodeIsSpace).rdropWhile unicodeIsSpace ≠ [] := by
    intro h0
    have h1 : normalizedText rt text = "" := by
      apply String.ext
      rw [hdata, h0]
      rfl
    rw [h1] at hgate
    have hzero : len "" = 0 := by decide
    omega
  have hlast := List.rdropWhile_last_not unicodeIsSpace (text.data.dropWhile unicodeIsSpace) hne
  refine ⟨rt.unicodeToLower (((text.data.dropWhile unicodeIsSpace).rdropWhile
    unicodeIsSpace).getLast hne), ?_, ?_⟩
  · rw [hdata]
    exact List.mem_map_of_mem _ (List.getLast_mem hne)
  · cases hsp : unicodeIsSpace (rt.unicodeToLower (((text.data.dropWhile
        unicodeIsSpace).rdropWhile unicodeIsSpace).getLast hne))
    · rfl
    · exact absurd (hwf.2.2 _ hsp) hlast

/-- First gate: a normalised text of fewer than 3 bytes is answered at once. -/
theorem FallbackAdapter_too_short (f : FallbackAdapter) (rt : GoRuntime) (text : Text)
    (h : len (normalizedText rt text) < 3) :
    f.DetectLanguage rt text =
      (some { LanguageCode := "unknown", Confidence := .finite 0, Alternatives := [],
              DocumentID := "",
              Metadata := { ProcessingTimeMs := 0, ServiceVersion := "", ModelVersion := "",
                            Provider := "fallback",
                            Details := [("reason", "text_too_short")] } }, none) := by
  simp [FallbackAdapter.DetectLanguage, h]

/-- Second gate: a normalised text of at least 3 bytes without words. -/
theorem FallbackAdapter_no_words (f : FallbackAdapter) (rt : GoRuntime) (text : Text)
    (hgate : 3 ≤ len (normalizedText rt text))
    (hwords : stringsFields (normalizedText rt text) = []) :
    f.DetectLanguage rt text =
      (some { LanguageCode := "unknown", Confidence := .finite 0, Alternatives := [],
              DocumentID := "",
              Metadata := { ProcessingTimeMs := 0, ServiceVersion := "", ModelVersion := "",
                            Provider := "fallback",
                            Details := [("reason", "no_words_found")] } }, none) := by
  have h : ¬ len (normalizedText rt text) < 3 := by omega
  simp [FallbackAdapter.DetectLanguage, h, hwords]

/-- Past both gates, with a best score below 0.15: the answer is "unknown". -/
theorem FallbackAdapter_below_threshold (f : FallbackAdapter) (rt : GoRuntime) (text : Text)
    (hgate : 3 ≤ len (normalizedText rt text))
    (hwords : stringsFields (normalizedText rt text) ≠ [])
    (hlow : Float32.lt (f.best rt (stringsFields (normalizedText rt text))).2
      (Float32.ofRat (3 / 20)) = true) :
    f.DetectLanguage rt text =
      (some { LanguageCode := "unknown",
              Confidence := (f.best rt (stringsFields (normalizedText rt text))).2,
              Alternatives := f.alternatives rt (stringsFields (normalizedText rt text)),
              DocumentID := "",
              Metadata := { ProcessingTimeMs := 0, ServiceVersion := "", ModelVersion := "",
                            Provider := "fallback",
                            Details := [("reason", "low_confidence"),
                              ("best_score", rt.sprintfFloat3
                                (f.best rt (stringsFields (normalizedText rt text))).2)] } },
        none) := by
  have h : ¬ len (normalizedText rt text) < 3 := by omega
  simp [FallbackAdapter.DetectLanguage, h, hwords, hlow]

/-- Past both gates, with a best score of at least 0.15: the answer is the best language. -/
theorem FallbackAdapter_at_threshold (f : FallbackAdapter) (rt : GoRuntime) (text : Text)
    (hgate : 3 ≤ len (normalizedText rt text))
    (hwords : stringsFields (normalizedText rt text) ≠ [])
    (hhigh : Float32.lt (f.best rt (stringsFields (normalizedText rt text))).2
      (Float32.ofRat (3 / 20)) = false) :
    f.DetectLanguage rt text =
      (some { LanguageCode := (f.best rt (stringsFields (normalizedText rt text))).1,
              Confidence := (f.best rt (stringsFields (normalizedText rt text))).2,
              Alternatives := f.alternatives rt (stringsFields (normalizedText rt text)),
              DocumentID := "",
              Metadata := { ProcessingTimeMs := 0, ServiceVersion := "", ModelVersion := "",
                            Provider := "fallback",
                            Details := [("total_words",
                                toString (stringsFields (normalizedText rt text)).length),
                              ("best_score", rt.sprintfFloat3
                                (f.best rt (stringsFields (normalizedText rt text))).2)] } },
        none) := by
  have h : ¬ len (normalizedText rt text) < 3 := by omega
  simp [FallbackAdapter.DetectLanguage, h, hwords, hhigh]

set_option maxRecDepth 20000 in
/-- Latin-1 lower-casing never produces white space from a rune that is not. -/
theorem toLowerLatin1_space (r : Char)
    (h : unicodeIsSpace (toLowerLatin1 r) = true) : unicodeIsSpace r = true := by
  have key : ∀ n, n < 256 →
      ((0x41 ≤ n ∧ n ≤ 0x5A) ∨ (0xC0 ≤ n ∧ n ≤ 0xDE ∧ n ≠ 0xD7)) →
      unicodeIsSpace (Char.ofNat (n + 32)) = false := by decide
  unfold toLowerLatin1 at h
  split at h
  · rename_i hup
    have hlt : r.toNat < 256 := by omega
    rw [key r.toNat hlt hup] at h
    simp at h
  · exact h

theorem exampleRuntime_wellFormed : exampleRuntime.WellFormed :=
  ⟨fun l => List.Perm.refl l, fun l => List.Perm.refl l, toLowerLatin1_space⟩

theorem reversedRuntime_wellFormed : reversedRuntime.WellFormed :=
  ⟨fun l => List.reverse_perm l, fun l => List.reverse_perm l, toLowerLatin1_space⟩

/-! ## The pattern-matching detector: the answers it can give -/

/-- The three answers of the detector under a well-formed runtime: the short-text answer,
the "unknown" answer below 0.15, and the best language from 0.15 on. -/
theorem FallbackAdapter_answer (f : FallbackAdapter) (rt : GoRuntime) (hwf : rt.WellFormed)
    (text : Text) :
    ∃ resp, f.DetectLanguage rt text = (some resp, none) ∧
      ((len (normalizedText rt text) < 3 ∧ resp.LanguageCode = "unknown" ∧
          resp.Confidence = .finite 0 ∧ resp.Alternatives = [] ∧
          List.lookup "reason" resp.Metadata.Details = some "text_too_short") ∨
       (3 ≤ len (normalizedText rt text) ∧ stringsFields (normalizedText rt text) ≠ [] ∧
          Float32.lt (f.best rt (stringsFields (normalizedText rt text))).2
            (Float32.ofRat (3 / 20)) = true ∧
          resp.LanguageCode = "unknown" ∧
          resp.Confidence = (f.best rt (stringsFields (normalizedText rt text))).2 ∧
          resp.Alternatives = f.alternatives rt (stringsFields (normalizedText rt text)) ∧
          List.lookup "reason" resp.Metadata.Details = some "low_confidence") ∨
       (3 ≤ len (normalizedText rt text) ∧ stringsFields (normalizedText rt text) ≠ [] ∧
          Float32.lt (f.best rt (stringsFields (normalizedText rt text))).2
            (Float32.ofRat (3 / 20)) = false ∧
          resp.LanguageCode = (f.best rt (stringsFields (normalizedText rt text))).1 ∧
          resp.Confidence = (f.best rt (stringsFields (normalizedText rt text))).2 ∧
          resp.Alternatives = f.alternatives rt (stringsFields (normalizedText rt text)) ∧
          List.lookup "reason" resp.Metadata.Details = none)) := by
  by_cases hgate : len (normalizedText rt text) < 3
  · exact ⟨_, FallbackAdapter_too_short f rt text hgate,
      Or.inl ⟨hgate, rfl, rfl, rfl, by simp [List.lookup]⟩⟩
  · have hgate3 : 3 ≤ len (normalizedText rt text) := by omega
    have hwords := words_ne_nil_of_gate rt hwf text hgate3
    cases hlt : Float32.lt (f.best rt (stringsFields (normalizedText rt text))).2
        (Float32.ofRat (3 / 20))
    · exact ⟨_, FallbackAdapter_at_threshold f rt text hgate3 hwords hlt,
        Or.inr (Or.inr ⟨hgate3, hwords, rfl, rfl, rfl, rfl, by simp [List.lookup]⟩)⟩
    · exact ⟨_, FallbackAdapter_below_threshold f rt text hgate3 hwords hlt,
        Or.inr (Or.inl ⟨hgate3, hwords, rfl, rfl, rfl, rfl, by simp [List.lookup]⟩)⟩

/-- When no word matches a marker word of any language, nothing beats the zero values of the
best-score loop and there are no alternatives. -/
theorem FallbackAdapter_no_match_zero (f : FallbackAdapter) (rt : GoRuntime)
    (hwf : rt.WellFormed) (words : List String) (hwords : words ≠ [])
    (hnone : ∀ entry ∈ f.patterns, ∀ w ∈ words, entry.2.contains (cleanWord rt w) = false) :
    f.best rt words = ("", .finite 0) ∧ f.alternatives rt words = [] := by
  have hratio : ∀ entry ∈ f.patterns, f.ratio rt words entry.2 = .finite 0 := by
    intro entry hentry
    have hc : words.countP (fun w => entry.2.contains (cleanWord rt w)) = 0 := by
      rw [List.countP_eq_zero]
      intro w hw
      rw [hnone entry hentry w hw]
      simp
    obtain ⟨c, hc1, -, -, hz⟩ := ratio_spec f rt words hwords entry.2
    rw [hc1, hz hc]
  obtain ⟨c, -, -, -, -, hcase⟩ := best_spec f rt hwf words hwords
  constructor
  · rcases hcase with h | ⟨hpos, entry, hentry, -, he⟩
    · exact h
    · rw [hratio entry hentry] at he
      simp only [Float32.finite.injEq] at he
      rw [← he] at hpos
      exact absurd hpos (lt_irrefl _)
  · apply List.eq_nil_iff_forall_not_mem.mpr
    intro a ha
    obtain ⟨entry, hentry, -, hlt, -⟩ := (alternatives_spec f rt hwf words a).mp ha
    rw [hratio entry hentry, Float32.constants.1] at hlt
    simp [Float32.lt] at hlt
    norm_num at hlt

/-- On at most `2 ^ 24` words the quotients are ordered as the ratios of matching words to
words are: one quotient does not exceed another, equals it, or is above 0 exactly when the
ratio is. -/
theorem ratio_order (f : FallbackAdapter) (rt : GoRuntime) (words : List String)
    (hwords : words ≠ []) (hlen : words.length ≤ 2 ^ 24) (p q : List String) :
    (Float32.lt (f.ratio rt words p) (f.ratio rt words q) = false ↔
      ((words.countP fun w => q.contains (cleanWord rt w) : ℕ) : ℚ) / (words.length : ℚ) ≤
      ((words.countP fun w => p.contains (cleanWord rt w) : ℕ) : ℚ) / (words.length : ℚ)) ∧
    (f.ratio rt words p = f.ratio rt words q ↔
      ((words.countP fun w => p.contains (cleanWord rt w) : ℕ) : ℚ) / (words.length : ℚ) =
      ((words.countP fun w => q.contains (cleanWord rt w) : ℕ) : ℚ) / (words.length : ℚ)) ∧
    (Float32.lt (.finite 0) (f.ratio rt words p) = true ↔
      (0 : ℚ) <
      ((words.countP fun w => p.contains (cleanWord rt w) : ℕ) : ℚ) / (words.length : ℚ)) := by
  have hn : 0 < words.length := List.length_pos.mpr hwords
  have hnq : (0 : ℚ) < (words.length : ℚ) := by exact_mod_cast hn
  obtain ⟨hlt, heq⟩ := ratio_lt_iff f rt words hwords hlen p q
  refine ⟨?_, ?_, ?_⟩
  · rw [div_le_div_iff_of_pos_right hnq, Nat.cast_le, ← not_lt, ← hlt]
    simp
  · rw [heq, div_left_inj' hnq.ne', Nat.cast_inj]
  · rw [div_pos_iff_of_pos_right hnq, Nat.cast_pos]
    have hk : (words.countP fun w => p.contains (cleanWord rt w)) ≤ words.length :=
      List.countP_le_length _
    rw [ratio_ofRat f rt words hwords hlen p]
    rcases Nat.eq_zero_or_pos (words.countP fun w => p.contains (cleanWord rt w)) with h0 | hpos
    · rw [h0]
      simp [Float32.ofRat_zero, Float32.lt]
    · obtain ⟨c₁, c₂, h₁, h₂, hc⟩ := Float32.ofRat_fraction_lt words.length 0 _ hlen hpos hk
      rw [Nat.cast_zero, zero_div, Float32.ofRat_zero] at h₁
      simp only [Float32.finite.injEq] at h₁
      subst h₁
      rw [h₂]
      exact ⟨fun _ => hpos, fun _ => by simpa [Float32.lt] using hc⟩

/-- On at most `2 ^ 24` words, a language whose quotient bounds every quotient has the
highest ratio of matching words to words, and its quotient is the `float32` nearest to
that ratio. -/
theorem ratio_top (f : FallbackAdapter) (rt : GoRuntime) (words : List String)
    (hwords : words ≠ []) (hlen : words.length ≤ 2 ^ 24) (top : String × List String) (c : ℚ)
    (htop : f.ratio rt words top.2 = .finite c)
    (hall : ∀ entry ∈ f.patterns, ∃ r, f.ratio rt words entry.2 = .finite r ∧ r ≤ c) :
    (∀ entry ∈ f.patterns,
      ((words.countP fun w => entry.2.contains (cleanWord rt w) : ℕ) : ℚ) / (words.length : ℚ) ≤
      ((words.countP fun w => top.2.contains (cleanWord rt w) : ℕ) : ℚ) / (words.length : ℚ)) ∧
    Float32.finite c =
      Float32.ofRat (((words.countP fun w => top.2.contains (cleanWord rt w) : ℕ) : ℚ) /
        (words.length : ℚ)) := by
  refine ⟨fun entry hentry => ?_, ?_⟩
  · obtain ⟨r, hr, hle⟩ := hall entry hentry
    have hnot : ¬ (Float32.lt (f.ratio rt words top.2) (f.ratio rt words entry.2) = true) := by
      rw [htop, hr]
      simpa [Float32.lt] using hle
    rw [(ratio_lt_iff f rt words hwords hlen top.2 entry.2).1] at hnot
    apply div_le_div_of_nonneg_right _ (by positivity)
    exact_mod_cast not_lt.mp hnot
  · rw [← htop]
    exact ratio_ofRat f rt words hwords hlen top.2

/-- A string has at least as many bytes as runes. -/
theorem length_le_len (s : String) : s.length ≤ len s := by
  have key : ∀ l : List Char, l.length ≤ String.utf8ByteSize.go l := by
    intro l
    induction l with
    | nil => simp [String.utf8ByteSize.go]
    | cons r rest ih =>
      have := Char.utf8Size_pos r
      simp only [List.length_cons, String.utf8ByteSize.go]
      omega
  exact key s.data

/-- The scan of `strings.Fields` reads runes that are not white space into the field. -/
theorem fieldsFrom_append (w rest cur : List Char)
    (hw : ∀ r ∈ w, unicodeIsSpace r = false) :
    fieldsFrom (w ++ rest) cur = fieldsFrom rest (w.reverse ++ cur) := by
  induction w generalizing cur with
  | nil => rfl
  | cons r w ih =>
    rw [List.cons_append, fieldsFrom]
    simp only [hw r (List.mem_cons_self _ _), Bool.false_eq_true, if_false]
    rw [ih _ (fun x hx => hw x (List.mem_cons_of_mem _ hx)), List.reverse_cons, List.append_assoc]
    rfl

/-- A word written `n` times, each time followed by a space, gives `n` fields. -/
theorem fieldsFrom_repeatRunes (w : List Char) (hne : w ≠ [])
    (hw : ∀ r ∈ w, unicodeIsSpace r = false) (n : Nat) (rest : List Char) :
    fieldsFrom (repeatRunes (w ++ [' ']) n rest) [] =
      List.replicate n (String.mk w) ++ fieldsFrom rest [] := by
  induction n with
  | zero => rfl
  | succ n ih =>
    have hsp : unicodeIsSpace ' ' = true := by decide
    rw [repeatRunes, List.append_assoc, fieldsFrom_append w _ [] hw, List.append_nil,
      List.singleton_append, fieldsFrom]
    simp only [hsp, if_true, List.reverse_eq_nil_iff, hne, if_false, List.reverse_reverse, ih,
      List.replicate_succ, List.cons_append]

/-- Repeated runes start with a rune of the repeated runes or of the rest. -/
theorem repeatRunes_head (w : List Char) (n : Nat) (rest : List Char) (p : Char → Bool)
    (hw : ∃ c l, w = c :: l ∧ p c = false) (hrest : ∃ c l, rest = c :: l ∧ p c = false) :
    ∃ c l, repeatRunes w n rest = c :: l ∧ p c = false := by
  cases n with
  | zero => exact hrest
  | succ n =>
    obtain ⟨c, l, rfl, hc⟩ := hw
    exact ⟨c, l ++ repeatRunes (c :: l) n rest, rfl, hc⟩

/-- Repeated runes end with the last rune of the rest. -/
theorem repeatRunes_last (w : List Char) (n : Nat) (rest : List Char) (p : Char → Bool)
    (hrest : ∃ l d, rest = l ++ [d] ∧ p d = false) :
    ∃ l d, repeatRunes w n rest = l ++ [d] ∧ p d = false := by
  induction n with
  | zero => exact hrest
  | succ n ih =>
    obtain ⟨l, d, hl, hd⟩ := ih
    exact ⟨w ++ l, d, by rw [repeatRunes, hl, List.append_assoc], hd⟩

/-- Repeated runes are runes of the repeated runes or of the rest. -/
theorem repeatRunes_mem (w : List Char) (n : Nat) (rest : List Char) (r : Char)
    (h : r ∈ repeatRunes w n rest) : r ∈ w ∨ r ∈ rest := by
  induction n with
  | zero => exact Or.inr h
  | succ n ih =>
    rw [repeatRunes, List.mem_append] at h
    rcases h with h | h
    · exact Or.inl h
    · exact ih h

/-- Repeated runes and the rest are at least as many as the rest. -/
theorem repeatRunes_length (w : List Char) (n : Nat) (rest : List Char) :
    (repeatRunes w n rest).length = n * w.length + rest.length := by
  induction n with
  | zero => simp [repeatRunes]
  | succ n ih =>
    rw [repeatRunes, List.length_append, ih]
    ring

/-- The text `repeatedText a b` is its own normal form. -/
theorem repeatedText_normal (rt : GoRuntime) (hrt : rt.unicodeToLower = toLowerLatin1)
    (a b : Nat) : normalizedText rt (repeatedText a b) = repeatedText a b := by
  have hel : ∃ c l, "el".data = c :: l ∧ unicodeIsSpace c = false := ⟨'e', ['l'], rfl, by decide⟩
  have hel2 : ∃ c l, "el ".data = c :: l ∧ unicodeIsSpace c = false :=
    ⟨'e', ['l', ' '], rfl, by decide⟩
  have hthe : ∃ c l, "the ".data = c :: l ∧ unicodeIsSpace c = false :=
    ⟨'t', ['h', 'e', ' '], rfl, by decide⟩
  have hlast : ∃ l d, "el".data = l ++ [d] ∧ unicodeIsSpace d = false :=
    ⟨['e'], 'l', rfl, by decide⟩
  obtain ⟨c, l, hcl, hc⟩ := repeatRunes_head "the ".data a _ unicodeIsSpace hthe
    (repeatRunes_head "el ".data b "el".data unicodeIsSpace hel2 hel)
  obtain ⟨l2, d, hld, hd⟩ := repeatRunes_last "the ".data a _ unicodeIsSpace
    (repeatRunes_last "el ".data b "el".data unicodeIsSpace hlast)
  have htrim : stringsTrimSpace (repeatedText a b) = repeatedText a b := by
    unfold stringsTrimSpace stringsTrimFunc repeatedText
    congr 1
    have h1 : (repeatRunes "the ".data a (repeatRunes "el ".data b "el".data)).dropWhile
        unicodeIsSpace = repeatRunes "the ".data a (repeatRunes "el ".data b "el".data) := by
      rw [hcl, List.dropWhile_cons_of_neg (by simp [hc])]
    show List.rdropWhile unicodeIsSpace
      ((repeatRunes "the ".data a (repeatRunes "el ".data b "el".data)).dropWhile
        unicodeIsSpace) = _
    rw [h1, hld]
    exact List.rdropWhile_concat_neg _ _ _ (by simp [hd])
  unfold normalizedText
  rw [htrim, hrt]
  unfold stringsToLower repeatedText
  congr 1
  have hfix : ∀ r ∈ repeatRunes "the ".data a (repeatRunes "el ".data b "el".data),
      toLowerLatin1 r = r := by
    intro r hr
    have hmem : r ∈ "the ".data ∨ r ∈ "el ".data ∨ r ∈ "el".data := by
      rcases repeatRunes_mem _ _ _ _ hr with h | h
      · exact Or.inl h
      · exact Or.inr (repeatRunes_mem _ _ _ _ h)
    have hall : ∀ x ∈ ['t', 'h', 'e', ' ', 'l'], toLowerLatin1 x = x := by decide
    apply hall
    rcases hmem with h | h | h
    · have : r ∈ ['t', 'h', 'e', ' '] := h
      simp only [List.mem_cons, List.mem_singleton, List.not_mem_nil, or_false] at this ⊢
      tauto
    · have : r ∈ ['e', 'l', ' '] := h
      simp only [List.mem_cons, List.mem_singleton, List.not_mem_nil, or_false] at this ⊢
      tauto
    · have : r ∈ ['e', 'l'] := h
      simp only [List.mem_cons, List.mem_singleton, List.not_mem_nil, or_false] at this ⊢
      tauto
  show List.map toLowerLatin1 (repeatRunes "the ".data a (repeatRunes "el ".data b "el".data))
    = _
  rw [List.map_congr_left hfix, List.map_id']

/-- The words of `repeatedText a b` are "the" `a` times and "el" `b + 1` times; with a
"the" the text passes the short-text gate. -/
theorem repeatedText_words (rt : GoRuntime) (hrt : rt.unicodeToLower = toLowerLatin1)
    (a b : Nat) :
    (1 ≤ a → 3 ≤ len (normalizedText rt (repeatedText a b))) ∧
    stringsFields (normalizedText rt (repeatedText a b)) =
      List.replicate a "the" ++ (List.replicate b "el" ++ ["el"]) := by
  rw [repeatedText_normal rt hrt]
  constructor
  · intro ha
    refine le_trans ?_ (length_le_len _)
    show 3 ≤ (repeatRunes "the ".data a (repeatRunes "el ".data b "el".data)).length
    rw [repeatRunes_length]
    have : ("the ".data).length = 4 := rfl
    rw [this]
    omega
  · unfold stringsFields repeatedText
    show fieldsFrom (repeatRunes ("the".data ++ [' ']) a
      (repeatRunes ("el".data ++ [' ']) b "el".data)) [] = _
    rw [fieldsFrom_repeatRunes "the".data (by decide) (by decide),
      fieldsFrom_repeatRunes "el".data (by decide) (by decide)]
    rfl

/-- The number of words of `repeatedText a b` that each language of the built-in table
matches: English the `a` words "the", Spanish the `b + 1` words "el". -/
theorem repeatedText_counts (rt : GoRuntime) (hrt : rt.unicodeToLower = toLowerLatin1)
    (a b : Nat) :
    (stringsFields (normalizedText rt (repeatedText a b))).length = a + b + 1 ∧
    NewFallbackAdapter.patterns.map (fun entry =>
        (entry.1, (stringsFields (normalizedText rt (repeatedText a b))).countP
          fun w => entry.2.contains (cleanWord rt w))) =
      [("en-US", a), ("es-ES", b + 1), ("fr-FR", 0), ("de-DE", 0)] := by
  rw [(repeatedText_words rt hrt a b).2]
  have hclean : ∀ w, cleanWord rt w = cleanWord exampleRuntime w := by
    intro w
    unfold cleanWord
    rw [hrt]
    rfl
  have hcount : ∀ p : List String,
      (List.replicate a "the" ++ (List.replicate b "el" ++ ["el"])).countP
        (fun w => p.contains (cleanWord rt w)) =
      (if p.contains (cleanWord exampleRuntime "the") = true then a else 0) +
      ((if p.contains (cleanWord exampleRuntime "el") = true then b else 0) +
       (if p.contains (cleanWord exampleRuntime "el") = true then 1 else 0)) := by
    intro p
    simp only [hclean]
    rw [List.countP_append, List.countP_append, List.countP_replicate, List.countP_replicate,
      List.countP_cons, List.countP_nil, Nat.zero_add]
  constructor
  · rw [List.length_append, List.length_append, List.length_replicate, List.length_replicate,
      List.length_singleton]
    omega
  · have hthe : cleanWord exampleRuntime "the" = "the" := by decide
    have hel : cleanWord exampleRuntime "el" = "el" := by decide
    simp only [hcount, hthe, hel]
    have hc : NewFallbackAdapter.patterns.map
        (fun entry => (entry.1, entry.2.contains "the", entry.2.contains "el")) =
        [("en-US", true, false), ("es-ES", false, true), ("fr-FR", false, false),
          ("de-DE", false, false)] := by decide
    have h := congrArg (List.map fun t : String × Bool × Bool =>
      (t.1, (if t.2.1 = true then a else 0) +
        ((if t.2.2 = true then b else 0) + (if t.2.2 = true then 1 else 0)))) hc
    rw [List.map_map] at h
    simp only [List.map_cons, List.map_nil, if_true, Bool.false_eq_true, if_false, Nat.add_zero,
      Nat.zero_add] at h
    exact h

/-- The map `languageScores` on the words of `repeatedText a b`. -/
theorem repeatedText_scores (rt : GoRuntime) (hrt : rt.unicodeToLower = toLowerLatin1)
    (a b : Nat) :
    NewFallbackAdapter.languageScores rt (stringsFields (normalizedText rt (repeatedText a b))) =
      [("en-US", Float32.div (.finite ((min a (2 ^ 24) : Nat) : ℚ)) (Float32.ofNat (a + b + 1))),
       ("es-ES", Float32.div (.finite ((min (b + 1) (2 ^ 24) : Nat) : ℚ))
          (Float32.ofNat (a + b + 1))),
       ("fr-FR", Float32.div (.finite ((min 0 (2 ^ 24) : Nat) : ℚ)) (Float32.ofNat (a + b + 1))),
       ("de-DE", Float32.div (.finite ((min 0 (2 ^ 24) : Nat) : ℚ))
          (Float32.ofNat (a + b + 1)))] := by
  obtain ⟨hlen, hcounts⟩ := repeatedText_counts rt hrt a b
  rw [languageScores_eq]
  unfold FallbackAdapter.ratio
  simp only [calculateLanguageScore_eq, hlen]
  have h := congrArg (List.map fun t : String × Nat =>
    (t.1, Float32.div (.finite ((min t.2 (2 ^ 24) : Nat) : ℚ)) (Float32.ofNat (a + b + 1))))
    hcounts
  rw [List.map_map] at h
  exact h

/-! ## Claims about the pattern-matching detector -/

/-- C15: the pattern-matching detector never fails. For every text (the empty and the
white-space-only ones included) it returns a present result and a nil error. It either
answers at one of the two gates, before any division, or the number of words it divides by
is at least 1 and every quotient `score / totalWords` is a number (not NaN, not infinite,
which is what a division by zero would give). -/
theorem FallbackAdapter_DetectLanguage_never_fails (f : FallbackAdapter) (rt : GoRuntime)
    (text : Text) :
    ∃ resp, f.DetectLanguage rt text = (some resp, none) ∧
      (List.lookup "reason" resp.Metadata.Details = some "text_too_short" ∨
       List.lookup "reason" resp.Metadata.Details = some "no_words_found" ∨
       (1 ≤ (stringsFields (normalizedText rt text)).length ∧
        ∀ p ∈ f.languageScores rt (stringsFields (normalizedText rt text)),
          ∃ q, p.2 = .finite q)) := by
  by_cases hshort : len (normalizedText rt text) < 3
  · exact ⟨_, FallbackAdapter_too_short f rt text hshort, Or.inl (by decide)⟩
  · have hgate : 3 ≤ len (normalizedText rt text) := by omega
    by_cases hwords : stringsFields (normalizedText rt text) = []
    · exact ⟨_, FallbackAdapter_no_words f rt text hgate hwords, Or.inr (Or.inl (by decide))⟩
    · have hpos : 1 ≤ (stringsFields (normalizedText rt text)).length :=
        List.length_pos.mpr hwords
      have hfin : ∀ p ∈ f.languageScores rt (stringsFields (normalizedText rt text)),
          ∃ q, p.2 = .finite q := by
        intro p hp
        obtain ⟨q, hq, -⟩ := languageScores_finite f rt _ hwords p hp
        exact ⟨q, hq⟩
      cases hlt : Float32.lt (f.best rt (stringsFields (normalizedText rt text))).2
          (Float32.ofRat (3 / 20))
      · exact ⟨_, FallbackAdapter_at_threshold f rt text hgate hwords hlt,
          Or.inr (Or.inr ⟨hpos, hfin⟩)⟩
      · exact ⟨_, FallbackAdapter_below_threshold f rt text hgate hwords hlt,
          Or.inr (Or.inr ⟨hpos, hfin⟩)⟩

/-- C16, as stated, fails for non-ASCII text: the normalised form of "éa" has 2 characters
(fewer than 3) but 3 bytes, so it passes the gate; its one token cleans to the English
marker word "a", and the answer is "en-US" with confidence 1 and no `reason` entry. -/
theorem FallbackAdapter_two_characters_not_too_short :
    (normalizedText exampleRuntime "éa").length = 2 ∧
    len (normalizedText exampleRuntime "éa") = 3 ∧
    (NewFallbackAdapter.DetectLanguage exampleRuntime "éa").1.map
      (fun r => (r.LanguageCode, r.Confidence, List.lookup "reason" r.Metadata.Details))
      = some ("en-US", .finite 1, none) := by
  decide!

/-- C16, amended: for every text whose normalised form (white space trimmed, lower-cased)
has fewer than 3 bytes, the detector returns language code "unknown", confidence 0,
`details.reason` "text_too_short" and provider "fallback", with no alternatives. -/
theorem FallbackAdapter_DetectLanguage_text_too_short (f : FallbackAdapter) (rt : GoRuntime)
    (text : Text) (h : len (normalizedText rt text) < 3) :
    ∃ resp, f.DetectLanguage rt text = (some resp, none) ∧
      resp.LanguageCode = "unknown" ∧ resp.Confidence = .finite 0 ∧
      List.lookup "reason" resp.Metadata.Details = some "text_too_short" ∧
      resp.Metadata.Provider = "fallback" ∧ resp.Alternatives = [] :=
  ⟨_, FallbackAdapter_too_short f rt text h, rfl, rfl, by decide, rfl, rfl⟩

/-- C16 amended, at the white-space-only text of `TestFallbackAdapter_DetectLanguage_TextTooShort`. -/
theorem FallbackAdapter_DetectLanguage_text_too_short_witness :
    len (normalizedText exampleRuntime "   ") < 3 ∧
    ∃ resp, NewFallbackAdapter.DetectLanguage exampleRuntime "   " = (some resp, none) ∧
      resp.LanguageCode = "unknown" ∧ resp.Confidence = .finite 0 ∧
      List.lookup "reason" resp.Metadata.Details = some "text_too_short" ∧
      resp.Metadata.Provider = "fallback" ∧ resp.Alternatives = [] :=
  ⟨by decide,
   FallbackAdapter_DetectLanguage_text_too_short NewFallbackAdapter exampleRuntime "   "
     (by decide)⟩

/-- C17, as stated, fails below the short-text gate: "ab" has one token, whose cleaned
form is a marker word of no language, yet the reason reported is "text_too_short", not
"low_confidence" (as `TestFallbackAdapter_DetectLanguage_TextTooShort` expects). -/
theorem FallbackAdapter_unmatched_token_too_short :
    stringsFields (normalizedText exampleRuntime "ab") = ["ab"] ∧
    (∀ entry ∈ NewFallbackAdapter.patterns, ∀ w ∈ stringsFields (normalizedText exampleRuntime "ab"),
      entry.2.contains (cleanWord exampleRuntime w) = false) ∧
    (NewFallbackAdapter.DetectLanguage exampleRuntime "ab").1.bind
      (fun r => List.lookup "reason" r.Metadata.Details) = some "text_too_short" := by
  decide!

/-- C17, amended: for every text whose normalised form has at least 3 bytes (so that it has
at least one token) and in which no token's cleaned form is a marker word of any language,
the detector returns language code "unknown", `details.reason` "low_confidence", confidence
exactly 0 and no alternatives. -/
theorem FallbackAdapter_DetectLanguage_no_match (f : FallbackAdapter) (rt : GoRuntime)
    (hwf : rt.WellFormed) (text : Text)
    (hgate : 3 ≤ len (normalizedText rt text))
    (hnone : ∀ entry ∈ f.patterns, ∀ w ∈ stringsFields (normalizedText rt text),
      entry.2.contains (cleanWord rt w) = false) :
    stringsFields (normalizedText rt text) ≠ [] ∧
    ∃ resp, f.DetectLanguage rt text = (some resp, none) ∧
      resp.LanguageCode = "unknown" ∧
      List.lookup "reason" resp.Metadata.Details = some "low_confidence" ∧
      resp.Confidence = .finite 0 ∧ resp.Alternatives = [] := by
  have hwords := words_ne_nil_of_gate rt hwf text hgate
  obtain ⟨hbest, halt⟩ := FallbackAdapter_no_match_zero f rt hwf _ hwords hnone
  have hlow : Float32.lt (f.best rt (stringsFields (normalizedText rt text))).2
      (Float32.ofRat (3 / 20)) = true := by
    rw [hbest, Float32.constants.2]
    simp [Float32.lt]
  refine ⟨hwords, _, FallbackAdapter_below_threshold f rt text hgate hwords hlow, rfl,
    by simp [List.lookup], ?_, halt⟩
  simp only [hbest]

/-- C17 amended, at the text of `TestFallbackAdapter_DetectLanguage_LowConfidence`. -/
theorem FallbackAdapter_DetectLanguage_no_match_witness :
    stringsFields (normalizedText exampleRuntime "xyzabc qwerty uiopas dfghjk") ≠ [] ∧
    ∃ resp, NewFallbackAdapter.DetectLanguage exampleRuntime "xyzabc qwerty uiopas dfghjk"
        = (some resp, none) ∧
      resp.LanguageCode = "unknown" ∧
      List.lookup "reason" resp.Metadata.Details = some "low_confidence" ∧
      resp.Confidence = .finite 0 ∧ resp.Alternatives = [] :=
  FallbackAdapter_DetectLanguage_no_match NewFallbackAdapter exampleRuntime
    exampleRuntime_wellFormed "xyzabc qwerty uiopas dfghjk" (by decide) (by decide)

/-- None of the four configured languages is called "unknown", and there is at least one. -/
theorem NewFallbackAdapter_languages :
    NewFallbackAdapter.patterns ≠ [] ∧
    ∀ entry ∈ NewFallbackAdapter.patterns, entry.1 ≠ "unknown" := by
  decide

/-- C18, as stated, fails at "the xyz xyz": one of its three tokens is an English marker
word and none is a marker word of another language, so the maximum of the ratios is 1/3;
the confidence returned is the `float32` nearest to 1/3, which is 11184811 / 33554432. -/
theorem FallbackAdapter_confidence_is_rounded :
    stringsFields (normalizedText exampleRuntime "the xyz xyz") = ["the", "xyz", "xyz"] ∧
    NewFallbackAdapter.patterns.map (fun entry =>
        (entry.1, (stringsFields (normalizedText exampleRuntime "the xyz xyz")).countP
          fun w => entry.2.contains (cleanWord exampleRuntime w))) =
      [("en-US", 1), ("es-ES", 0), ("fr-FR", 0), ("de-DE", 0)] ∧
    (NewFallbackAdapter.DetectLanguage exampleRuntime "the xyz xyz").1.map
        (fun r => (r.LanguageCode, r.Confidence))
      = some ("en-US", .finite (11184811 / 33554432)) ∧
    (NewFallbackAdapter.DetectLanguage exampleRuntime "the xyz xyz").1.map
        (fun r => r.Confidence)
      ≠ some (.finite (1 / 3)) := by
  decide!

/-- The confidence in terms of the quotients `score / totalWords`: past the short-text gate
it is the highest quotient of a configured language; the language code is "unknown"
exactly when it is below the `float32` constant 0.15, and otherwise it is a configured
language whose quotient is the confidence. -/
theorem confidence_is_max_quotient (rt : GoRuntime)
    (hwf : rt.WellFormed) (text : Text) (hgate : 3 ≤ len (normalizedText rt text)) :
    ∃ resp c, NewFallbackAdapter.DetectLanguage rt text = (some resp, none) ∧
      resp.Confidence = .finite c ∧
      (∀ entry ∈ NewFallbackAdapter.patterns, ∃ r,
        NewFallbackAdapter.ratio rt (stringsFields (normalizedText rt text)) entry.2
          = .finite r ∧ r ≤ c) ∧
      (∃ entry ∈ NewFallbackAdapter.patterns,
        NewFallbackAdapter.ratio rt (stringsFields (normalizedText rt text)) entry.2
          = .finite c) ∧
      ((stringsFields (normalizedText rt text)).length ≤ 2 ^ 24 →
        ∀ entry ∈ NewFallbackAdapter.patterns,
          NewFallbackAdapter.ratio rt (stringsFields (normalizedText rt text)) entry.2 =
            Float32.ofRat ((((stringsFields (normalizedText rt text)).countP
                fun w => entry.2.contains (cleanWord rt w) : ℕ) : ℚ) /
              ((stringsFields (normalizedText rt text)).length : ℚ))) ∧
      (resp.LanguageCode = "unknown" ↔
        Float32.lt resp.Confidence (Float32.ofRat (3 / 20)) = true) ∧
      (Float32.lt resp.Confidence (Float32.ofRat (3 / 20)) = false →
        ∃ entry ∈ NewFallbackAdapter.patterns, entry.1 = resp.LanguageCode ∧
          NewFallbackAdapter.ratio rt (stringsFields (normalizedText rt text)) entry.2
            = .finite c) ∧
      (resp.LanguageCode ≠ "unknown" → 3 / 20 ≤ c) := by
  have hwords := words_ne_nil_of_gate rt hwf text hgate
  obtain ⟨c, hc, h0, -, hall, hcase⟩ := best_spec NewFallbackAdapter rt hwf _ hwords
  have hzero : NewFallbackAdapter.best rt (stringsFields (normalizedText rt text)) =
      ("", .finite 0) → c = 0 := by
    intro h
    rw [h] at hc
    simpa using hc.symm
  have hex : ∃ entry ∈ NewFallbackAdapter.patterns,
      NewFallbackAdapter.ratio rt (stringsFields (normalizedText rt text)) entry.2
        = .finite c := by
    rcases hcase with h | ⟨-, entry, hentry, -, he⟩
    · obtain ⟨entry, hentry⟩ := List.exists_mem_of_ne_nil _ NewFallbackAdapter_languages.1
      obtain ⟨r, hr, hle⟩ := hall entry hentry
      obtain ⟨r1, hr1, hr0, -, -⟩ := ratio_spec NewFallbackAdapter rt _ hwords entry.2
      rw [hr] at hr1
      simp only [Float32.finite.injEq] at hr1
      subst hr1
      refine ⟨entry, hentry, ?_⟩
      rw [hr, le_antisymm (hle.trans (hzero h).le) hr0, hzero h]
    · exact ⟨entry, hentry, he⟩
  have hexact : (stringsFields (normalizedText rt text)).length ≤ 2 ^ 24 →
      ∀ entry ∈ NewFallbackAdapter.patterns,
        NewFallbackAdapter.ratio rt (stringsFields (normalizedText rt text)) entry.2 =
          Float32.ofRat ((((stringsFields (normalizedText rt text)).countP
              fun w => entry.2.contains (cleanWord rt w) : ℕ) : ℚ) /
            ((stringsFields (normalizedText rt text)).length : ℚ)) :=
    fun hlen entry _ => ratio_ofRat NewFallbackAdapter rt _ hwords hlen entry.2
  cases hlt : Float32.lt (NewFallbackAdapter.best rt
      (stringsFields (normalizedText rt text))).2 (Float32.ofRat (3 / 20))
  · have hentry : ∃ entry ∈ NewFallbackAdapter.patterns,
        entry.1 = (NewFallbackAdapter.best rt (stringsFields (normalizedText rt text))).1 ∧
        NewFallbackAdapter.ratio rt (stringsFields (normalizedText rt text)) entry.2
          = .finite c := by
      rcases hcase with h | ⟨-, entry, hentry, h1, he⟩
      · exfalso
        rw [h, Float32.constants.2] at hlt
        simp [Float32.lt] at hlt
      · exact ⟨entry, hentry, h1.symm, he⟩
    have hcode : (NewFallbackAdapter.best rt (stringsFields (normalizedText rt text))).1
        ≠ "unknown" := by
      obtain ⟨entry, hentry, h1, -⟩ := hentry
      rw [← h1]
      exact NewFallbackAdapter_languages.2 entry hentry
    have hge : (3 : ℚ) / 20 ≤ c := by
      rw [hc, Float32.constants.2] at hlt
      simp only [Float32.lt, decide_eq_false_iff_not, not_lt] at hlt
      exact le_trans (by norm_num) hlt
    refine ⟨_, c, FallbackAdapter_at_threshold NewFallbackAdapter rt text hgate hwords hlt,
      hc, hall, hex, hexact, ?_, fun _ => hentry, fun _ => hge⟩
    constructor
    · intro h
      exact absurd h hcode
    · intro h
      simp only [hlt] at h
      exact absurd h (by simp)
  · refine ⟨_, c, FallbackAdapter_below_threshold NewFallbackAdapter rt text hgate hwords hlt,
      hc, hall, hex, hexact, ?_, fun h => ?_, fun h => absurd rfl h⟩
    · exact ⟨fun _ => hlt, fun _ => rfl⟩
    · simp only [hlt] at h
      exact absurd h (by simp)

/-- C18, amended: for every text that passes the short-text gate, the confidence returned
is the maximum, over the configured languages, of the `float32` quotient `score /
totalWords`; the language code is "unknown" exactly when that maximum is below the
`float32` constant 0.15, and otherwise it is a configured language whose quotient is the
maximum, so that every result other than "unknown" has confidence at least 0.15. On a text
of at most 2 ^ 24 tokens this is the claim with the confidence rounded: the confidence is
the `float32` nearest to the maximum of the ratios (tokens matching the language) /
(tokens), the language code is "unknown" exactly when that maximum is below 0.15, and
otherwise it is a configured language whose ratio is the maximum. -/
theorem FallbackAdapter_DetectLanguage_confidence_is_max (rt : GoRuntime)
    (hwf : rt.WellFormed) (text : Text) (hgate : 3 ≤ len (normalizedText rt text)) :
    ∃ resp c, NewFallbackAdapter.DetectLanguage rt text = (some resp, none) ∧
      resp.Confidence = .finite c ∧
      (∀ entry ∈ NewFallbackAdapter.patterns, ∃ r,
        NewFallbackAdapter.ratio rt (stringsFields (normalizedText rt text)) entry.2 = .finite r ∧
          r ≤ c) ∧
      (∃ entry ∈ NewFallbackAdapter.patterns,
        NewFallbackAdapter.ratio rt (stringsFields (normalizedText rt text)) entry.2 = .finite c) ∧
      (resp.LanguageCode = "unknown" ↔
        Float32.lt resp.Confidence (Float32.ofRat (3 / 20)) = true) ∧
      (Float32.lt resp.Confidence (Float32.ofRat (3 / 20)) = false →
        ∃ entry ∈ NewFallbackAdapter.patterns, entry.1 = resp.LanguageCode ∧
          NewFallbackAdapter.ratio rt (stringsFields (normalizedText rt text)) entry.2 = .finite c) ∧
      (resp.LanguageCode ≠ "unknown" → 3 / 20 ≤ c) ∧
      ((stringsFields (normalizedText rt text)).length ≤ 2 ^ 24 →
        (∃ top ∈ NewFallbackAdapter.patterns,
          (∀ entry ∈ NewFallbackAdapter.patterns,
            ((((stringsFields (normalizedText rt text)).countP
              fun w => entry.2.contains (cleanWord rt w) : ℕ) : ℚ) /
            ((stringsFields (normalizedText rt text)).length : ℚ)) ≤
            ((((stringsFields (normalizedText rt text)).countP
              fun w => top.2.contains (cleanWord rt w) : ℕ) : ℚ) /
            ((stringsFields (normalizedText rt text)).length : ℚ))) ∧
          resp.Confidence = Float32.ofRat
            ((((stringsFields (normalizedText rt text)).countP
              fun w => top.2.contains (cleanWord rt w) : ℕ) : ℚ) /
            ((stringsFields (normalizedText rt text)).length : ℚ))) ∧
        (resp.LanguageCode = "unknown" ↔
          ∀ entry ∈ NewFallbackAdapter.patterns,
            ((((stringsFields (normalizedText rt text)).countP
              fun w => entry.2.contains (cleanWord rt w) : ℕ) : ℚ) /
            ((stringsFields (normalizedText rt text)).length : ℚ)) < 3 / 20) ∧
        (resp.LanguageCode ≠ "unknown" →
          ∃ top ∈ NewFallbackAdapter.patterns, top.1 = resp.LanguageCode ∧
            (∀ entry ∈ NewFallbackAdapter.patterns,
              ((((stringsFields (normalizedText rt text)).countP
                fun w => entry.2.contains (cleanWord rt w) : ℕ) : ℚ) /
              ((stringsFields (normalizedText rt text)).length : ℚ)) ≤
              ((((stringsFields (normalizedText rt text)).countP
                fun w => top.2.contains (cleanWord rt w) : ℕ) : ℚ) /
              ((stringsFields (normalizedText rt text)).length : ℚ))) ∧
            resp.Confidence = Float32.ofRat
              ((((stringsFields (normalizedText rt text)).countP
                fun w => top.2.contains (cleanWord rt w) : ℕ) : ℚ) /
              ((stringsFields (normalizedText rt text)).length : ℚ)))) := by
  have hwords := words_ne_nil_of_gate rt hwf text hgate
  obtain ⟨resp, c, hresp, hc, hall, hex, -, hiff, hwin, hge⟩ :=
    confidence_is_max_quotient rt hwf text hgate
  refine ⟨resp, c, hresp, hc, hall, hex, hiff, hwin, hge, fun hlen => ?_⟩
  have htop : ∀ top ∈ NewFallbackAdapter.patterns,
      NewFallbackAdapter.ratio rt (stringsFields (normalizedText rt text)) top.2 = .finite c →
      (∀ entry ∈ NewFallbackAdapter.patterns,
        ((((stringsFields (normalizedText rt text)).countP
          fun w => entry.2.contains (cleanWord rt w) : ℕ) : ℚ) /
        ((stringsFields (normalizedText rt text)).length : ℚ)) ≤
        ((((stringsFields (normalizedText rt text)).countP
          fun w => top.2.contains (cleanWord rt w) : ℕ) : ℚ) /
        ((stringsFields (normalizedText rt text)).length : ℚ))) ∧
      resp.Confidence = Float32.ofRat
        ((((stringsFields (normalizedText rt text)).countP
          fun w => top.2.contains (cleanWord rt w) : ℕ) : ℚ) /
        ((stringsFields (normalizedText rt text)).length : ℚ)) := by
    intro top _ ht
    obtain ⟨h1, h2⟩ := ratio_top NewFallbackAdapter rt _ hwords hlen top c ht hall
    exact ⟨h1, by rw [hc]; exact h2⟩
  obtain ⟨top, htopmem, htopc⟩ := hex
  obtain ⟨hmax, hconf⟩ := htop top htopmem htopc
  refine ⟨⟨top, htopmem, hmax, hconf⟩, ?_, ?_⟩
  · rw [hiff, hc, ← htopc,
      (ratio_thresholds NewFallbackAdapter rt _ hwords hlen top.2).1]
    exact ⟨fun h entry hentry => lt_of_le_of_lt (hmax entry hentry) h,
      fun h => h top htopmem⟩
  · intro hne
    have hnot : Float32.lt resp.Confidence (Float32.ofRat (3 / 20)) = false := by
      cases hb : Float32.lt resp.Confidence (Float32.ofRat (3 / 20))
      · rfl
      · exact absurd (hiff.mpr hb) hne
    obtain ⟨w, hw, hcode, hwc⟩ := hwin hnot
    obtain ⟨h1, h2⟩ := htop w hw hwc
    exact ⟨w, hw, hcode, h1, h2⟩

/-- C18 amended, at "Hello world": "world" is an English marker word and "hello" is not,
so the answer is "en-US" with confidence 1/2, a `float32`, whichever way the map is
visited. -/
theorem FallbackAdapter_DetectLanguage_confidence_is_max_witness :
    (3 ≤ len (normalizedText exampleRuntime "Hello world") ∧
     ∃ resp c, NewFallbackAdapter.DetectLanguage exampleRuntime "Hello world" = (some resp, none) ∧
      resp.Confidence = .finite c ∧
      (∀ entry ∈ NewFallbackAdapter.patterns, ∃ r,
        NewFallbackAdapter.ratio exampleRuntime (stringsFields (normalizedText exampleRuntime "Hello world")) entry.2 = .finite r ∧
          r ≤ c) ∧
      (∃ entry ∈ NewFallbackAdapter.patterns,
        NewFallbackAdapter.ratio exampleRuntime (stringsFields (normalizedText exampleRuntime "Hello world")) entry.2 = .finite c) ∧
      (resp.LanguageCode = "unknown" ↔
        Float32.lt resp.Confidence (Float32.ofRat (3 / 20)) = true) ∧
      (Float32.lt resp.Confidence (Float32.ofRat (3 / 20)) = false →
        ∃ entry ∈ NewFallbackAdapter.patterns, entry.1 = resp.LanguageCode ∧
          NewFallbackAdapter.ratio exampleRuntime (stringsFields (normalizedText exampleRuntime "Hello world")) entry.2 = .finite c) ∧
      (resp.LanguageCode ≠ "unknown" → 3 / 20 ≤ c) ∧
      ((stringsFields (normalizedText exampleRuntime "Hello world")).length ≤ 2 ^ 24 →
        (∃ top ∈ NewFallbackAdapter.patterns,
          (∀ entry ∈ NewFallbackAdapter.patterns,
            ((((stringsFields (normalizedText exampleRuntime "Hello world")).countP
              fun w => entry.2.contains (cleanWord exampleRuntime w) : ℕ) : ℚ) /
            ((stringsFields (normalizedText exampleRuntime "Hello world")).length : ℚ)) ≤
            ((((stringsFields (normalizedText exampleRuntime "Hello world")).countP
              fun w => top.2.contains (cleanWord exampleRuntime w) : ℕ) : ℚ) /
            ((stringsFields (normalizedText exampleRuntime "Hello world")).length : ℚ))) ∧
          resp.Confidence = Float32.ofRat
            ((((stringsFields (normalizedText exampleRuntime "Hello world")).countP
              fun w => top.2.contains (cleanWord exampleRuntime w) : ℕ) : ℚ) /
            ((stringsFields (normalizedText exampleRuntime "Hello world")).length : ℚ))) ∧
        (resp.LanguageCode = "unknown" ↔
          ∀ entry ∈ NewFallbackAdapter.patterns,
            ((((stringsFields (normalizedText exampleRuntime "Hello world")).countP
              fun w => entry.2.contains (cleanWord exampleRuntime w) : ℕ) : ℚ) /
            ((stringsFields (normalizedText exampleRuntime "Hello world")).length : ℚ)) < 3 / 20) ∧
        (resp.LanguageCode ≠ "unknown" →
          ∃ top ∈ NewFallbackAdapter.patterns, top.1 = resp.LanguageCode ∧
            (∀ entry ∈ NewFallbackAdapter.patterns,
              ((((stringsFields (normalizedText exampleRuntime "Hello world")).countP
                fun w => entry.2.contains (cleanWord exampleRuntime w) : ℕ) : ℚ) /
              ((stringsFields (normalizedText exampleRuntime "Hello world")).length : ℚ)) ≤
              ((((stringsFields (normalizedText exampleRuntime "Hello world")).countP
                fun w => top.2.contains (cleanWord exampleRuntime w) : ℕ) : ℚ) /
              ((stringsFields (normalizedText exampleRuntime "Hello world")).length : ℚ))) ∧
            resp.Confidence = Float32.ofRat
              ((((stringsFields (normalizedText exampleRuntime "Hello world")).countP
                fun w => top.2.contains (cleanWord exampleRuntime w) : ℕ) : ℚ) /
              ((stringsFields (normalizedText exampleRuntime "Hello world")).length : ℚ))))) ∧
    (NewFallbackAdapter.DetectLanguage exampleRuntime "Hello world").1.map
      (fun r => (r.LanguageCode, r.Confidence, r.Metadata.Provider))
      = some ("en-US", .finite (1 / 2), "fallback") ∧
    (NewFallbackAdapter.DetectLanguage reversedRuntime "Hello world").1.map
      (fun r => (r.LanguageCode, r.Confidence, r.Metadata.Provider))
      = some ("en-US", .finite (1 / 2), "fallback") :=
  ⟨⟨by decide,
    FallbackAdapter_DetectLanguage_confidence_is_max exampleRuntime exampleRuntime_wellFormed
      "Hello world" (by decide)⟩,
   by decide!, by decide!⟩

/-- C19: for every text, the confidence of the detector's result is a number in the closed
interval [0, 1], and so is the confidence of each of its alternatives. -/
theorem FallbackAdapter_DetectLanguage_confidence_bounds (f : FallbackAdapter)
    (rt : GoRuntime) (hwf : rt.WellFormed) (text : Text) :
    ∃ resp c, f.DetectLanguage rt text = (some resp, none) ∧
      resp.Confidence = .finite c ∧ 0 ≤ c ∧ c ≤ 1 ∧
      ∀ a ∈ resp.Alternatives, ∃ ca, a.Confidence = .finite ca ∧ 0 ≤ ca ∧ ca ≤ 1 := by
  by_cases hshort : len (normalizedText rt text) < 3
  · exact ⟨_, 0, FallbackAdapter_too_short f rt text hshort, rfl, le_refl _, zero_le_one,
      fun a ha => absurd ha (List.not_mem_nil a)⟩
  · have hgate : 3 ≤ len (normalizedText rt text) := by omega
    have hwords := words_ne_nil_of_gate rt hwf text hgate
    obtain ⟨c, hc, h0, h1, -, -⟩ := best_spec f rt hwf _ hwords
    have halt : ∀ a ∈ f.alternatives rt (stringsFields (normalizedText rt text)),
        ∃ ca, a.Confidence = .finite ca ∧ 0 ≤ ca ∧ ca ≤ 1 := by
      intro a ha
      obtain ⟨entry, -, -, -, rfl⟩ := (alternatives_spec f rt hwf _ a).mp ha
      obtain ⟨r, hr, hr0, hr1, -⟩ := ratio_spec f rt _ hwords entry.2
      exact ⟨r, hr, hr0, hr1⟩
    cases hlt : Float32.lt (f.best rt (stringsFields (normalizedText rt text))).2
        (Float32.ofRat (3 / 20))
    · exact ⟨_, c, FallbackAdapter_at_threshold f rt text hgate hwords hlt, hc, h0, h1, halt⟩
    · exact ⟨_, c, FallbackAdapter_below_threshold f rt text hgate hwords hlt, hc, h0, h1, halt⟩

/-- C19 at the text of `TestFallbackAdapter_DetectLanguage_Alternatives`, which has an
alternative: English matches 3 of the 6 tokens and Spanish 2 of them. -/
theorem FallbackAdapter_DetectLanguage_confidence_bounds_witness :
    (∃ resp c, NewFallbackAdapter.DetectLanguage exampleRuntime "Hello the world and hola mundo"
        = (some resp, none) ∧
      resp.Confidence = .finite c ∧ 0 ≤ c ∧ c ≤ 1 ∧
      ∀ a ∈ resp.Alternatives, ∃ ca, a.Confidence = .finite ca ∧ 0 ≤ ca ∧ ca ≤ 1) ∧
    (NewFallbackAdapter.DetectLanguage exampleRuntime "Hello the world and hola mundo").1.map
      (fun r => (r.LanguageCode, r.Confidence, r.Alternatives))
      = some ("en-US", .finite (1 / 2),
          [{ LanguageCode := "es-ES", Confidence := .finite (11184811 / 33554432) }]) :=
  ⟨FallbackAdapter_DetectLanguage_confidence_bounds NewFallbackAdapter exampleRuntime
    exampleRuntime_wellFormed "Hello the world and hola mundo", by decide!⟩

/-- C20: for every text, every alternative listed in the detector's result has a
confidence strictly greater than 0.05 and a language code different from the language code
of the result. -/
theorem FallbackAdapter_DetectLanguage_alternatives (rt : GoRuntime) (hwf : rt.WellFormed)
    (text : Text) :
    ∃ resp, NewFallbackAdapter.DetectLanguage rt text = (some resp, none) ∧
      ∀ a ∈ resp.Alternatives,
        (∃ ca, a.Confidence = .finite ca ∧ 1 / 20 < ca) ∧
        a.LanguageCode ≠ resp.LanguageCode := by
  by_cases hshort : len (normalizedText rt text) < 3
  · exact ⟨_, FallbackAdapter_too_short NewFallbackAdapter rt text hshort,
      fun a ha => absurd ha (List.not_mem_nil a)⟩
  · have hgate : 3 ≤ len (normalizedText rt text) := by omega
    have hwords := words_ne_nil_of_gate rt hwf text hgate
    have halt : ∀ a ∈ NewFallbackAdapter.alternatives rt
        (stringsFields (normalizedText rt text)),
        (∃ ca, a.Confidence = .finite ca ∧ 1 / 20 < ca) ∧
        a.LanguageCode ≠ (NewFallbackAdapter.best rt
          (stringsFields (normalizedText rt text))).1 ∧
        a.LanguageCode ≠ "unknown" := by
      intro a ha
      obtain ⟨entry, hentry, hne, hgt, rfl⟩ :=
        (alternatives_spec NewFallbackAdapter rt hwf _ a).mp ha
      obtain ⟨ca, hca, hlt, -⟩ := alternative_bounds NewFallbackAdapter rt _ hwords entry.2 hgt
      exact ⟨⟨ca, hca, hlt⟩, hne, NewFallbackAdapter_languages.2 entry hentry⟩
    cases hlt : Float32.lt (NewFallbackAdapter.best rt
        (stringsFields (normalizedText rt text))).2 (Float32.ofRat (3 / 20))
    · exact ⟨_, FallbackAdapter_at_threshold NewFallbackAdapter rt text hgate hwords hlt,
        fun a ha => ⟨(halt a ha).1, (halt a ha).2.1⟩⟩
    · exact ⟨_, FallbackAdapter_below_threshold NewFallbackAdapter rt text hgate hwords hlt,
        fun a ha => ⟨(halt a ha).1, (halt a ha).2.2⟩⟩

/-- C20 at the text of `TestFallbackAdapter_DetectLanguage_Alternatives`, with the map
visited in reverse order. -/
theorem FallbackAdapter_DetectLanguage_alternatives_witness :
    (∃ resp, NewFallbackAdapter.DetectLanguage reversedRuntime "Hello the world and hola mundo"
        = (some resp, none) ∧
      ∀ a ∈ resp.Alternatives,
        (∃ ca, a.Confidence = .finite ca ∧ 1 / 20 < ca) ∧
        a.LanguageCode ≠ resp.LanguageCode) ∧
    (NewFallbackAdapter.DetectLanguage reversedRuntime "Hello the world and hola mundo").1.map
      (fun r => (r.LanguageCode, r.Alternatives))
      = some ("en-US",
          [{ LanguageCode := "es-ES", Confidence := .finite (11184811 / 33554432) }]) :=
  ⟨FallbackAdapter_DetectLanguage_alternatives reversedRuntime reversedRuntime_wellFormed
    "Hello the world and hola mundo", by decide!⟩

/-! ## The pattern-matching detector: the list of alternatives -/

/-- The alternatives loop is a filter followed by a map. -/
theorem collectAlternatives_eq (bestLang : LanguageCode) (l : List (LanguageCode × Float32)) :
    collectAlternatives bestLang l =
      (l.filter fun p =>
          decide (p.1 ≠ bestLang) && Float32.lt (Float32.ofRat (1 / 20)) p.2).map
        fun p => { LanguageCode := p.1, Confidence := p.2 } := by
  induction l with
  | nil => rfl
  | cons hd tl ih =>
    obtain ⟨lang, score⟩ := hd
    by_cases h : lang ≠ bestLang ∧ Float32.lt (Float32.ofRat (1 / 20)) score = true
    · rw [collectAlternatives, if_pos h, ih, List.filter_cons_of_pos (by simpa using h)]
      rfl
    · rw [collectAlternatives, if_neg h, ih, List.filter_cons_of_neg (by simpa using h)]

/-- The alternatives, as a list: a permutation of the configured languages other than
`bestLang` whose quotient exceeds the `float32` constant 0.05, each with its quotient. -/
theorem alternatives_perm (f : FallbackAdapter) (rt : GoRuntime) (hwf : rt.WellFormed)
    (words : List String) :
    (f.alternatives rt words).Perm
      ((f.patterns.filter fun entry =>
          decide (entry.1 ≠ (f.best rt words).1) &&
          Float32.lt (Float32.ofRat (1 / 20)) (f.ratio rt words entry.2)).map
        fun entry =>
          { LanguageCode := entry.1, Confidence := f.ratio rt words entry.2 }) := by
  unfold FallbackAdapter.alternatives
  rw [collectAlternatives_eq]
  refine ((hwf.2.1 (f.languageScores rt words)).filter _).map _ |>.trans ?_
  rw [languageScores_eq f rt words, List.filter_map, List.map_map]
  exact List.Perm.refl _

/-- The predicate handed to `strings.TrimFunc` holds of the runes that are not ASCII
letters or digits. -/
theorem notAsciiAlnum_eq (r : Char) : notAsciiAlnum r = !r.isAlphanum := by
  simp only [notAsciiAlnum, Char.isAlphanum, Char.isAlpha, Char.isUpper, Char.isLower,
      Char.isDigit, ge_iff_le]
  have h1 : ('a' ≤ r) = (97 ≤ r.val) := rfl
  have h2 : (r ≤ 'z') = (r.val ≤ 122) := rfl
  have h3 : ('A' ≤ r) = (65 ≤ r.val) := rfl
  have h4 : (r ≤ 'Z') = (r.val ≤ 90) := rfl
  have h5 : ('0' ≤ r) = (48 ≤ r.val) := rfl
  have h6 : (r ≤ '9') = (r.val ≤ 57) := rfl
  simp only [h1, h2, h3, h4, h5, h6]
  rw [Bool.or_comm (decide (97 ≤ r.val) && decide (r.val ≤ 122))]

/-- Two runtimes with the same `unicode.ToLower` normalise, clean and score alike: only the
order in which the maps are visited can differ. -/
theorem runtime_congr (f : FallbackAdapter) (rt₁ rt₂ : GoRuntime)
    (hlower : rt₁.unicodeToLower = rt₂.unicodeToLower) :
    (∀ text, normalizedText rt₁ text = normalizedText rt₂ text) ∧
    (∀ w, cleanWord rt₁ w = cleanWord rt₂ w) ∧
    (∀ words patterns, f.ratio rt₁ words patterns = f.ratio rt₂ words patterns) ∧
    (∀ words, f.languageScores rt₁ words = f.languageScores rt₂ words) := by
  have h1 : ∀ text, normalizedText rt₁ text = normalizedText rt₂ text := by
    intro text; simp [normalizedText, hlower]
  have h2 : ∀ w, cleanWord rt₁ w = cleanWord rt₂ w := by
    intro w; simp [cleanWord, hlower]
  have h3 : ∀ words patterns, f.ratio rt₁ words patterns = f.ratio rt₂ words patterns := by
    intro words patterns
    unfold FallbackAdapter.ratio
    simp only [calculateLanguageScore_eq, h2]
  refine ⟨h1, h2, h3, fun words => ?_⟩
  rw [languageScores_eq, languageScores_eq]
  simp only [h3]

/-- C22, as stated, fails on a list of 2 ^ 24 + 1 words: all of them match, and the score
is 2 ^ 24, where the `float32` counter stops (`score++` leaves 16777216 unchanged). -/
theorem calculateLanguageScore_stops_counting :
    (List.replicate 16777217 "the").countP
        (fun w => ["the"].contains (cleanWord exampleRuntime w)) = 16777217 ∧
    NewFallbackAdapter.calculateLanguageScore exampleRuntime
        (List.replicate 16777217 "the") ["the"] = .finite 16777216 := by
  have hthe : (["the"].contains (cleanWord exampleRuntime "the")) = true := by decide
  have hcount : (List.replicate 16777217 "the").countP
      (fun w => ["the"].contains (cleanWord exampleRuntime w)) = 16777217 := by
    rw [List.countP_replicate, if_pos hthe]
  refine ⟨hcount, ?_⟩
  rw [calculateLanguageScore_eq, hcount]
  norm_num

/-- C22, amended: `calculateLanguageScore(words, patterns)` is the number of words whose
cleaned form is an element of `patterns`, or 2 ^ 24 if there are more of them, where the
cleaned form of a word is the word without its leading and trailing runes that are not
ASCII letters or digits, then lower-cased; so on at most 2 ^ 24 words it is that number.
Membership is equality with one of the patterns, not a prefix or substring match. The
score is 0 for an empty word list and for an empty pattern list. -/
theorem calculateLanguageScore_counts_members (f : FallbackAdapter) (rt : GoRuntime)
    (words : List String) (patterns : List String) :
    f.calculateLanguageScore rt words patterns =
      .finite ((min (words.countP fun w =>
        decide (String.mk
          (((w.data.dropWhile fun r => !r.isAlphanum).rdropWhile
            fun r => !r.isAlphanum).map rt.unicodeToLower)
          ∈ patterns)) (2 ^ 24) : ℕ) : ℚ) ∧
    (words.length ≤ 2 ^ 24 →
      f.calculateLanguageScore rt words patterns =
        .finite ((words.countP fun w =>
          decide (String.mk
            (((w.data.dropWhile fun r => !r.isAlphanum).rdropWhile
              fun r => !r.isAlphanum).map rt.unicodeToLower)
            ∈ patterns) : ℕ) : ℚ)) ∧
    f.calculateLanguageScore rt [] patterns = .finite 0 ∧
    f.calculateLanguageScore rt words [] = .finite 0 := by
  have hcount : (words.countP fun w => patterns.contains (cleanWord rt w)) =
      words.countP fun w =>
        decide (String.mk
          (((w.data.dropWhile fun r => !r.isAlphanum).rdropWhile
            fun r => !r.isAlphanum).map rt.unicodeToLower)
          ∈ patterns) := by
    apply List.countP_congr
    intro w _
    have hfun : notAsciiAlnum = fun r => !r.isAlphanum := funext notAsciiAlnum_eq
    simp [cleanWord, stringsToLower, stringsTrimFunc, hfun]
  refine ⟨?_, ?_, ?_, ?_⟩
  · rw [calculateLanguageScore_eq, hcount]
  · intro hlen
    rw [calculateLanguageScore_eq, hcount, Nat.min_eq_left]
    exact le_trans (List.countP_le_length _) hlen
  · rw [calculateLanguageScore_eq]; simp
  · rw [calculateLanguageScore_eq]; simp

/-- C22 amended, at the inputs of
`TestFallbackAdapter_CalculateLanguageScore_WithPunctuation`: "hello!" and "world." clean
to the patterns "hello" and "world", "test123" cleans to itself and does not match "test";
the score is 2. -/
theorem calculateLanguageScore_counts_members_witness :
    (["hello!", "world.", "test123"].length ≤ 2 ^ 24 ∧
      NewFallbackAdapter.calculateLanguageScore exampleRuntime
          ["hello!", "world.", "test123"] ["hello", "world", "test"] =
        .finite ((["hello!", "world.", "test123"].countP fun w =>
          decide (String.mk
            (((w.data.dropWhile fun r => !r.isAlphanum).rdropWhile
              fun r => !r.isAlphanum).map exampleRuntime.unicodeToLower)
            ∈ ["hello", "world", "test"]) : ℕ) : ℚ)) ∧
    NewFallbackAdapter.calculateLanguageScore exampleRuntime
        ["hello!", "world.", "test123"] ["hello", "world", "test"] = .finite 2 ∧
    ["hello!", "world.", "test123"].map (cleanWord exampleRuntime)
      = ["hello", "world", "test123"] ∧
    NewFallbackAdapter.calculateLanguageScore exampleRuntime
        ["hello", "world", "xyz"] ["hello", "world", "goodbye"] = .finite 2 ∧
    NewFallbackAdapter.calculateLanguageScore exampleRuntime [] ["hello", "world"]
      = .finite 0 ∧
    NewFallbackAdapter.calculateLanguageScore exampleRuntime ["hello", "world"] []
      = .finite 0 :=
  ⟨⟨by decide, (calculateLanguageScore_counts_members NewFallbackAdapter exampleRuntime
      ["hello!", "world.", "test123"] ["hello", "world", "test"]).2.1 (by decide)⟩,
   by decide!, by decide, by decide!, by decide!, by decide!⟩

/-- Two runs that differ only in the order in which the maps are visited return the same
confidence, and both answer "unknown" or neither does; a winner other than "unknown" is a
configured language whose quotient `score / totalWords` is the confidence and is exceeded
by no language's quotient. When no two configured languages tie for a highest quotient
above 0, the two runs return the same language code and the same alternatives (up to their
order in the list). -/
theorem deterministic_quotient (rt₁ rt₂ : GoRuntime)
    (hwf₁ : rt₁.WellFormed) (hwf₂ : rt₂.WellFormed)
    (hlower : rt₁.unicodeToLower = rt₂.unicodeToLower) (text : Text) :
    ∃ r₁ r₂, NewFallbackAdapter.DetectLanguage rt₁ text = (some r₁, none) ∧
      NewFallbackAdapter.DetectLanguage rt₂ text = (some r₂, none) ∧
      r₁.Confidence = r₂.Confidence ∧
      (r₁.LanguageCode = "unknown" ↔ r₂.LanguageCode = "unknown") ∧
      (∀ r, (r = r₁ ∨ r = r₂) → r.LanguageCode ≠ "unknown" →
        ∃ winner ∈ NewFallbackAdapter.patterns, winner.1 = r.LanguageCode ∧
          r.Confidence = NewFallbackAdapter.ratio rt₁
            (stringsFields (normalizedText rt₁ text)) winner.2 ∧
          ∀ entry ∈ NewFallbackAdapter.patterns,
            Float32.lt
              (NewFallbackAdapter.ratio rt₁ (stringsFields (normalizedText rt₁ text)) winner.2)
              (NewFallbackAdapter.ratio rt₁ (stringsFields (normalizedText rt₁ text)) entry.2)
              = false) ∧
      ((∀ e₁ ∈ NewFallbackAdapter.patterns, ∀ e₂ ∈ NewFallbackAdapter.patterns,
          (∀ entry ∈ NewFallbackAdapter.patterns,
            Float32.lt
              (NewFallbackAdapter.ratio rt₁ (stringsFields (normalizedText rt₁ text)) e₁.2)
              (NewFallbackAdapter.ratio rt₁ (stringsFields (normalizedText rt₁ text)) entry.2)
              = false) →
          NewFallbackAdapter.ratio rt₁ (stringsFields (normalizedText rt₁ text)) e₂.2 =
            NewFallbackAdapter.ratio rt₁ (stringsFields (normalizedText rt₁ text)) e₁.2 →
          Float32.lt (.finite 0)
            (NewFallbackAdapter.ratio rt₁ (stringsFields (normalizedText rt₁ text)) e₁.2)
            = true →
          e₁.1 = e₂.1) →
        r₁.LanguageCode = r₂.LanguageCode ∧ r₁.Alternatives.Perm r₂.Alternatives) := by
  obtain ⟨hnorm, -, hratio, -⟩ := runtime_congr NewFallbackAdapter rt₁ rt₂ hlower
  by_cases hshort : len (normalizedText rt₁ text) < 3
  · have hshort₂ : len (normalizedText rt₂ text) < 3 := by rw [← hnorm]; exact hshort
    refine ⟨_, _, FallbackAdapter_too_short NewFallbackAdapter rt₁ text hshort,
      FallbackAdapter_too_short NewFallbackAdapter rt₂ text hshort₂, rfl, Iff.rfl, ?_,
      fun _ => ⟨rfl, List.Perm.refl _⟩⟩
    rintro r (rfl | rfl) h <;> exact absurd rfl h
  · have hgate : 3 ≤ len (normalizedText rt₁ text) := by omega
    have hgate₂ : 3 ≤ len (normalizedText rt₂ text) := by rw [← hnorm]; exact hgate
    have hwords := words_ne_nil_of_gate rt₁ hwf₁ text hgate
    have hwords₂ := words_ne_nil_of_gate rt₂ hwf₂ text hgate₂
    obtain ⟨c₁, hc₁, h0₁, -, hall₁, hcase₁⟩ := best_spec NewFallbackAdapter rt₁ hwf₁ _ hwords
    obtain ⟨c₂, hc₂, h0₂, -, hall₂, hcase₂⟩ := best_spec NewFallbackAdapter rt₂ hwf₂ _ hwords₂
    have hperm₁ := alternatives_perm NewFallbackAdapter rt₁ hwf₁
      (stringsFields (normalizedText rt₁ text))
    have hperm₂ := alternatives_perm NewFallbackAdapter rt₂ hwf₂
      (stringsFields (normalizedText rt₂ text))
    have hB₁ := FallbackAdapter_below_threshold NewFallbackAdapter rt₁ text hgate hwords
    have hB₂ := FallbackAdapter_below_threshold NewFallbackAdapter rt₂ text hgate₂ hwords₂
    have hA₁ := FallbackAdapter_at_threshold NewFallbackAdapter rt₁ text hgate hwords
    have hA₂ := FallbackAdapter_at_threshold NewFallbackAdapter rt₂ text hgate₂ hwords₂
    rw [← hnorm] at hc₂ hall₂ hcase₂ hperm₂ hB₂ hA₂
    simp only [← hratio] at hall₂ hcase₂ hperm₂
    generalize hW : stringsFields (normalizedText rt₁ text) = W at *
    -- the quotients are numbers
    have hfin : ∀ patterns, ∃ r, NewFallbackAdapter.ratio rt₁ W patterns = .finite r := by
      intro patterns
      obtain ⟨r, hr, -⟩ := ratio_spec NewFallbackAdapter rt₁ W hwords patterns
      exact ⟨r, hr⟩
    have hle_of : ∀ (e : String × List String) (c : ℚ),
        (∃ r, NewFallbackAdapter.ratio rt₁ W e.2 = .finite r ∧ r ≤ c) →
        ∀ r, NewFallbackAdapter.ratio rt₁ W e.2 = .finite r → r ≤ c := by
      rintro e c ⟨r, hr, hle⟩ r' hr'
      rw [hr] at hr'
      simp only [Float32.finite.injEq] at hr'
      rw [← hr']
      exact hle
    -- the two best scores coincide
    have hzero₁ : NewFallbackAdapter.best rt₁ W = ("", .finite 0) → c₁ = 0 := by
      intro h; rw [h] at hc₁; simpa using hc₁.symm
    have hzero₂ : NewFallbackAdapter.best rt₂ W = ("", .finite 0) → c₂ = 0 := by
      intro h; rw [h] at hc₂; simpa using hc₂.symm
    have hle₁ : c₁ ≤ c₂ := by
      rcases hcase₁ with h | ⟨-, e, he, -, hr⟩
      · rw [hzero₁ h]; exact h0₂
      · exact hle_of e c₂ (hall₂ e he) c₁ hr
    have hle₂ : c₂ ≤ c₁ := by
      rcases hcase₂ with h | ⟨-, e, he, -, hr⟩
      · rw [hzero₂ h]; exact h0₁
      · exact hle_of e c₁ (hall₁ e he) c₂ hr
    have hc : c₁ = c₂ := le_antisymm hle₁ hle₂
    subst hc
    -- no quotient exceeds the best score
    have hmax : ∀ entry ∈ NewFallbackAdapter.patterns,
        Float32.lt (.finite c₁) (NewFallbackAdapter.ratio rt₁ W entry.2) = false := by
      intro entry hentry
      obtain ⟨r, hr, hle⟩ := hall₁ entry hentry
      rw [hr]
      simpa [Float32.lt] using hle
    have hthr : Float32.lt (.finite 0) (Float32.ofRat (3 / 20)) = true := by
      rw [Float32.constants.2]
      simp [Float32.lt]
    -- a best language is a configured language whose quotient is the highest
    have hwin₁ : Float32.lt (.finite c₁) (Float32.ofRat (3 / 20)) = false →
        ∃ winner ∈ NewFallbackAdapter.patterns,
          winner.1 = (NewFallbackAdapter.best rt₁ W).1 ∧
          NewFallbackAdapter.ratio rt₁ W winner.2 = .finite c₁ := by
      intro hlt
      rcases hcase₁ with h | ⟨-, e, he, h1, hr⟩
      · rw [hzero₁ h, hthr] at hlt
        exact absurd hlt (by simp)
      · exact ⟨e, he, h1.symm, hr⟩
    have hwin₂ : Float32.lt (.finite c₁) (Float32.ofRat (3 / 20)) = false →
        ∃ winner ∈ NewFallbackAdapter.patterns,
          winner.1 = (NewFallbackAdapter.best rt₂ W).1 ∧
          NewFallbackAdapter.ratio rt₁ W winner.2 = .finite c₁ := by
      intro hlt
      rcases hcase₂ with h | ⟨-, e, he, h1, hr⟩
      · rw [hzero₂ h, hthr] at hlt
        exact absurd hlt (by simp)
      · exact ⟨e, he, h1.symm, hr⟩
    -- without a tie the two best languages coincide
    have hsame : (∀ e₁ ∈ NewFallbackAdapter.patterns, ∀ e₂ ∈ NewFallbackAdapter.patterns,
          (∀ entry ∈ NewFallbackAdapter.patterns,
            Float32.lt (NewFallbackAdapter.ratio rt₁ W e₁.2)
              (NewFallbackAdapter.ratio rt₁ W entry.2) = false) →
          NewFallbackAdapter.ratio rt₁ W e₂.2 = NewFallbackAdapter.ratio rt₁ W e₁.2 →
          Float32.lt (.finite 0) (NewFallbackAdapter.ratio rt₁ W e₁.2) = true →
          e₁.1 = e₂.1) →
        (NewFallbackAdapter.best rt₁ W).1 = (NewFallbackAdapter.best rt₂ W).1 := by
      intro huniq
      rcases hcase₁ with h₁ | ⟨hpos₁, e₁, he₁, hb₁, hr₁⟩
      · rcases hcase₂ with h₂ | ⟨hpos₂, -⟩
        · rw [h₁, h₂]
        · rw [hzero₁ h₁] at hpos₂; exact absurd hpos₂ (lt_irrefl _)
      · rcases hcase₂ with h₂ | ⟨-, e₂, he₂, hb₂, hr₂⟩
        · rw [hzero₂ h₂] at hpos₁; exact absurd hpos₁ (lt_irrefl _)
        · rw [hb₁, hb₂]
          apply huniq e₁ he₁ e₂ he₂
          · intro entry hentry; rw [hr₁]; exact hmax entry hentry
          · rw [hr₁, hr₂]
          · rw [hr₁]; simpa [Float32.lt] using hpos₁
    have hperm : (NewFallbackAdapter.best rt₁ W).1 = (NewFallbackAdapter.best rt₂ W).1 →
        (NewFallbackAdapter.alternatives rt₁ W).Perm (NewFallbackAdapter.alternatives rt₂ W) := by
      intro hb
      rw [← hb] at hperm₂
      exact hperm₁.trans hperm₂.symm
    cases hlt : Float32.lt (.finite c₁) (Float32.ofRat (3 / 20))
    · have hhigh₁ : Float32.lt (NewFallbackAdapter.best rt₁ W).2
          (Float32.ofRat (3 / 20)) = false := by rw [hc₁]; exact hlt
      have hhigh₂ : Float32.lt (NewFallbackAdapter.best rt₂ W).2
          (Float32.ofRat (3 / 20)) = false := by rw [hc₂]; exact hlt
      obtain ⟨w₁, hw₁, hcode₁, hr₁⟩ := hwin₁ hlt
      obtain ⟨w₂, hw₂, hcode₂, hr₂⟩ := hwin₂ hlt
      have hne₁ : (NewFallbackAdapter.best rt₁ W).1 ≠ "unknown" := by
        rw [← hcode₁]; exact NewFallbackAdapter_languages.2 w₁ hw₁
      have hne₂ : (NewFallbackAdapter.best rt₂ W).1 ≠ "unknown" := by
        rw [← hcode₂]; exact NewFallbackAdapter_languages.2 w₂ hw₂
      refine ⟨_, _, hA₁ hhigh₁, hA₂ hhigh₂, by rw [hc₁, hc₂],
        ⟨fun h => absurd h hne₁, fun h => absurd h hne₂⟩, ?_,
        fun huniq => ⟨hsame huniq, hperm (hsame huniq)⟩⟩
      rintro r (rfl | rfl) -
      · exact ⟨w₁, hw₁, hcode₁, by rw [hr₁]; exact hc₁,
          fun entry hentry => by rw [hr₁]; exact hmax entry hentry⟩
      · exact ⟨w₂, hw₂, hcode₂, by rw [hr₂]; exact hc₂,
          fun entry hentry => by rw [hr₂]; exact hmax entry hentry⟩
    · have hlow₁ : Float32.lt (NewFallbackAdapter.best rt₁ W).2
          (Float32.ofRat (3 / 20)) = true := by rw [hc₁]; exact hlt
      have hlow₂ : Float32.lt (NewFallbackAdapter.best rt₂ W).2
          (Float32.ofRat (3 / 20)) = true := by rw [hc₂]; exact hlt
      refine ⟨_, _, hB₁ hlow₁, hB₂ hlow₂, by rw [hc₁, hc₂], Iff.rfl, ?_,
        fun huniq => ⟨rfl, hperm (hsame huniq)⟩⟩
      rintro r (rfl | rfl) h <;> exact absurd rfl h

/-- C23, as stated, fails on a text of 2 ^ 25 + 3 tokens, "the" 2 ^ 24 + 2 times and then
"el" 2 ^ 24 + 1 times: English has the highest ratio and no language ties with it, but the
`float32` counters of English and Spanish both stop at 2 ^ 24, the two quotients are equal,
and the run that visits the map in listing order answers "en-US" while the run that visits
it in reverse order answers "es-ES". -/
theorem FallbackAdapter_winner_depends_on_order :
    (stringsFields (normalizedText exampleRuntime
      (repeatedText (2 ^ 24 + 2) (2 ^ 24)))).length = 2 ^ 25 + 3 ∧
    NewFallbackAdapter.patterns.map (fun entry =>
        (entry.1, (stringsFields (normalizedText exampleRuntime
          (repeatedText (2 ^ 24 + 2) (2 ^ 24)))).countP
            fun w => entry.2.contains (cleanWord exampleRuntime w))) =
      [("en-US", 2 ^ 24 + 2), ("es-ES", 2 ^ 24 + 1), ("fr-FR", 0), ("de-DE", 0)] ∧
    (NewFallbackAdapter.DetectLanguage exampleRuntime
        (repeatedText (2 ^ 24 + 2) (2 ^ 24))).1.map
      (fun r => (r.LanguageCode, r.Confidence))
      = some ("en-US", .finite (8388607 / 16777216)) ∧
    (NewFallbackAdapter.DetectLanguage reversedRuntime
        (repeatedText (2 ^ 24 + 2) (2 ^ 24))).1.map
      (fun r => (r.LanguageCode, r.Confidence))
      = some ("es-ES", .finite (8388607 / 16777216)) := by
  have hen : Float32.div (.finite ((min (2 ^ 24 + 2) (2 ^ 24) : Nat) : ℚ))
      (Float32.ofNat (2 ^ 24 + 2 + 2 ^ 24 + 1)) = .finite (8388607 / 16777216) := by decide!
  have hes : Float32.div (.finite ((min (2 ^ 24 + 1) (2 ^ 24) : Nat) : ℚ))
      (Float32.ofNat (2 ^ 24 + 2 + 2 ^ 24 + 1)) = .finite (8388607 / 16777216) := by decide!
  have hzero : Float32.div (.finite ((min 0 (2 ^ 24) : Nat) : ℚ))
      (Float32.ofNat (2 ^ 24 + 2 + 2 ^ 24 + 1)) = .finite 0 := by decide!
  have hhigh : Float32.lt (.finite (8388607 / 16777216)) (Float32.ofRat (3 / 20)) = false := by
    decide!
  have hrun : ∀ (rt : GoRuntime) (code : LanguageCode), rt.WellFormed →
      rt.unicodeToLower = toLowerLatin1 →
      findBest (rt.rangeBest
        [("en-US", .finite (8388607 / 16777216)), ("es-ES", .finite (8388607 / 16777216)),
         ("fr-FR", .finite 0), ("de-DE", .finite 0)]) ("", .finite 0) =
        (code, .finite (8388607 / 16777216)) →
      (NewFallbackAdapter.DetectLanguage rt (repeatedText (2 ^ 24 + 2) (2 ^ 24))).1.map
        (fun r => (r.LanguageCode, r.Confidence))
        = some (code, .finite (8388607 / 16777216)) := by
    intro rt code hwf hrt hfind
    have hgate := (repeatedText_words rt hrt (2 ^ 24 + 2) (2 ^ 24)).1 (by norm_num)
    have hwords := words_ne_nil_of_gate rt hwf _ hgate
    have hbest : NewFallbackAdapter.best rt (stringsFields (normalizedText rt
        (repeatedText (2 ^ 24 + 2) (2 ^ 24)))) = (code, .finite (8388607 / 16777216)) := by
      unfold FallbackAdapter.best
      rw [repeatedText_scores rt hrt, hen, hes, hzero]
      exact hfind
    rw [FallbackAdapter_at_threshold NewFallbackAdapter rt _ hgate hwords
      (by rw [hbest]; exact hhigh)]
    simp only [Option.map, hbest]
  obtain ⟨hlen, hcounts⟩ := repeatedText_counts exampleRuntime rfl (2 ^ 24 + 2) (2 ^ 24)
  refine ⟨by rw [hlen]; norm_num, hcounts, ?_, ?_⟩
  · exact hrun exampleRuntime "en-US" exampleRuntime_wellFormed rfl (by decide!)
  · exact hrun reversedRuntime "es-ES" reversedRuntime_wellFormed rfl (by decide!)

/-- C23, amended: the detector is a function of the text, up to ties of the `float32`
quotients `score / totalWords`. Two runs that differ only in the order in which the maps
are visited return the same confidence, and both answer "unknown" or neither does; a
winner other than "unknown" is a configured language whose quotient is the confidence and
is exceeded by no language's quotient. When no two configured languages tie for a highest
quotient above 0, the two runs return the same language code and the same alternatives (up
to their order in the list). On a text of at most 2 ^ 24 tokens the same holds of the
ratios (tokens matching the language) / (tokens): the winner has the highest ratio, the
confidence is the `float32` nearest to it, and when no two languages tie for a highest
ratio above 0 the two runs return the same language code and the same alternatives. -/
theorem FallbackAdapter_DetectLanguage_deterministic (rt₁ rt₂ : GoRuntime)
    (hwf₁ : rt₁.WellFormed) (hwf₂ : rt₂.WellFormed)
    (hlower : rt₁.unicodeToLower = rt₂.unicodeToLower) (text : Text) :
    ∃ r₁ r₂, NewFallbackAdapter.DetectLanguage rt₁ text = (some r₁, none) ∧
      NewFallbackAdapter.DetectLanguage rt₂ text = (some r₂, none) ∧
      r₁.Confidence = r₂.Confidence ∧
      (r₁.LanguageCode = "unknown" ↔ r₂.LanguageCode = "unknown") ∧
      (∀ r, (r = r₁ ∨ r = r₂) → r.LanguageCode ≠ "unknown" →
        ∃ winner ∈ NewFallbackAdapter.patterns, winner.1 = r.LanguageCode ∧
          r.Confidence = NewFallbackAdapter.ratio rt₁ (stringsFields (normalizedText rt₁ text)) winner.2 ∧
          ∀ entry ∈ NewFallbackAdapter.patterns,
            Float32.lt
              (NewFallbackAdapter.ratio rt₁ (stringsFields (normalizedText rt₁ text)) winner.2)
              (NewFallbackAdapter.ratio rt₁ (stringsFields (normalizedText rt₁ text)) entry.2)
              = false) ∧
      ((∀ e₁ ∈ NewFallbackAdapter.patterns, ∀ e₂ ∈ NewFallbackAdapter.patterns,
          (∀ entry ∈ NewFallbackAdapter.patterns,
            Float32.lt
              (NewFallbackAdapter.ratio rt₁ (stringsFields (normalizedText rt₁ text)) e₁.2)
              (NewFallbackAdapter.ratio rt₁ (stringsFields (normalizedText rt₁ text)) entry.2)
              = false) →
          NewFallbackAdapter.ratio rt₁ (stringsFields (normalizedText rt₁ text)) e₂.2 =
            NewFallbackAdapter.ratio rt₁ (stringsFields (normalizedText rt₁ text)) e₁.2 →
          Float32.lt (.finite 0)
            (NewFallbackAdapter.ratio rt₁ (stringsFields (normalizedText rt₁ text)) e₁.2)
            = true →
          e₁.1 = e₂.1) →
        r₁.LanguageCode = r₂.LanguageCode ∧ r₁.Alternatives.Perm r₂.Alternatives) ∧
      ((stringsFields (normalizedText rt₁ text)).length ≤ 2 ^ 24 →
        (∀ r, (r = r₁ ∨ r = r₂) → r.LanguageCode ≠ "unknown" →
          ∃ winner ∈ NewFallbackAdapter.patterns, winner.1 = r.LanguageCode ∧
            r.Confidence = Float32.ofRat
              ((((stringsFields (normalizedText rt₁ text)).countP
                fun w => winner.2.contains (cleanWord rt₁ w) : ℕ) : ℚ) /
              ((stringsFields (normalizedText rt₁ text)).length : ℚ)) ∧
            ∀ entry ∈ NewFallbackAdapter.patterns,
              ((((stringsFields (normalizedText rt₁ text)).countP
                fun w => entry.2.contains (cleanWord rt₁ w) : ℕ) : ℚ) /
              ((stringsFields (normalizedText rt₁ text)).length : ℚ)) ≤
              ((((stringsFields (normalizedText rt₁ text)).countP
                fun w => winner.2.contains (cleanWord rt₁ w) : ℕ) : ℚ) /
              ((stringsFields (normalizedText rt₁ text)).length : ℚ))) ∧
        ((∀ e₁ ∈ NewFallbackAdapter.patterns, ∀ e₂ ∈ NewFallbackAdapter.patterns,
            (∀ entry ∈ NewFallbackAdapter.patterns,
              ((((stringsFields (normalizedText rt₁ text)).countP
                fun w => entry.2.contains (cleanWord rt₁ w) : ℕ) : ℚ) /
              ((stringsFields (normalizedText rt₁ text)).length : ℚ)) ≤
              ((((stringsFields (normalizedText rt₁ text)).countP
                fun w => e₁.2.contains (cleanWord rt₁ w) : ℕ) : ℚ) /
              ((stringsFields (normalizedText rt₁ text)).length : ℚ))) →
            ((((stringsFields (normalizedText rt₁ text)).countP
              fun w => e₂.2.contains (cleanWord rt₁ w) : ℕ) : ℚ) /
            ((stringsFields (normalizedText rt₁ text)).length : ℚ)) =
              ((((stringsFields (normalizedText rt₁ text)).countP
                fun w => e₁.2.contains (cleanWord rt₁ w) : ℕ) : ℚ) /
              ((stringsFields (normalizedText rt₁ text)).length : ℚ)) →
            (0 : ℚ) <
              ((((stringsFields (normalizedText rt₁ text)).countP
                fun w => e₁.2.contains (cleanWord rt₁ w) : ℕ) : ℚ) /
              ((stringsFields (normalizedText rt₁ text)).length : ℚ)) →
            e₁.1 = e₂.1) →
          r₁.LanguageCode = r₂.LanguageCode ∧ r₁.Alternatives.Perm r₂.Alternatives)) := by
  obtain ⟨r₁, r₂, h₁, h₂, hconf, hunk, hwin, huniq⟩ :=
    deterministic_quotient rt₁ rt₂ hwf₁ hwf₂ hlower text
  refine ⟨r₁, r₂, h₁, h₂, hconf, hunk, hwin, huniq, fun hlen => ?_⟩
  by_cases hshort : len (normalizedText rt₁ text) < 3
  · have hr₁ := FallbackAdapter_too_short NewFallbackAdapter rt₁ text hshort
    have hshort₂ : len (normalizedText rt₂ text) < 3 := by
      rw [← (runtime_congr NewFallbackAdapter rt₁ rt₂ hlower).1]; exact hshort
    have hr₂ := FallbackAdapter_too_short NewFallbackAdapter rt₂ text hshort₂
    rw [h₁] at hr₁
    rw [h₂] at hr₂
    simp only [Prod.mk.injEq, Option.some.injEq, and_true] at hr₁ hr₂
    subst hr₁
    subst hr₂
    refine ⟨?_, fun _ => ⟨rfl, List.Perm.refl _⟩⟩
    rintro r (rfl | rfl) h <;> exact absurd rfl h
  · have hwords := words_ne_nil_of_gate rt₁ hwf₁ text (by omega)
    have hord := ratio_order NewFallbackAdapter rt₁ _ hwords hlen
    refine ⟨fun r hr hne => ?_, fun hU => huniq fun e₁ he₁ e₂ he₂ hmax heq hpos => ?_⟩
    · obtain ⟨w, hw, hcode, hconfw, hmaxw⟩ := hwin r hr hne
      refine ⟨w, hw, hcode, ?_, fun entry hentry => ?_⟩
      · rw [hconfw]
        exact ratio_ofRat NewFallbackAdapter rt₁ _ hwords hlen w.2
      · exact (hord w.2 entry.2).1.mp (hmaxw entry hentry)
    · exact hU e₁ he₁ e₂ he₂
        (fun entry hentry => (hord e₁.2 entry.2).1.mp (hmax entry hentry))
        ((hord e₂.2 e₁.2).2.1.mp heq)
        ((hord e₁.2 e₁.2).2.2.mp hpos)

/-- C23 at "crucial xyz xyz", where English, Spanish and French tie at the ratio 1/3:
visiting the map in listing order and in reverse order gives the same confidence, the
`float32` nearest to 1/3, and the winners, "en-US" and "fr-FR", are two of the tied
languages. -/
theorem FallbackAdapter_DetectLanguage_deterministic_witness :
    (∃ r₁ r₂, NewFallbackAdapter.DetectLanguage exampleRuntime "crucial xyz xyz" = (some r₁, none) ∧
      NewFallbackAdapter.DetectLanguage reversedRuntime "crucial xyz xyz" = (some r₂, none) ∧
      r₁.Confidence = r₂.Confidence ∧
      (r₁.LanguageCode = "unknown" ↔ r₂.LanguageCode = "unknown") ∧
      (∀ r, (r = r₁ ∨ r = r₂) → r.LanguageCode ≠ "unknown" →
        ∃ winner ∈ NewFallbackAdapter.patterns, winner.1 = r.LanguageCode ∧
          r.Confidence = NewFallbackAdapter.ratio exampleRuntime (stringsFields (normalizedText exampleRuntime "crucial xyz xyz")) winner.2 ∧
          ∀ entry ∈ NewFallbackAdapter.patterns,
            Float32.lt
              (NewFallbackAdapter.ratio exampleRuntime (stringsFields (normalizedText exampleRuntime "crucial xyz xyz")) winner.2)
              (NewFallbackAdapter.ratio exampleRuntime (stringsFields (normalizedText exampleRuntime "crucial xyz xyz")) entry.2)
              = false) ∧
      ((∀ e₁ ∈ NewFallbackAdapter.patterns, ∀ e₂ ∈ NewFallbackAdapter.patterns,
          (∀ entry ∈ NewFallbackAdapter.patterns,
            Float32.lt
              (NewFallbackAdapter.ratio exampleRuntime (stringsFields (normalizedText exampleRuntime "crucial xyz xyz")) e₁.2)
              (NewFallbackAdapter.ratio exampleRuntime (stringsFields (normalizedText exampleRuntime "crucial xyz xyz")) entry.2)
              = false) →
          NewFallbackAdapter.ratio exampleRuntime (stringsFields (normalizedText exampleRuntime "crucial xyz xyz")) e₂.2 =
            NewFallbackAdapter.ratio exampleRuntime (stringsFields (normalizedText exampleRuntime "crucial xyz xyz")) e₁.2 →
          Float32.lt (.finite 0)
            (NewFallbackAdapter.ratio exampleRuntime (stringsFields (normalizedText exampleRuntime "crucial xyz xyz")) e₁.2)
            = true →
          e₁.1 = e₂.1) →
        r₁.LanguageCode = r₂.LanguageCode ∧ r₁.Alternatives.Perm r₂.Alternatives) ∧
      ((stringsFields (normalizedText exampleRuntime "crucial xyz xyz")).length ≤ 2 ^ 24 →
        (∀ r, (r = r₁ ∨ r = r₂) → r.LanguageCode ≠ "unknown" →
          ∃ winner ∈ NewFallbackAdapter.patterns, winner.1 = r.LanguageCode ∧
            r.Confidence = Float32.ofRat
              ((((stringsFields (normalizedText exampleRuntime "crucial xyz xyz")).countP
                fun w => winner.2.contains (cleanWord exampleRuntime w) : ℕ) : ℚ) /
              ((stringsFields (normalizedText exampleRuntime "crucial xyz xyz")).length : ℚ)) ∧
            ∀ entry ∈ NewFallbackAdapter.patterns,
              ((((stringsFields (normalizedText exampleRuntime "crucial xyz xyz")).countP
                fun w => entry.2.contains (cleanWord exampleRuntime w) : ℕ) : ℚ) /
              ((stringsFields (normalizedText exampleRuntime "crucial xyz xyz")).length : ℚ)) ≤
              ((((stringsFields (normalizedText exampleRuntime "crucial xyz xyz")).countP
                fun w => winner.2.contains (cleanWord exampleRuntime w) : ℕ) : ℚ) /
              ((stringsFields (normalizedText exampleRuntime "crucial xyz xyz")).length : ℚ))) ∧
        ((∀ e₁ ∈ NewFallbackAdapter.patterns, ∀ e₂ ∈ NewFallbackAdapter.patterns,
            (∀ entry ∈ NewFallbackAdapter.patterns,
              ((((stringsFields (normalizedText exampleRuntime "crucial xyz xyz")).countP
                fun w => entry.2.contains (cleanWord exampleRuntime w) : ℕ) : ℚ) /
              ((stringsFields (normalizedText exampleRuntime "crucial xyz xyz")).length : ℚ)) ≤
              ((((stringsFields (normalizedText exampleRuntime "crucial xyz xyz")).countP
                fun w => e₁.2.contains (cleanWord exampleRuntime w) : ℕ) : ℚ) /
              ((stringsFields (normalizedText exampleRuntime "crucial xyz xyz")).length : ℚ))) →
            ((((stringsFields (normalizedText exampleRuntime "crucial xyz xyz")).countP
              fun w => e₂.2.contains (cleanWord exampleRuntime w) : ℕ) : ℚ) /
            ((stringsFields (normalizedText exampleRuntime "crucial xyz xyz")).length : ℚ)) =
              ((((stringsFields (normalizedText exampleRuntime "crucial xyz xyz")).countP
                fun w => e₁.2.contains (cleanWord exampleRuntime w) : ℕ) : ℚ) /
              ((stringsFields (normalizedText exampleRuntime "crucial xyz xyz")).length : ℚ)) →
            (0 : ℚ) <
              ((((stringsFields (normalizedText exampleRuntime "crucial xyz xyz")).countP
                fun w => e₁.2.contains (cleanWord exampleRuntime w) : ℕ) : ℚ) /
              ((stringsFields (normalizedText exampleRuntime "crucial xyz xyz")).length : ℚ)) →
            e₁.1 = e₂.1) →
          r₁.LanguageCode = r₂.LanguageCode ∧ r₁.Alternatives.Perm r₂.Alternatives))) ∧
    (NewFallbackAdapter.DetectLanguage exampleRuntime "crucial xyz xyz").1.map
      (fun r => (r.LanguageCode, r.Confidence, r.Alternatives.map fun a => a.LanguageCode))
      = some ("en-US", .finite (11184811 / 33554432), ["es-ES", "fr-FR"]) ∧
    (NewFallbackAdapter.DetectLanguage reversedRuntime "crucial xyz xyz").1.map
      (fun r => (r.LanguageCode, r.Confidence, r.Alternatives.map fun a => a.LanguageCode))
      = some ("fr-FR", .finite (11184811 / 33554432), ["es-ES", "en-US"]) :=
  ⟨FallbackAdapter_DetectLanguage_deterministic exampleRuntime reversedRuntime
      exampleRuntime_wellFormed reversedRuntime_wellFormed rfl "crucial xyz xyz",
   by decide!, by decide!⟩

/-- C25: every result of the detector has provider "fallback". A result whose language code
is not "unknown" carries `details.total_words`, the decimal numeral of the number of
white-space-separated tokens of the normalised text, and `details.best_score`, the
formatted confidence. A result overridden by the 0.15 gate (the text passes the short-text
gate and the confidence is below 0.15) is "unknown" and carries `details.reason`
"low_confidence" and `details.best_score`. -/
theorem FallbackAdapter_DetectLanguage_metadata (f : FallbackAdapter) (rt : GoRuntime)
    (hwf : rt.WellFormed) (text : Text) :
    ∃ resp, f.DetectLanguage rt text = (some resp, none) ∧
      resp.Metadata.Provider = "fallback" ∧
      (resp.LanguageCode ≠ "unknown" →
        List.lookup "total_words" resp.Metadata.Details =
          some (toString (stringsFields (normalizedText rt text)).length) ∧
        List.lookup "best_score" resp.Metadata.Details =
          some (rt.sprintfFloat3 resp.Confidence)) ∧
      (3 ≤ len (normalizedText rt text) →
        Float32.lt resp.Confidence (.finite (3 / 20)) = true →
        resp.LanguageCode = "unknown" ∧
        List.lookup "reason" resp.Metadata.Details = some "low_confidence" ∧
        List.lookup "best_score" resp.Metadata.Details =
          some (rt.sprintfFloat3 resp.Confidence)) := by
  by_cases hshort : len (normalizedText rt text) < 3
  · exact ⟨_, FallbackAdapter_too_short f rt text hshort, rfl, fun h => absurd rfl h,
      fun h => by omega⟩
  · have hgate : 3 ≤ len (normalizedText rt text) := by omega
    have hwords := words_ne_nil_of_gate rt hwf text hgate
    obtain ⟨c, hc, -⟩ := best_spec f rt hwf _ hwords
    cases hlt : Float32.lt (f.best rt (stringsFields (normalizedText rt text))).2
        (Float32.ofRat (3 / 20))
    · refine ⟨_, FallbackAdapter_at_threshold f rt text hgate hwords hlt, rfl,
        fun _ => ⟨by simp [List.lookup], by simp [List.lookup]⟩, fun _ h => ?_⟩
      exfalso
      simp only [hc] at h
      rw [hc, Float32.constants.2] at hlt
      simp only [Float32.lt, decide_eq_true_eq, decide_eq_false_iff_not, not_lt] at h hlt
      have : (3 : ℚ) / 20 < 5033165 / 33554432 := by norm_num
      linarith
    · exact ⟨_, FallbackAdapter_below_threshold f rt text hgate hwords hlt, rfl,
        fun h => absurd rfl h, fun _ _ => ⟨rfl, by simp [List.lookup], by simp [List.lookup]⟩⟩

/-- C25 at the input of `TestFallbackAdapter_DetectLanguage_Metadata`. -/
theorem FallbackAdapter_DetectLanguage_metadata_witness :
    (∃ resp, NewFallbackAdapter.DetectLanguage exampleRuntime "Hello world"
        = (some resp, none) ∧ resp.Metadata.Provider = "fallback") ∧
    (NewFallbackAdapter.DetectLanguage exampleRuntime "Hello world").1.map
      (fun r => (r.LanguageCode, r.Metadata.Provider, r.Metadata.Details))
      = some ("en-US", "fallback", [("total_words", "2"), ("best_score", "0.500")]) ∧
    (NewFallbackAdapter.DetectLanguage exampleRuntime
        "hola the mundo xx yy zz aa bb cc dd qq ww kk jj vv").1.map
      (fun r => (r.LanguageCode, r.Metadata.Provider, r.Metadata.Details))
      = some ("unknown", "fallback", [("reason", "low_confidence"), ("best_score", "0.133")]) :=
  ⟨(FallbackAdapter_DetectLanguage_metadata NewFallbackAdapter exampleRuntime
      exampleRuntime_wellFormed "Hello world").imp fun _ h => ⟨h.1, h.2.1⟩,
   by decide!, by decide!⟩

/-! ## The provider-backed adapter -/

/-- Slicing at a byte offset within the string keeps exactly that many bytes. -/
theorem sliceTo_len (s : String) (n : Nat) (h : n ≤ len s) : (sliceTo s n).len = n := by
  have key : ∀ (l : List Char) (n : Nat), n ≤ String.utf8ByteSize.go l →
      String.utf8ByteSize.go (takeBytes l n).1 + (takeBytes l n).2 = n := by
    intro l
    induction l with
    | nil =>
      intro n hn
      simp only [String.utf8ByteSize.go] at hn
      simp [takeBytes, String.utf8ByteSize.go]
      omega
    | cons r rest ih =>
      intro n hn
      simp only [String.utf8ByteSize.go] at hn
      by_cases hfit : r.utf8Size ≤ n
      · have := ih (n - r.utf8Size) (by omega)
        simp only [takeBytes, hfit, if_true, String.utf8ByteSize.go]
        omega
      · simp [takeBytes, hfit, String.utf8ByteSize.go]
  exact key s.data n h

/-- C26: `convertLanguageCode` maps provider tags by a fixed table applied to the
lower-cased tag: whenever the lower-cased form of the tag is the left entry of a row of
the table, the result is the right entry of that row, whatever the letter case of the tag. -/
theorem convertLanguageCode_table (rt : GoRuntime) (awsCode tag canonical : String)
    (hrow : (tag, canonical) ∈
      [("en", "en-US"), ("es", "es-ES"), ("fr", "fr-FR"), ("de", "de-DE"), ("it", "it-IT"),
       ("pt", "pt-PT"), ("ru", "ru-RU"), ("ja", "ja-JP"), ("ko", "ko-KR"), ("ar", "ar-SA"),
       ("hi", "hi-IN"), ("zh", "zh-CN"), ("zh-tw", "zh-CN"), ("zh-cn", "zh-CN")])
    (hlower : stringsToLower rt.unicodeToLower awsCode = tag) :
    convertLanguageCode rt awsCode = canonical := by
  simp only [List.mem_cons, Prod.mk.injEq, List.mem_singleton, List.not_mem_nil, or_false]
    at hrow
  rcases hrow with h | h | h | h | h | h | h | h | h | h | h | h | h | h <;>
    obtain ⟨rfl, rfl⟩ := h <;>
    simp [convertLanguageCode, hlower]

/-- C26 at the inputs "EN" (`Case insensitive` in the test table) and "Zh-TW". -/
theorem convertLanguageCode_table_witness :
    convertLanguageCode exampleRuntime "EN" = "en-US" ∧
    convertLanguageCode exampleRuntime "Zh-TW" = "zh-CN" :=
  ⟨convertLanguageCode_table exampleRuntime "EN" "en" "en-US" (by decide) (by decide),
   convertLanguageCode_table exampleRuntime "Zh-TW" "zh-tw" "zh-CN" (by decide) (by decide)⟩

/-- C27, as stated, fails for a tag that is not in lower case: the lower-cased form "xx" of
"XX" is not in the table, and the tag comes back as "XX", not as "xx". -/
theorem convertLanguageCode_unmapped_keeps_case :
    stringsToLower exampleRuntime.unicodeToLower "XX" = "xx" ∧
    "xx" ∉ ["en", "es", "fr", "de", "it", "pt", "ru", "ja", "ko", "ar", "hi",
            "zh", "zh-tw", "zh-cn"] ∧
    convertLanguageCode exampleRuntime "XX" = "XX" ∧
    convertLanguageCode exampleRuntime "XX" ≠
      stringsToLower exampleRuntime.unicodeToLower "XX" := by
  decide

/-- C27, amended: for every provider tag whose lower-cased form is not in the lookup table,
`convertLanguageCode` returns the tag itself, unchanged (for a tag already in lower case,
such as "xx", that is its lower-case form). -/
theorem convertLanguageCode_unmapped (rt : GoRuntime) (awsCode : String)
    (hnot : stringsToLower rt.unicodeToLower awsCode ∉
      ["en", "es", "fr", "de", "it", "pt", "ru", "ja", "ko", "ar", "hi",
       "zh", "zh-tw", "zh-cn"]) :
    convertLanguageCode rt awsCode = awsCode := by
  simp only [List.mem_cons, List.mem_singleton, List.not_mem_nil, or_false, not_or] at hnot
  obtain ⟨h1, h2, h3, h4, h5, h6, h7, h8, h9, h10, h11, h12, h13, h14⟩ := hnot
  simp [convertLanguageCode, h1, h2, h3, h4, h5, h6, h7, h8, h9, h10, h11, h12, h13, h14]

/-- C27 amended, at the input "xx" (`Unknown language` in the test table). -/
theorem convertLanguageCode_unmapped_witness :
    convertLanguageCode exampleRuntime "xx" = "xx" :=
  convertLanguageCode_unmapped exampleRuntime "xx" (by decide)

/-- C28: for every text whose white-space-trimmed form, after truncation to at most 5000
bytes, is shorter than 3 bytes, the provider-backed adapter returns language code
"unknown", confidence 0, `details.reason` "text_too_short" and a nil error, without calling
the remote provider: two adapters with any two clients, in any states, return this same
answer and leave the state of the remote service as it was. -/
theorem AWSComprehendAdapter_DetectLanguage_text_too_short {σ₁ σ₂ : Type}
    (a₁ : AWSComprehendAdapter σ₁) (a₂ : AWSComprehendAdapter σ₂) (rt₁ rt₂ : GoRuntime)
    (text : Text) (st₁ : σ₁) (st₂ : σ₂)
    (hshort : (SlicedText.trimSpace
      (if len text > 5000 then sliceTo text 5000 else { runes := text, cut := 0 })).len < 3) :
    ∃ resp, a₁.DetectLanguage rt₁ text st₁ = some ((some resp, none), st₁) ∧
      a₂.DetectLanguage rt₂ text st₂ = some ((some resp, none), st₂) ∧
      resp.LanguageCode = "unknown" ∧ resp.Confidence = .finite 0 ∧
      List.lookup "reason" resp.Metadata.Details = some "text_too_short" ∧
      resp.Metadata.Provider = "aws-comprehend" := by
  refine ⟨awsUnknown "text_too_short", ?_, ?_, rfl, rfl, by decide, rfl⟩
  · simp [AWSComprehendAdapter.DetectLanguage, hshort]
  · simp [AWSComprehendAdapter.DetectLanguage, hshort]

/-- C28 at the input "Hi" of `TestAWSComprehendAdapter_DetectLanguage_TextTooShort`, with a
client that would fail and a client that would answer, both counting their calls. -/
theorem AWSComprehendAdapter_DetectLanguage_text_too_short_witness :
    ∃ resp,
      AWSComprehendAdapter.DetectLanguage
        { client := fun _ (n : Nat) => ((none, some (.foreign 0 "unreachable")), n + 1),
          region := "us-east-1", maxRetries := 3 } exampleRuntime "Hi" 7
        = some ((some resp, none), 7) ∧
      AWSComprehendAdapter.DetectLanguage
        { client := fun _ (n : Nat) =>
            ((some { Languages := [some { LanguageCode := some "en",
                                          Score := some (.finite 1) }] }, none), n + 1),
          region := "eu-west-1", maxRetries := 0 } reversedRuntime "Hi" 9
        = some ((some resp, none), 9) ∧
      resp.LanguageCode = "unknown" ∧ resp.Confidence = .finite 0 ∧
      List.lookup "reason" resp.Metadata.Details = some "text_too_short" ∧
      resp.Metadata.Provider = "aws-comprehend" :=
  AWSComprehendAdapter_DetectLanguage_text_too_short _ _ exampleRuntime reversedRuntime
    "Hi" 7 9 (by decide)

/-! ## Configuration -/

/-- C29: `ValidateConfig` returns an error if and only if the server port is outside
1..65535, or AWS Comprehend is enabled with an empty region, or `MaxTextLength` is not
positive, or `MinConfidenceThreshold` is below 0 or above 1, or `SupportedLanguages` is
empty, or the shutdown timeout is not positive. In particular an empty
`SupportedLanguages` is rejected, and the configuration `NewConfigProvider` builds when no
environment variable is set is accepted. -/
theorem ValidateConfig_error_iff (config : Config) :
    ((ValidateConfig config ≠ none) ↔
      ((config.ServerPort < 1 ∨ 65535 < config.ServerPort) ∨
       (config.UseAWSComprehend = true ∧ config.AWSRegion = "") ∨
       config.MaxTextLength ≤ 0 ∨
       (Float32.lt config.MinConfidenceThreshold (.finite 0) = true ∨
        Float32.lt (.finite 1) config.MinConfidenceThreshold = true) ∨
       config.SupportedLanguages = [] ∨
       config.ShutdownTimeoutSeconds ≤ 0)) ∧
    (config.SupportedLanguages = [] → ValidateConfig config ≠ none) ∧
    (∀ env : Environment, (∀ key, env.Getenv key = "") →
      ValidateConfig (NewConfigProvider env) = none) := by
  have hiff : (ValidateConfig config ≠ none) ↔
      ((config.ServerPort < 1 ∨ 65535 < config.ServerPort) ∨
       (config.UseAWSComprehend = true ∧ config.AWSRegion = "") ∨
       config.MaxTextLength ≤ 0 ∨
       (Float32.lt config.MinConfidenceThreshold (.finite 0) = true ∨
        Float32.lt (.finite 1) config.MinConfidenceThreshold = true) ∨
       config.SupportedLanguages = [] ∨
       config.ShutdownTimeoutSeconds ≤ 0) := by
    unfold ValidateConfig
    by_cases h1 : config.ServerPort ≤ 0 ∨ config.ServerPort > 65535
    · rw [if_pos h1]
      refine ⟨fun _ => Or.inl ?_, fun _ => by simp⟩
      rcases h1 with h | h
      · left; omega
      · right; omega
    · have h1' : ¬ (config.ServerPort < 1 ∨ 65535 < config.ServerPort) := by
        intro h; apply h1
        rcases h with h | h
        · left; omega
        · right; omega
      rw [if_neg h1]
      by_cases h2 : config.UseAWSComprehend = true ∧ config.AWSRegion = ""
      · rw [if_pos h2]
        exact ⟨fun _ => Or.inr (Or.inl h2), fun _ => by simp⟩
      · rw [if_neg h2]
        by_cases h3 : config.MaxTextLength ≤ 0
        · rw [if_pos h3]
          exact ⟨fun _ => Or.inr (Or.inr (Or.inl h3)), fun _ => by simp⟩
        · rw [if_neg h3]
          by_cases h4 : Float32.lt config.MinConfidenceThreshold (.finite 0) = true ∨
              Float32.lt (.finite 1) config.MinConfidenceThreshold = true
          · rw [if_pos h4]
            exact ⟨fun _ => Or.inr (Or.inr (Or.inr (Or.inl h4))), fun _ => by simp⟩
          · rw [if_neg h4]
            by_cases h5 : config.SupportedLanguages.length = 0
            · rw [if_pos h5]
              exact ⟨fun _ => Or.inr (Or.inr (Or.inr (Or.inr
                (Or.inl (List.length_eq_zero.mp h5))))), fun _ => by simp⟩
            · rw [if_neg h5]
              have h5' : config.SupportedLanguages ≠ [] :=
                fun h => h5 (List.length_eq_zero.mpr h)
              by_cases h6 : config.ShutdownTimeoutSeconds ≤ 0
              · rw [if_pos h6]
                exact ⟨fun _ => Or.inr (Or.inr (Or.inr (Or.inr (Or.inr h6)))),
                  fun _ => by simp⟩
              · rw [if_neg h6]
                refine ⟨fun h => absurd rfl h, ?_⟩
                rintro (h | h | h | h | h | h)
                · exact absurd h h1'
                · exact absurd h h2
                · exact absurd h h3
                · exact absurd h h4
                · exact absurd h h5'
                · exact absurd h h6
  refine ⟨hiff, fun h => hiff.mpr (Or.inr (Or.inr (Or.inr (Or.inr (Or.inl h))))), ?_⟩
  intro env henv
  have hcfg : NewConfigProvider env = NewConfigProvider emptyEnvironment := by
    simp [NewConfigProvider, getEnv, getEnvInt, getEnvFloat32, getEnvBool, henv,
      emptyEnvironment]
  rw [hcfg]
  decide!

/-- C29 at the defaults with the supported languages emptied
(`TestValidateConfig_EmptySupportedLanguages`): the configuration is rejected. -/
theorem ValidateConfig_error_iff_witness :
    ValidateConfig { NewConfigProvider emptyEnvironment with SupportedLanguages := [] }
      ≠ none ∧
    ValidateConfig (NewConfigProvider emptyEnvironment) = none :=
  ⟨(ValidateConfig_error_iff
      { NewConfigProvider emptyEnvironment with SupportedLanguages := [] }).2.1 rfl,
   (ValidateConfig_error_iff (NewConfigProvider emptyEnvironment)).2.2
      emptyEnvironment (fun _ => rfl)⟩

/-- The loop of `parseSupportedLanguages` trims every entry and keeps the non-empty ones,
in order. -/
theorem appendLanguages_eq (entries : List String) :
    appendLanguages entries =
      (entries.map stringsTrimSpace).filter fun lang => decide (lang ≠ "") := by
  induction entries with
  | nil => rfl
  | cons lang rest ih =>
    by_cases h : stringsTrimSpace lang ≠ ""
    · rw [appendLanguages, if_pos h, ih, List.map_cons,
        List.filter_cons_of_pos (by simpa using h)]
    · rw [appendLanguages, if_neg h, ih, List.map_cons,
        List.filter_cons_of_neg (by simpa using h)]

/-- The scan of `strings.Split(s, ",")`: no entry contains a comma, and joining the entries
with commas gives back the runes read so far followed by the rest of the input. -/
theorem splitCommaFrom_spec (l cur : List Char) (hcur : ∀ r ∈ cur, r ≠ ',') :
    (∀ entry ∈ splitCommaFrom l cur, ',' ∉ entry.data) ∧
    List.intercalate [','] ((splitCommaFrom l cur).map String.data) = cur.reverse ++ l := by
  induction l generalizing cur with
  | nil =>
    refine ⟨?_, by simp [splitCommaFrom, List.intercalate]⟩
    intro entry hentry
    simp only [splitCommaFrom, List.mem_singleton] at hentry
    subst hentry
    intro hmem
    exact hcur ',' (List.mem_reverse.mp hmem) rfl
  | cons r rest ih =>
    by_cases hr : r = ','
    · subst hr
      obtain ⟨h1, h2⟩ := ih [] (by simp)
      have hstep : splitCommaFrom (',' :: rest) cur =
          String.mk cur.reverse :: splitCommaFrom rest [] := by
        simp [splitCommaFrom]
      rw [hstep]
      constructor
      · intro entry hentry
        rcases List.mem_cons.mp hentry with rfl | hentry
        · intro hmem
          exact hcur ',' (List.mem_reverse.mp hmem) rfl
        · exact h1 entry hentry
      · obtain ⟨hd, tl, htl⟩ : ∃ hd tl, splitCommaFrom rest [] = hd :: tl := by
          cases rest with
          | nil => exact ⟨_, _, rfl⟩
          | cons a as =>
            by_cases ha : a = ','
            · exact ⟨_, _, by rw [splitCommaFrom, if_pos ha]⟩
            · cases hsp : splitCommaFrom (a :: as) [] with
              | nil =>
                exfalso
                have : ∀ (l cur : List Char), splitCommaFrom l cur ≠ [] := by
                  intro l
                  induction l with
                  | nil => intro cur; simp [splitCommaFrom]
                  | cons b bs ihb =>
                    intro cur
                    by_cases hb : b = ','
                    · rw [splitCommaFrom, if_pos hb]; simp
                    · rw [splitCommaFrom, if_neg hb]; exact ihb _
                exact this _ _ hsp
              | cons hd tl => exact ⟨hd, tl, rfl⟩
        rw [htl] at h2 ⊢
        simp only [List.map_cons, List.intercalate, List.intersperse_cons_cons,
          List.flatten_cons] at h2 ⊢
        rw [h2]
        simp
    · have hstep : splitCommaFrom (r :: rest) cur = splitCommaFrom rest (r :: cur) := by
        rw [splitCommaFrom, if_neg hr]
      rw [hstep]
      obtain ⟨h1, h2⟩ := ih (r :: cur) (by
        intro x hx
        rcases List.mem_cons.mp hx with rfl | hx
        · exact hr
        · exact hcur x hx)
      exact ⟨h1, by rw [h2]; simp⟩

/-- C30: for every non-empty string `s` with at least one comma-separated entry that is
non-empty after trimming white space, `parseSupportedLanguages(s)` is the list of the
comma-separated entries of `s`, each trimmed of surrounding white space, without the empty
ones, in their original order. The comma-separated entries are the comma-free strings that,
joined by commas, give back `s`. -/
theorem parseSupportedLanguages_entries (s : String) (hne : s ≠ "")
    (hsome : ∃ entry ∈ stringsSplitComma s, stringsTrimSpace entry ≠ "") :
    parseSupportedLanguages s =
      ((stringsSplitComma s).map stringsTrimSpace).filter (fun lang => decide (lang ≠ "")) ∧
    (∀ entry ∈ stringsSplitComma s, ',' ∉ entry.data) ∧
    List.intercalate [','] ((stringsSplitComma s).map String.data) = s.data := by
  obtain ⟨h1, h2⟩ := splitCommaFrom_spec s.data [] (by simp)
  refine ⟨?_, h1, by simpa [stringsSplitComma] using h2⟩
  have hres : appendLanguages (stringsSplitComma s) ≠ [] := by
    rw [appendLanguages_eq]
    obtain ⟨entry, hentry, htrim⟩ := hsome
    intro hnil
    have hmem : stringsTrimSpace entry ∈
        ((stringsSplitComma s).map stringsTrimSpace).filter
          (fun lang => decide (lang ≠ "")) :=
      List.mem_filter.mpr ⟨List.mem_map_of_mem _ hentry, by simpa using htrim⟩
    rw [hnil] at hmem
    exact absurd hmem (List.not_mem_nil _)
  have hlen : (appendLanguages (stringsSplitComma s)).length ≠ 0 :=
    fun h => hres (List.length_eq_zero.mp h)
  simp only [parseSupportedLanguages, hne, if_false, hlen]
  exact appendLanguages_eq _

/-- C30 at two inputs of `TestParseSupportedLanguages`: "en-US, es-ES , fr-FR " gives
[en-US, es-ES, fr-FR] and "en-US,,es-ES," gives [en-US, es-ES]. -/
theorem parseSupportedLanguages_entries_witness :
    (parseSupportedLanguages "en-US, es-ES , fr-FR " =
        ((stringsSplitComma "en-US, es-ES , fr-FR ").map stringsTrimSpace).filter
          (fun lang => decide (lang ≠ "")) ∧
      stringsSplitComma "en-US, es-ES , fr-FR " = ["en-US", " es-ES ", " fr-FR "] ∧
      parseSupportedLanguages "en-US, es-ES , fr-FR " = ["en-US", "es-ES", "fr-FR"]) ∧
    (parseSupportedLanguages "en-US,,es-ES," =
        ((stringsSplitComma "en-US,,es-ES,").map stringsTrimSpace).filter
          (fun lang => decide (lang ≠ "")) ∧
      stringsSplitComma "en-US,,es-ES," = ["en-US", "", "es-ES", ""] ∧
      parseSupportedLanguages "en-US,,es-ES," = ["en-US", "es-ES"]) :=
  ⟨⟨(parseSupportedLanguages_entries "en-US, es-ES , fr-FR " (by decide) (by decide)).1,
    by decide, by decide⟩,
   ⟨(parseSupportedLanguages_entries "en-US,,es-ES," (by decide) (by decide)).1,
    by decide, by decide⟩⟩


/-- C31: `parseSupportedLanguages` never returns an empty list and never returns the empty
string as a code: for the empty string it returns the thirteen default codes in their
order, and for a non-empty string all of whose comma-separated entries are blank after
trimming (such as ",,," or " , ") it returns [en-US, unknown]. -/
theorem parseSupportedLanguages_never_empty (s : String) :
    parseSupportedLanguages s ≠ [] ∧
    (∀ code ∈ parseSupportedLanguages s, code ≠ "") ∧
    parseSupportedLanguages "" =
      ["en-US", "es-ES", "fr-FR", "de-DE", "it-IT", "pt-PT", "ru-RU",
       "ja-JP", "ko-KR", "zh-CN", "ar-SA", "hi-IN", "unknown"] ∧
    (s ≠ "" → (∀ entry ∈ stringsSplitComma s, stringsTrimSpace entry = "") →
      parseSupportedLanguages s = ["en-US", "unknown"]) ∧
    parseSupportedLanguages ",,," = ["en-US", "unknown"] ∧
    parseSupportedLanguages " , " = ["en-US", "unknown"] := by
  refine ⟨?_, ?_, by decide, ?_, by decide, by decide⟩
  · by_cases hs : s = ""
    · subst hs
      decide
    · by_cases hlen : (appendLanguages (stringsSplitComma s)).length = 0
      · simp [parseSupportedLanguages, hs, hlen]
      · simp only [parseSupportedLanguages, hs, if_false, hlen]
        exact fun h => hlen (by rw [h]; rfl)
  · intro code hcode
    by_cases hs : s = ""
    · subst hs
      revert code
      decide
    · by_cases hlen : (appendLanguages (stringsSplitComma s)).length = 0
      · simp only [parseSupportedLanguages, hs, if_false, hlen, if_true] at hcode
        revert code
        decide
      · simp only [parseSupportedLanguages, hs, if_false, hlen] at hcode
        rw [appendLanguages_eq] at hcode
        simpa using (List.mem_filter.mp hcode).2
  · intro hs hblank
    have hnil : appendLanguages (stringsSplitComma s) = [] := by
      rw [appendLanguages_eq, List.filter_eq_nil_iff]
      intro lang hlang
      obtain ⟨entry, hentry, rfl⟩ := List.mem_map.mp hlang
      simp [hblank entry hentry]
    simp [parseSupportedLanguages, hs, hnil]

/-- C32: `convertToProtobufResponse` returns a message with the language code, confidence
and document id of the domain result, with metadata carrying its processing time, service
version, model version and provider, and with a list of alternatives of the same length
whose i-th entry has the language code and confidence of the i-th domain alternative; a
domain result without alternatives (nil or empty) gives a list of length 0. -/
theorem convertToProtobufResponse_preserves (resp : LanguageDetectionResponse) :
    ∃ out metadata, convertToProtobufResponse (some resp) = some out ∧
      out.LanguageCode = resp.LanguageCode ∧
      out.Confidence = resp.Confidence ∧
      out.DocumentId = resp.DocumentID ∧
      out.Metadata = some metadata ∧
      metadata.ProcessingTimeMs = resp.Metadata.ProcessingTimeMs ∧
      metadata.ServiceVersion = resp.Metadata.ServiceVersion ∧
      metadata.ModelVersion = resp.Metadata.ModelVersion ∧
      metadata.Provider = resp.Metadata.Provider ∧
      out.Alternatives.length = resp.Alternatives.length ∧
      (∀ (i : Nat) (alt : LanguageAlternative), resp.Alternatives[i]? = some alt →
        out.Alternatives[i]? = some (some (pb.LanguageAlternative.mk alt.LanguageCode
          alt.Confidence))) ∧
      (resp.Alternatives = [] → out.Alternatives = []) := by
  have hmap : ∀ l : List LanguageAlternative, appendPbAlternatives l =
      l.map fun alt => some { LanguageCode := alt.LanguageCode, Confidence := alt.Confidence } := by
    intro l
    induction l with
    | nil => rfl
    | cons alt rest ih => rw [appendPbAlternatives, ih, List.map_cons]
  refine ⟨_, _, rfl, rfl, rfl, rfl, rfl, rfl, rfl, rfl, rfl, ?_, ?_, ?_⟩
  · simp [hmap]
  · intro i alt hi
    simp [hmap, hi]
  · intro hnil
    simp [hmap, hnil]


/-! ## The provider-backed adapter: the winner among the alternatives -/

/-- C33 fails at the provider response [("zh", 0.6), ("zh-TW", 0.4)]: the loop that builds
the alternatives skips the entries whose provider tag is the winning provider tag "zh", so
it keeps "zh-TW"; both tags convert to "zh-CN", and the result has the language code
"zh-CN" with the single alternative ("zh-CN", 0.4). -/
theorem AWSComprehendAdapter_DetectLanguage_winner_listed :
    ∃ resp,
      AWSComprehendAdapter.DetectLanguage
        { client := fun _ (n : Nat) =>
            ((some { Languages := [some { LanguageCode := some "zh",
                                          Score := some (.finite (mkRat 3 5)) },
                                   some { LanguageCode := some "zh-TW",
                                          Score := some (.finite (mkRat 2 5)) }] }, none),
              n + 1),
          region := "us-east-1", maxRetries := 3 } exampleRuntime "你好世界" 0
        = some ((some resp, none), 1) ∧
      resp.LanguageCode = "zh-CN" ∧
      resp.Alternatives = [{ LanguageCode := "zh-CN", Confidence := .finite (mkRat 2 5) }] ∧
      resp.LanguageCode ∈ resp.Alternatives.map (fun alt => alt.LanguageCode) ∧
      List.lookup "aws_lang_code" resp.Metadata.Details = some "zh" :=
  ⟨{ LanguageCode := "zh-CN", Confidence := .finite (mkRat 3 5),
     Alternatives := [{ LanguageCode := "zh-CN", Confidence := .finite (mkRat 2 5) }],
     DocumentID := "",
     Metadata := { ProcessingTimeMs := 0, ServiceVersion := "", ModelVersion := "",
                   Provider := "aws-comprehend",
                   Details := [("region", "us-east-1"), ("total_langs", "2"),
                     ("aws_lang_code", "zh")] } },
   by decide!, rfl, rfl, by decide, by decide⟩

/-! ## The pattern-matching detector: the reasons it reports -/

/-- C34: every text whose normalised form has at least 3 bytes tokenises into at least one
word, so the detector never reports `details.reason` "no_words_found": it returns a result
without error whose `details.reason` is "text_too_short", "low_confidence", or absent (when
a language is returned). -/
theorem FallbackAdapter_DetectLanguage_reasons (f : FallbackAdapter) (rt : GoRuntime)
    (hwf : rt.WellFormed) (text : Text) :
    (3 ≤ len (normalizedText rt text) → stringsFields (normalizedText rt text) ≠ []) ∧
    ∃ resp, f.DetectLanguage rt text = (some resp, none) ∧
      List.lookup "reason" resp.Metadata.Details ≠ some "no_words_found" ∧
      (List.lookup "reason" resp.Metadata.Details = some "text_too_short" ∨
        List.lookup "reason" resp.Metadata.Details = some "low_confidence" ∨
        List.lookup "reason" resp.Metadata.Details = none) := by
  refine ⟨words_ne_nil_of_gate rt hwf text, ?_⟩
  obtain ⟨resp, hresp, h | h | h⟩ := FallbackAdapter_answer f rt hwf text
  · exact ⟨resp, hresp, by rw [h.2.2.2.2]; decide, Or.inl h.2.2.2.2⟩
  · exact ⟨resp, hresp, by rw [h.2.2.2.2.2.2]; decide, Or.inr (Or.inl h.2.2.2.2.2.2)⟩
  · exact ⟨resp, hresp, by rw [h.2.2.2.2.2.2]; decide, Or.inr (Or.inr h.2.2.2.2.2.2)⟩

/-- C34 at the text "123 !@#$%^&*() 456" of
`TestFallbackAdapter_DetectLanguage_NumbersAndSymbols`: three words, none a marker word,
and the reason reported is "low_confidence". -/
theorem FallbackAdapter_DetectLanguage_reasons_witness :
    ((3 ≤ len (normalizedText exampleRuntime "123 !@#$%^&*() 456") →
        stringsFields (normalizedText exampleRuntime "123 !@#$%^&*() 456") ≠ []) ∧
      ∃ resp, NewFallbackAdapter.DetectLanguage exampleRuntime "123 !@#$%^&*() 456"
          = (some resp, none) ∧
        List.lookup "reason" resp.Metadata.Details ≠ some "no_words_found" ∧
        (List.lookup "reason" resp.Metadata.Details = some "text_too_short" ∨
          List.lookup "reason" resp.Metadata.Details = some "low_confidence" ∨
          List.lookup "reason" resp.Metadata.Details = none)) ∧
    stringsFields (normalizedText exampleRuntime "123 !@#$%^&*() 456")
      = ["123", "!@#$%^&*()", "456"] ∧
    (NewFallbackAdapter.DetectLanguage exampleRuntime "123 !@#$%^&*() 456").1.bind
      (fun r => List.lookup "reason" r.Metadata.Details) = some "low_confidence" :=
  ⟨FallbackAdapter_DetectLanguage_reasons NewFallbackAdapter exampleRuntime
    exampleRuntime_wellFormed "123 !@#$%^&*() 456", by decide, by decide!⟩


/-! ## The pattern-matching detector: marker words that no word can match -/

/-- A cleaned word is empty or begins and ends with an ASCII letter or digit, when
`unicode.ToLower` maps ASCII letters and digits to ASCII letters and digits. -/
theorem cleanWord_ends (rt : GoRuntime)
    (hascii : ∀ r, notAsciiAlnum r = false → notAsciiAlnum (rt.unicodeToLower r) = false)
    (w : String) :
    ((cleanWord rt w).data.head?.all fun r => !notAsciiAlnum r) = true ∧
    ((cleanWord rt w).data.getLast?.all fun r => !notAsciiAlnum r) = true := by
  have hdata : (cleanWord rt w).data =
      ((w.data.dropWhile notAsciiAlnum).rdropWhile notAsciiAlnum).map rt.unicodeToLower := rfl
  rw [hdata]
  obtain ⟨t, ht⟩ : ∃ t, (w.data.dropWhile notAsciiAlnum).rdropWhile notAsciiAlnum = t :=
    ⟨_, rfl⟩
  have hpre : t <+: w.data.dropWhile notAsciiAlnum := ht ▸ List.rdropWhile_prefix _ _
  have hlast : ∀ hne : t ≠ [], notAsciiAlnum (t.getLast hne) = false := by
    intro hne
    subst ht
    have := List.rdropWhile_last_not notAsciiAlnum (w.data.dropWhile notAsciiAlnum) hne
    simpa using this
  rw [ht]
  cases t with
  | nil => simp
  | cons a rest =>
    constructor
    · obtain ⟨s, hs⟩ := hpre
      have hhead := List.head?_dropWhile_not notAsciiAlnum w.data
      rw [← hs] at hhead
      simp only [List.cons_append, List.head?_cons] at hhead
      simp [hascii a hhead]
    · have h1 := hlast (List.cons_ne_nil a rest)
      rw [List.getLast?_map, List.getLast?_eq_getLast _ (List.cons_ne_nil a rest)]
      simp [hascii _ h1]

set_option maxRecDepth 20000 in
/-- Latin-1 lower-casing maps ASCII letters and digits to ASCII letters and digits. -/
theorem toLowerLatin1_alnum (r : Char) (h : notAsciiAlnum r = false) :
    notAsciiAlnum (toLowerLatin1 r) = false := by
  have key : ∀ n, n < 256 → notAsciiAlnum (Char.ofNat n) = false →
      notAsciiAlnum (toLowerLatin1 (Char.ofNat n)) = false := by decide
  by_cases hlt : r.toNat < 256
  · have := key r.toNat hlt
    rw [Char.ofNat_toNat] at this
    exact this h
  · have hid : toLowerLatin1 r = r := by
      unfold toLowerLatin1
      rw [if_neg (by omega)]
    rw [hid]
    exact h

/-- C35 fails for the empty marker word: a word made of punctuation only, such as "!!!",
cleans to the empty string, which the pattern list [""] contains; the score is 1 with the
empty entry and 0 without it. -/
theorem calculateLanguageScore_empty_pattern_matches :
    cleanWord exampleRuntime "!!!" = "" ∧
    NewFallbackAdapter.calculateLanguageScore exampleRuntime ["!!!"] [""] = .finite 1 ∧
    NewFallbackAdapter.calculateLanguageScore exampleRuntime ["!!!"]
      ([""].filter fun p => decide (p ≠ "") &&
        ((p.data.head?.all fun r => !notAsciiAlnum r) &&
          (p.data.getLast?.all fun r => !notAsciiAlnum r))) = .finite 0 := by
  decide!

/-- C35, amended: when `unicode.ToLower` maps ASCII letters and digits to ASCII letters and
digits, a marker word that begins or ends with a rune outside the ASCII letters and digits
is the cleaned form of no word, and for every word list `calculateLanguageScore(words,
patterns)` is `calculateLanguageScore(words, patterns')`, where `patterns'` is `patterns`
without the entries that begin or end with such a rune. The empty entry stays: it is
matched by the words that consist of such runes only. -/
theorem calculateLanguageScore_unmatchable_patterns (f : FallbackAdapter) (rt : GoRuntime)
    (hascii : ∀ r, notAsciiAlnum r = false → notAsciiAlnum (rt.unicodeToLower r) = false)
    (words : List String) (patterns : List String) :
    (∀ p w, ((p.data.head?.all fun r => !notAsciiAlnum r) &&
        (p.data.getLast?.all fun r => !notAsciiAlnum r)) = false → cleanWord rt w ≠ p) ∧
    f.calculateLanguageScore rt words patterns =
      f.calculateLanguageScore rt words
        (patterns.filter fun p => (p.data.head?.all fun r => !notAsciiAlnum r) &&
          (p.data.getLast?.all fun r => !notAsciiAlnum r)) := by
  have hnever : ∀ p w, ((p.data.head?.all fun r => !notAsciiAlnum r) &&
      (p.data.getLast?.all fun r => !notAsciiAlnum r)) = false → cleanWord rt w ≠ p := by
    intro p w hp heq
    obtain ⟨h1, h2⟩ := cleanWord_ends rt hascii w
    rw [heq] at h1 h2
    rw [h1, h2] at hp
    simp at hp
  refine ⟨hnever, ?_⟩
  have hcount : (words.countP fun w => patterns.contains (cleanWord rt w)) =
      words.countP fun w =>
        (patterns.filter fun p => (p.data.head?.all fun r => !notAsciiAlnum r) &&
          (p.data.getLast?.all fun r => !notAsciiAlnum r)).contains (cleanWord rt w) := by
    apply List.countP_congr
    intro w _
    obtain ⟨h1, h2⟩ := cleanWord_ends rt hascii w
    simp [List.mem_filter, h1, h2]
  rw [calculateLanguageScore_eq, calculateLanguageScore_eq, hcount]

/-- C35 amended, at the words of "über über über" and the marker words "über", "évolutive"
and "ber": the first two are dropped from the pattern list without changing the score,
which is 3 because each word cleans to "ber"; with the configured marker words the detector
answers "unknown" with confidence 0. -/
theorem calculateLanguageScore_unmatchable_patterns_witness :
    ((∀ p w, ((p.data.head?.all fun r => !notAsciiAlnum r) &&
          (p.data.getLast?.all fun r => !notAsciiAlnum r)) = false →
        cleanWord exampleRuntime w ≠ p) ∧
      NewFallbackAdapter.calculateLanguageScore exampleRuntime ["über", "über", "über"]
          ["über", "évolutive", "ber"] =
        NewFallbackAdapter.calculateLanguageScore exampleRuntime ["über", "über", "über"]
          (["über", "évolutive", "ber"].filter fun p =>
            (p.data.head?.all fun r => !notAsciiAlnum r) &&
              (p.data.getLast?.all fun r => !notAsciiAlnum r))) ∧
    (["über", "évolutive", "ber"].filter fun p =>
      (p.data.head?.all fun r => !notAsciiAlnum r) &&
        (p.data.getLast?.all fun r => !notAsciiAlnum r)) = ["ber"] ∧
    cleanWord exampleRuntime "über" = "ber" ∧
    NewFallbackAdapter.calculateLanguageScore exampleRuntime ["über", "über", "über"]
      ["über", "évolutive", "ber"] = .finite 3 ∧
    (NewFallbackAdapter.DetectLanguage exampleRuntime "über über über").1.map
      (fun r => (r.LanguageCode, r.Confidence)) = some ("unknown", .finite 0) :=
  ⟨calculateLanguageScore_unmatchable_patterns NewFallbackAdapter exampleRuntime
    toLowerLatin1_alnum ["über", "über", "über"] ["über", "évolutive", "ber"],
   by decide, by decide, by decide!, by decide!⟩


/-! ## The pattern-matching detector behind the orchestrator -/

/-- The orchestrator rejects with LowConfidence every answer of the pattern-matching
detector whose confidence is below the threshold. -/
theorem DetectLanguage_fallback_low {σ : Type} (f : FallbackAdapter) (rt : GoRuntime)
    (config : ConfigProvider) (req : LanguageDetectionRequest) (elapsedMs : Int) (st : σ)
    (resp : LanguageDetectionResponse)
    (hne : req.Text ≠ "") (hlen : (len req.Text : Int) ≤ config.GetMaxTextLength)
    (hresp : f.DetectLanguage rt req.Text = (some resp, none))
    (hlow : Float32.lt resp.Confidence config.GetMinConfidenceThreshold = true) :
    ∃ e, LanguageDetectionServiceImpl.DetectLanguage
        { detector := f.detector rt σ, config := config } (some req) elapsedMs st
        = some ((none, some e), st) ∧
      errorsIs e (.sentinel .ErrLowConfidence) = true := by
  obtain ⟨s, hs⟩ : ∃ s : LanguageDetectionServiceImpl σ,
      s = { detector := f.detector rt σ, config := config } := ⟨_, rfl⟩
  rw [← hs]
  have hlen1 : (len req.Text : Int) ≤ s.config.GetMaxTextLength := by rw [hs]; exact hlen
  have hv := (validateRequest_eq_none_iff s req).mpr ⟨hne, hlen1⟩
  have hd : s.detector req.Text st = ((some resp, none), st) := by
    rw [hs]
    simp [FallbackAdapter.detector, hresp]
  have hlow1 : Float32.lt resp.Confidence s.config.GetMinConfidenceThreshold = true := by
    rw [hs]; exact hlow
  rcases validateResponse_cases s resp with ⟨-, hr⟩ | ⟨h, -⟩ | ⟨h, -⟩
  · exact ⟨_, DetectLanguage_of_response_rejected s req elapsedMs st st _ _ hv hd hr,
      by simp [errorsIs]⟩
  · rw [hlow1] at h; simp at h
  · rw [hlow1] at h; simp at h

/-- C36: with the pattern-matching detector behind the orchestrator and a threshold above
0, every valid request whose text matches no marker word of any language, or whose
normalised form is shorter than 3 bytes, fails with LowConfidence; and no call returns a
result with confidence 0. -/
theorem DetectLanguage_fallback_no_match_LowConfidence {σ : Type} (f : FallbackAdapter)
    (rt : GoRuntime) (hwf : rt.WellFormed) (config : ConfigProvider)
    (hthr : Float32.lt (.finite 0) config.GetMinConfidenceThreshold = true) :
    (∀ (req : LanguageDetectionRequest) (elapsedMs : Int) (st : σ),
      req.Text ≠ "" → (len req.Text : Int) ≤ config.GetMaxTextLength →
      (len (normalizedText rt req.Text) < 3 ∨
        ∀ entry ∈ f.patterns, ∀ w ∈ stringsFields (normalizedText rt req.Text),
          entry.2.contains (cleanWord rt w) = false) →
      ∃ e, LanguageDetectionServiceImpl.DetectLanguage
          { detector := f.detector rt σ, config := config } (some req) elapsedMs st
          = some ((none, some e), st) ∧
        errorsIs e (.sentinel .ErrLowConfidence) = true) ∧
    (∀ (request : Option LanguageDetectionRequest) (elapsedMs : Int) (st st1 : σ)
      (resp : LanguageDetectionResponse),
      LanguageDetectionServiceImpl.DetectLanguage
          { detector := f.detector rt σ, config := config } request elapsedMs st
          = some ((some resp, none), st1) →
      resp.Confidence ≠ .finite 0) := by
  constructor
  · intro req elapsedMs st hne hlen hnone
    obtain ⟨resp, hresp, h | h | h⟩ := FallbackAdapter_answer f rt hwf req.Text
    · exact DetectLanguage_fallback_low f rt config req elapsedMs st resp hne hlen hresp
        (by rw [h.2.2.1]; exact hthr)
    · rcases hnone with hshort | hnone
      · omega
      · have hzero := (FallbackAdapter_no_match_zero f rt hwf _ h.2.1 hnone).1
        exact DetectLanguage_fallback_low f rt config req elapsedMs st resp hne hlen hresp
          (by rw [h.2.2.2.2.1, hzero]; exact hthr)
    · rcases hnone with hshort | hnone
      · omega
      · have hzero := (FallbackAdapter_no_match_zero f rt hwf _ h.2.1 hnone).1
        exact DetectLanguage_fallback_low f rt config req elapsedMs st resp hne hlen hresp
          (by rw [h.2.2.2.2.1, hzero]; exact hthr)
  · intro request elapsedMs st st1 resp hsucc hzero
    obtain ⟨req, dresp, -, -, -, hr, hresp⟩ := DetectLanguage_success_inv _ _ _ _ _ _ hsucc
    have hconf : resp.Confidence = dresp.Confidence := by rw [hresp]
    have hnot := ((validateResponse_eq_none_iff _ dresp).mp hr).1
    rw [← hconf, hzero] at hnot
    simp only at hnot
    rw [hthr] at hnot
    exact absurd hnot (by decide)

/-- C36 at the default threshold 0.1 and the texts "xyzabc qwerty uiopas dfghjk" (no marker
word) and "Hi" (shorter than 3 bytes): both requests fail with LowConfidence. -/
theorem DetectLanguage_fallback_no_match_LowConfidence_witness :
    (∃ e, LanguageDetectionServiceImpl.DetectLanguage
        { detector := NewFallbackAdapter.detector exampleRuntime Unit,
          config := { GetMaxTextLength := 5000,
                      GetMinConfidenceThreshold := .finite (mkRat 1 10),
                      GetSupportedLanguages := ["en-US", "unknown"],
                      GetServiceVersion := "1.0.0", GetModelVersion := "1.0.0" } }
        (some { Text := "xyzabc qwerty uiopas dfghjk", DocumentID := "doc", Metadata := [] })
        12 () = some ((none, some e), ()) ∧
      errorsIs e (.sentinel .ErrLowConfidence) = true) ∧
    (∃ e, LanguageDetectionServiceImpl.DetectLanguage
        { detector := NewFallbackAdapter.detector exampleRuntime Unit,
          config := { GetMaxTextLength := 5000,
                      GetMinConfidenceThreshold := .finite (mkRat 1 10),
                      GetSupportedLanguages := ["en-US", "unknown"],
                      GetServiceVersion := "1.0.0", GetModelVersion := "1.0.0" } }
        (some { Text := "Hi", DocumentID := "doc", Metadata := [] })
        12 () = some ((none, some e), ()) ∧
      errorsIs e (.sentinel .ErrLowConfidence) = true) :=
  ⟨(DetectLanguage_fallback_no_match_LowConfidence NewFallbackAdapter exampleRuntime
      exampleRuntime_wellFormed
      { GetMaxTextLength := 5000, GetMinConfidenceThreshold := .finite (mkRat 1 10),
        GetSupportedLanguages := ["en-US", "unknown"],
        GetServiceVersion := "1.0.0", GetModelVersion := "1.0.0" } (by decide)).1
      { Text := "xyzabc qwerty uiopas dfghjk", DocumentID := "doc", Metadata := [] } 12 ()
      (by decide) (by decide) (Or.inr (by decide)),
   (DetectLanguage_fallback_no_match_LowConfidence NewFallbackAdapter exampleRuntime
      exampleRuntime_wellFormed
      { GetMaxTextLength := 5000, GetMinConfidenceThreshold := .finite (mkRat 1 10),
        GetSupportedLanguages := ["en-US", "unknown"],
        GetServiceVersion := "1.0.0", GetModelVersion := "1.0.0" } (by decide)).1
      { Text := "Hi", DocumentID := "doc", Metadata := [] } 12 ()
      (by decide) (by decide) (Or.inl (by decide))⟩


/-- The four languages the constructor configures, in the order of the source. -/
theorem NewFallbackAdapter_keys :
    NewFallbackAdapter.patterns.map Prod.fst = ["en-US", "es-ES", "fr-FR", "de-DE"] := by
  decide

/-- C37: for every text the pattern-matching detector returns one of the language codes
en-US, es-ES, fr-FR, de-DE and "unknown", and every alternative carries one of en-US,
es-ES, fr-FR, de-DE; hence under a policy whose supported languages contain these five
codes no call of the orchestrator with this detector fails with InvalidLanguageCode. -/
theorem DetectLanguage_fallback_codes (rt : GoRuntime) (hwf : rt.WellFormed) :
    (∀ text : Text, ∃ resp, NewFallbackAdapter.DetectLanguage rt text = (some resp, none) ∧
      resp.LanguageCode ∈ ["en-US", "es-ES", "fr-FR", "de-DE", "unknown"] ∧
      ∀ alt ∈ resp.Alternatives, alt.LanguageCode ∈ ["en-US", "es-ES", "fr-FR", "de-DE"]) ∧
    (∀ (σ : Type) (config : ConfigProvider),
      (∀ code ∈ ["en-US", "es-ES", "fr-FR", "de-DE", "unknown"],
        code ∈ config.GetSupportedLanguages) →
      ∀ (request : Option LanguageDetectionRequest) (elapsedMs : Int) (st st1 : σ)
        (e : GoError),
        LanguageDetectionServiceImpl.DetectLanguage
            { detector := NewFallbackAdapter.detector rt σ, config := config }
            request elapsedMs st = some ((none, some e), st1) →
        errorsIs e (.sentinel .ErrInvalidLanguageCode) = false) := by
  have hkey : ∀ entry ∈ NewFallbackAdapter.patterns,
      entry.1 ∈ ["en-US", "es-ES", "fr-FR", "de-DE"] := by
    intro entry hentry
    rw [← NewFallbackAdapter_keys]
    exact List.mem_map_of_mem _ hentry
  have hcodes : ∀ text : Text, ∃ resp,
      NewFallbackAdapter.DetectLanguage rt text = (some resp, none) ∧
      resp.LanguageCode ∈ ["en-US", "es-ES", "fr-FR", "de-DE", "unknown"] ∧
      ∀ alt ∈ resp.Alternatives, alt.LanguageCode ∈ ["en-US", "es-ES", "fr-FR", "de-DE"] := by
    intro text
    have halt : ∀ words, words ≠ [] → ∀ alt ∈ NewFallbackAdapter.alternatives rt words,
        alt.LanguageCode ∈ ["en-US", "es-ES", "fr-FR", "de-DE"] := by
      intro words hwords alt ha
      obtain ⟨entry, hentry, -, -, rfl⟩ :=
        (alternatives_spec NewFallbackAdapter rt hwf words alt).mp ha
      exact hkey entry hentry
    obtain ⟨resp, hresp, h | h | h⟩ := FallbackAdapter_answer NewFallbackAdapter rt hwf text
    · refine ⟨resp, hresp, by rw [h.2.1]; decide, ?_⟩
      rw [h.2.2.2.1]
      intro alt ha
      exact absurd ha (List.not_mem_nil _)
    · refine ⟨resp, hresp, by rw [h.2.2.2.1]; decide, ?_⟩
      rw [h.2.2.2.2.2.1]
      exact halt _ h.2.1
    · refine ⟨resp, hresp, ?_, ?_⟩
      · rw [h.2.2.2.1]
        obtain ⟨c, -, -, -, -, hcase⟩ := best_spec NewFallbackAdapter rt hwf _ h.2.1
        rcases hcase with hz | ⟨-, entry, hentry, he, -⟩
        · have hlt := h.2.2.1
          rw [hz, Float32.constants.2] at hlt
          simp [Float32.lt] at hlt
        · rw [he]
          have := hkey entry hentry
          simp only [List.mem_cons] at this ⊢
          tauto
      · rw [h.2.2.2.2.2.1]
        exact halt _ h.2.1
  refine ⟨hcodes, ?_⟩
  intro σ config hsup request elapsedMs st st1 e hfail
  obtain ⟨s, hs⟩ : ∃ s : LanguageDetectionServiceImpl σ,
      s = { detector := NewFallbackAdapter.detector rt σ, config := config } := ⟨_, rfl⟩
  rw [← hs] at hfail
  cases hv : s.validateRequest request with
  | some err =>
    rw [DetectLanguage_of_request_rejected s request elapsedMs st err hv] at hfail
    simp only [Option.some.injEq, Prod.mk.injEq, true_and] at hfail
    rw [← hfail.1]
    cases request with
    | none =>
      simp only [validateRequest_none, Option.some.injEq] at hv
      rw [← hv]
      decide
    | some req =>
      unfold LanguageDetectionServiceImpl.validateRequest at hv
      simp only at hv
      split at hv
      · simp only [Option.some.injEq] at hv
        rw [← hv]
        decide
      · split at hv
        · simp only [Option.some.injEq] at hv
          rw [← hv]
          simp [errorsIs]
        · simp at hv
  | none =>
    cases request with
    | none => simp [validateRequest_none] at hv
    | some req =>
      obtain ⟨resp, hresp, hcode, -⟩ := hcodes req.Text
      have hd : s.detector req.Text st = ((some resp, none), st) := by
        rw [hs]
        simp [FallbackAdapter.detector, hresp]
      rcases validateResponse_cases s resp with ⟨-, hr⟩ | ⟨-, -, hnot, -⟩ | ⟨-, -, hr⟩
      · rw [DetectLanguage_of_response_rejected s req elapsedMs st st _ _ hv hd hr] at hfail
        simp only [Option.some.injEq, Prod.mk.injEq, true_and] at hfail
        rw [← hfail.1]
        simp [errorsIs]
      · exfalso
        apply hnot
        rw [hs]
        exact hsup _ hcode
      · rw [DetectLanguage_of_accepted s req elapsedMs st st resp hv hd hr] at hfail
        simp at hfail

/-- C37 under the runtime of the examples, at the text "hello world" of
`TestFallbackAdapter_DetectLanguage_English`, which is answered en-US. -/
theorem DetectLanguage_fallback_codes_witness :
    ((∀ text : Text, ∃ resp,
        NewFallbackAdapter.DetectLanguage exampleRuntime text = (some resp, none) ∧
        resp.LanguageCode ∈ ["en-US", "es-ES", "fr-FR", "de-DE", "unknown"] ∧
        ∀ alt ∈ resp.Alternatives,
          alt.LanguageCode ∈ ["en-US", "es-ES", "fr-FR", "de-DE"]) ∧
      (∀ (σ : Type) (config : ConfigProvider),
        (∀ code ∈ ["en-US", "es-ES", "fr-FR", "de-DE", "unknown"],
          code ∈ config.GetSupportedLanguages) →
        ∀ (request : Option LanguageDetectionRequest) (elapsedMs : Int) (st st1 : σ)
          (e : GoError),
          LanguageDetectionServiceImpl.DetectLanguage
              { detector := NewFallbackAdapter.detector exampleRuntime σ, config := config }
              request elapsedMs st = some ((none, some e), st1) →
          errorsIs e (.sentinel .ErrInvalidLanguageCode) = false)) ∧
    (NewFallbackAdapter.DetectLanguage exampleRuntime "hello world").1.map
      (fun r => r.LanguageCode) = some "en-US" :=
  ⟨DetectLanguage_fallback_codes exampleRuntime exampleRuntime_wellFormed, by decide!⟩

/-! ## The provider-backed adapter: converting a converted code -/

/-- On a string of ASCII runes, `strings.ToLower` is ASCII lower-casing, for a
`unicode.ToLower` that lower-cases the ASCII runes as Unicode does. -/
theorem stringsToLower_ascii (rt : GoRuntime)
    (hlow : ∀ r : Char, r.toNat < 128 → rt.unicodeToLower r = r.toLower) (s : String)
    (hs : ∀ r ∈ s.data, r.toNat < 128) :
    stringsToLower rt.unicodeToLower s = stringsToLower Char.toLower s := by
  unfold stringsToLower
  congr 1
  apply List.map_congr_left
  intro r hr
  exact hlow r (hs r hr)

set_option maxRecDepth 20000 in
/-- Latin-1 lower-casing is ASCII lower-casing on the ASCII runes. -/
theorem toLowerLatin1_ascii (r : Char) (h : r.toNat < 128) : toLowerLatin1 r = r.toLower := by
  have key : ∀ n, n < 128 → toLowerLatin1 (Char.ofNat n) = (Char.ofNat n).toLower := by
    decide
  have := key r.toNat h
  rw [Char.ofNat_toNat] at this
  exact this

/-- The canonical codes are fixed points of `convertLanguageCode`, for a `unicode.ToLower`
that lower-cases the ASCII runes as Unicode does. -/
theorem convertLanguageCode_canonical (rt : GoRuntime)
    (hlow : ∀ r : Char, r.toNat < 128 → rt.unicodeToLower r = r.toLower) :
    ∀ code ∈ ["en-US", "es-ES", "fr-FR", "de-DE", "it-IT", "pt-PT", "ru-RU",
      "ja-JP", "ko-KR", "zh-CN", "ar-SA", "hi-IN"], convertLanguageCode rt code = code := by
  have hlower : ∀ code ∈ ["en-US", "es-ES", "fr-FR", "de-DE", "it-IT", "pt-PT", "ru-RU",
      "ja-JP", "ko-KR", "zh-CN", "ar-SA", "hi-IN"],
      stringsToLower rt.unicodeToLower code = stringsToLower Char.toLower code := by
    intro code hcode
    apply stringsToLower_ascii rt hlow
    revert code
    decide
  intro code hcode
  unfold convertLanguageCode
  simp only [hlower code hcode]
  revert code
  decide

/-- A converted tag is the tag itself or one of the twelve canonical codes. -/
theorem convertLanguageCode_cases (rt : GoRuntime) (c : String) :
    convertLanguageCode rt c = c ∨
    convertLanguageCode rt c ∈ ["en-US", "es-ES", "fr-FR", "de-DE", "it-IT", "pt-PT",
      "ru-RU", "ja-JP", "ko-KR", "zh-CN", "ar-SA", "hi-IN"] := by
  generalize hconv : convertLanguageCode rt c = x
  unfold convertLanguageCode at hconv
  simp only at hconv
  generalize stringsToLower rt.unicodeToLower c = L at hconv
  by_cases h1 : L = "en"
  · rw [if_pos h1] at hconv; subst hconv; exact Or.inr (by decide)
  rw [if_neg h1] at hconv
  by_cases h2 : L = "es"
  · rw [if_pos h2] at hconv; subst hconv; exact Or.inr (by decide)
  rw [if_neg h2] at hconv
  by_cases h3 : L = "fr"
  · rw [if_pos h3] at hconv; subst hconv; exact Or.inr (by decide)
  rw [if_neg h3] at hconv
  by_cases h4 : L = "de"
  · rw [if_pos h4] at hconv; subst hconv; exact Or.inr (by decide)
  rw [if_neg h4] at hconv
  by_cases h5 : L = "it"
  · rw [if_pos h5] at hconv; subst hconv; exact Or.inr (by decide)
  rw [if_neg h5] at hconv
  by_cases h6 : L = "pt"
  · rw [if_pos h6] at hconv; subst hconv; exact Or.inr (by decide)
  rw [if_neg h6] at hconv
  by_cases h7 : L = "ru"
  · rw [if_pos h7] at hconv; subst hconv; exact Or.inr (by decide)
  rw [if_neg h7] at hconv
  by_cases h8 : L = "ja"
  · rw [if_pos h8] at hconv; subst hconv; exact Or.inr (by decide)
  rw [if_neg h8] at hconv
  by_cases h9 : L = "ko"
  · rw [if_pos h9] at hconv; subst hconv; exact Or.inr (by decide)
  rw [if_neg h9] at hconv
  by_cases h10 : L = "zh" ∨ L = "zh-tw" ∨ L = "zh-cn"
  · rw [if_pos h10] at hconv; subst hconv; exact Or.inr (by decide)
  rw [if_neg h10] at hconv
  by_cases h11 : L = "ar"
  · rw [if_pos h11] at hconv; subst hconv; exact Or.inr (by decide)
  rw [if_neg h11] at hconv
  by_cases h12 : L = "hi"
  · rw [if_pos h12] at hconv; subst hconv; exact Or.inr (by decide)
  rw [if_neg h12] at hconv
  exact Or.inl hconv.symm

/-- C38: `convertLanguageCode` is idempotent, for a `unicode.ToLower` that lower-cases the
ASCII runes as Unicode does: converting a converted tag gives the converted tag. -/
theorem convertLanguageCode_idempotent (rt : GoRuntime)
    (hlow : ∀ r : Char, r.toNat < 128 → rt.unicodeToLower r = r.toLower) (c : String) :
    convertLanguageCode rt (convertLanguageCode rt c) = convertLanguageCode rt c := by
  rcases convertLanguageCode_cases rt c with h | h
  · rw [h, h]
  · exact convertLanguageCode_canonical rt hlow _ h

/-- C38 under the runtime of the examples, at the tags "ZH-tw", "en" and "xx-YY". -/
theorem convertLanguageCode_idempotent_witness :
    (convertLanguageCode exampleRuntime (convertLanguageCode exampleRuntime "ZH-tw") =
        convertLanguageCode exampleRuntime "ZH-tw" ∧
      convertLanguageCode exampleRuntime "ZH-tw" = "zh-CN") ∧
    (convertLanguageCode exampleRuntime (convertLanguageCode exampleRuntime "en") =
        convertLanguageCode exampleRuntime "en" ∧
      convertLanguageCode exampleRuntime "en" = "en-US") ∧
    (convertLanguageCode exampleRuntime (convertLanguageCode exampleRuntime "xx-YY") =
        convertLanguageCode exampleRuntime "xx-YY" ∧
      convertLanguageCode exampleRuntime "xx-YY" = "xx-YY") :=
  ⟨⟨convertLanguageCode_idempotent exampleRuntime toLowerLatin1_ascii "ZH-tw", by decide⟩,
   ⟨convertLanguageCode_idempotent exampleRuntime toLowerLatin1_ascii "en", by decide⟩,
   ⟨convertLanguageCode_idempotent exampleRuntime toLowerLatin1_ascii "xx-YY", by decide⟩⟩

end LanguageDetection
